import Mathlib

/-!
# RPF7 archive decoding (`rpf7.h`)

A shallow embedding of the C header `rpf7.h`, and theorems about it.

Modelling conventions

* Memory is a list of bytes; a pointer into a buffer is the suffix of the
  buffer that starts at the pointed-to byte (`List.drop`).
* `uint32_t` values are natural numbers below `2 ^ 32`; `size_t` arithmetic is
  reduced modulo `2 ^ w`, where `w` is the width of `size_t` on the target
  (64 on LP64 targets, 32 on ILP32 targets).
* The host is little-endian, so a `memcpy` onto a packed struct followed by a
  field read is a little-endian load at the field's offset.
* Behaviour the C standard leaves undefined (a read outside a buffer, the use
  of a released block, a second `free` of a block) is a `Fault`; a recursion
  that exceeds its budget is the fault `outOfFuel`.
* Every `malloc` and `strdup` can fail. The two `malloc` calls of the header
  reader take their outcome as an argument; the tree builder takes the
  outcomes of its allocation requests, in the order of the requests, as a list
  (`Alloc`).
-/

namespace Rpf7

/-- One `uint8_t`. -/
abbrev Byte := Fin 256

/-- Ways an execution can leave the defined behaviour of the program. -/
inductive Fault where
  | bufferOutOfBounds
  | entryOutOfBounds
  | nameOutOfBounds
  | outOfFuel
  | invalidPointer
  | invalidFree
  deriving DecidableEq, Repr

/-- Result of running a piece of the program: a value, or a fault. -/
inductive Res (α : Type) where
  | ok (a : α)
  | fault (f : Fault)
  deriving DecidableEq, Repr

/-! ## Struct layout under `#pragma pack(push, 1)` -/

/-- A member of a struct declaration: its name and its size in bytes. -/
structure Member where
  name : String
  size : Nat
  deriving DecidableEq, Repr

/-- Size of a struct packed with alignment 1: the members follow one another. -/
def sizeof_packed : List Member → Nat
  | [] => 0
  | m :: rest => m.size + sizeof_packed rest

/-- Offset of the member called `field` in a struct packed with alignment 1. -/
def offsetof_packed : List Member → String → Nat
  | [], _ => 0
  | m :: rest, field => if m.name = field then 0 else m.size + offsetof_packed rest field

/-- Size of a union: the size of its largest alternative. -/
def sizeof_union : List (List Member) → Nat
  | [] => 0
  | alt :: rest => max (sizeof_packed alt) (sizeof_union rest)

/-- Members of `rpf7_rpf_header`: four `uint32_t`. -/
def rpf7_rpf_header_members : List Member :=
  [⟨"version", 4⟩, ⟨"entry_count", 4⟩, ⟨"names_data_size", 4⟩, ⟨"encryption_type", 4⟩]

/-- Members of the anonymous struct `file` of the entry union. -/
def file_members : List Member := [⟨"size", 4⟩]

/-- Members of the anonymous struct `directory` of the entry union. -/
def directory_members : List Member := [⟨"first_entry_index", 4⟩, ⟨"entry_count", 4⟩]

/-- Members of `rpf7_rpf_entry`: `uint16_t name_offset`, `uint8_t flags[3]`,
`uint8_t offset[3]`, and the anonymous union of `file` and `directory`. -/
def rpf7_rpf_entry_members : List Member :=
  [⟨"name_offset", 2⟩, ⟨"flags", 3 * 1⟩, ⟨"offset", 3 * 1⟩,
   ⟨"union", sizeof_union [file_members, directory_members]⟩]

/-- The value `sizeof(rpf7_rpf_header)`. -/
def sizeof_header : Nat := sizeof_packed rpf7_rpf_header_members

/-- The value `sizeof(rpf7_rpf_entry)`. -/
def sizeof_entry : Nat := sizeof_packed rpf7_rpf_entry_members

/-! ## Loads -/

/-- Little-endian load of an `n`-byte unsigned integer at pointer `p`. -/
def load_le (p : List Byte) : Nat → Nat
  | 0 => 0
  | n + 1 => (p.getD 0 0).val + 256 * load_le (p.drop 1) n

/-- The C struct `rpf7_rpf_header`. -/
structure rpf7_rpf_header where
  version : Nat
  entry_count : Nat
  names_data_size : Nat
  encryption_type : Nat
  deriving DecidableEq, Repr

/-- The header value after `memcpy(header, data, sizeof(rpf7_rpf_header))`. -/
def header_of_bytes (data : List Byte) : rpf7_rpf_header :=
  { version := load_le (data.drop (offsetof_packed rpf7_rpf_header_members "version")) 4
    entry_count := load_le (data.drop (offsetof_packed rpf7_rpf_header_members "entry_count")) 4
    names_data_size :=
      load_le (data.drop (offsetof_packed rpf7_rpf_header_members "names_data_size")) 4
    encryption_type :=
      load_le (data.drop (offsetof_packed rpf7_rpf_header_members "encryption_type")) 4 }

/-- Field `entry->name_offset`. -/
def entry_name_offset (entry : List Byte) : Nat :=
  load_le (entry.drop (offsetof_packed rpf7_rpf_entry_members "name_offset")) 2

/-- Field `entry->flags`, a pointer to 3 bytes. -/
def entry_flags (entry : List Byte) : List Byte :=
  (entry.drop (offsetof_packed rpf7_rpf_entry_members "flags")).take 3

/-- Field `entry->offset`, a pointer to 3 bytes. -/
def entry_offset (entry : List Byte) : List Byte :=
  (entry.drop (offsetof_packed rpf7_rpf_entry_members "offset")).take 3

/-- Field `entry->file.size`. -/
def entry_file_size (entry : List Byte) : Nat :=
  load_le (entry.drop (offsetof_packed rpf7_rpf_entry_members "union" +
    offsetof_packed file_members "size")) 4

/-- Field `entry->directory.first_entry_index`. -/
def entry_directory_first_entry_index (entry : List Byte) : Nat :=
  load_le (entry.drop (offsetof_packed rpf7_rpf_entry_members "union" +
    offsetof_packed directory_members "first_entry_index")) 4

/-- Field `entry->directory.entry_count`. -/
def entry_directory_entry_count (entry : List Byte) : Nat :=
  load_le (entry.drop (offsetof_packed rpf7_rpf_entry_members "union" +
    offsetof_packed directory_members "entry_count")) 4

/-! ## Entry classification -/

/-- The C function `read_u24_le`: `bytes[0] | bytes[1] << 8 | bytes[2] << 16`,
each byte first converted to `uint32_t`. -/
def read_u24_le (bytes : List Byte) : Nat :=
  ((bytes.getD 0 0).val % 2 ^ 32) |||
    (((bytes.getD 1 0).val <<< 8) % 2 ^ 32) |||
    (((bytes.getD 2 0).val <<< 16) % 2 ^ 32)

/-- The C function `rpf7_is_directory`: `read_u24_le(entry->offset) == 0x7FFFFF`. -/
def rpf7_is_directory (entry : List Byte) : Bool :=
  read_u24_le (entry_offset entry) == 0x7FFFFF

/-! ## Header reader -/

/-- The messages `rpf7_read_header` writes to `stderr`, one constructor per
`fprintf` or `perror` call, in source order. `invalidVersion expected got` is
"Invalid RPF7 Version: expected 0x52504637, got 0x%08X". -/
inductive Diag where
  | headerTooSmall
  | invalidVersion (expected got : Nat)
  | bodyTooSmall
  | allocEntriesFailed
  | allocNamesFailed
  deriving DecidableEq, Repr

/-- What a call of `rpf7_read_header` leaves behind: the returned `int`, the
contents of `*header`, `*entries_out` and `*names_out` when the call wrote
them (`none` when it did not), and the message written to `stderr`. -/
structure ReadResult where
  ret : Int
  header : Option rpf7_rpf_header
  entries_out : Option (List Byte)
  names_out : Option (List Byte)
  stderr : Option Diag
  deriving DecidableEq, Repr

/-- Conversion to `size_t` of width `w`. -/
def size_t (w : Nat) (x : Nat) : Nat := x % 2 ^ w

/-- The bytes `memcpy(dst, src + off, n)` copies; a fault when the source range
leaves the buffer. -/
def memcpy (src : List Byte) (off n : Nat) : Res (List Byte) :=
  if off + n ≤ src.length then .ok ((src.drop off).take n) else .fault .bufferOutOfBounds

/-- The C function `rpf7_read_header`, on a buffer `data` of `data_size =
data.length` bytes. `w` is the width of `size_t`; `entries_alloc` and
`names_alloc` say whether the first and the second `malloc` succeed. -/
def rpf7_read_header (w : Nat) (entries_alloc names_alloc : Bool) (data : List Byte) :
    Res ReadResult :=
  let data_size := data.length
  if data_size < sizeof_header then
    .ok { ret := -1, header := none, entries_out := none, names_out := none,
          stderr := some .headerTooSmall }
  else
    let header := header_of_bytes data
    if header.version ≠ 0x52504637 then
      .ok { ret := -1, header := some header, entries_out := none, names_out := none,
            stderr := some (.invalidVersion 0x52504637 header.version) }
    else
      let entries_bytes := size_t w (size_t w header.entry_count * sizeof_entry)
      let required_size :=
        size_t w (size_t w (sizeof_header + entries_bytes) + size_t w header.names_data_size)
      if data_size < required_size then
        .ok { ret := -1, header := some header, entries_out := none, names_out := none,
              stderr := some .bodyTooSmall }
      else if entries_alloc = false then
        .ok { ret := -1, header := some header, entries_out := none, names_out := none,
              stderr := some .allocEntriesFailed }
      else
        match memcpy data sizeof_header entries_bytes with
        | .fault f => .fault f
        | .ok entries =>
          if names_alloc = false then
            .ok { ret := -1, header := some header, entries_out := none, names_out := none,
                  stderr := some .allocNamesFailed }
          else
            match memcpy data (sizeof_header + entries_bytes)
                (size_t w header.names_data_size) with
            | .fault f => .fault f
            | .ok names_buffer =>
              .ok { ret := 0, header := some header, entries_out := some entries,
                    names_out := some names_buffer, stderr := none }


/-! ## Directory tree builder -/

/-- The C struct `rpf7_file_node`. The `next` link is not a field here: a chain
of file nodes is a list. The name is the string without its terminating NUL,
or `none` when the field is `NULL` (the `strdup` of the name failed). -/
structure rpf7_file_node where
  name : Option (List Byte)
  size : Nat
  offset : Nat
  deriving DecidableEq, Repr

/-- The C struct `rpf7_directory_node`. The chains that start at `subdirs` and
`files` and run through the `next` links are lists, head first. The name is
`none` when the field is `NULL`. -/
inductive rpf7_directory_node where
  | mk (name : Option (List Byte)) (subdirs : List rpf7_directory_node)
      (files : List rpf7_file_node)

/-- Field `dir->name`. -/
def rpf7_directory_node.name : rpf7_directory_node → Option (List Byte)
  | .mk n _ _ => n

/-- The chain `dir->subdirs`. -/
def rpf7_directory_node.subdirs : rpf7_directory_node → List rpf7_directory_node
  | .mk _ s _ => s

/-- The chain `dir->files`. -/
def rpf7_directory_node.files : rpf7_directory_node → List rpf7_file_node
  | .mk _ _ f => f

/-- The expression `&entries[i]`, as the 16 bytes of that record; a fault when the
record is not inside the entry table. -/
def entry_at (entries : List Byte) (i : Nat) : Res (List Byte) :=
  if (i + 1) * sizeof_entry ≤ entries.length then
    .ok ((entries.drop (i * sizeof_entry)).take sizeof_entry)
  else .fault .entryOutOfBounds

/-- The allocator, as seen by one run: the outcomes of the allocation requests
still to come, in order, `true` for a success. Once the list is used up every
request succeeds, so `[]` is the allocator that never fails. -/
abbrev Alloc := List Bool

/-- One allocation request: its outcome and the allocator after it. -/
def alloc_request : Alloc → Bool × Alloc
  | [] => (true, [])
  | b :: rest => (b, rest)

/-- The string that starts at pointer `p`: the bytes before the first NUL; a
fault when the buffer ends before a NUL is found. -/
def read_string : List Byte → Res (List Byte)
  | [] => .fault .nameOutOfBounds
  | b :: rest =>
    if b = 0 then .ok []
    else
      match read_string rest with
      | .ok s => .ok (b :: s)
      | .fault f => .fault f

/-- The C library function `strdup` at pointer `p`: it reads the string at `p`,
then requests a block for the copy; the result is the copy, or `none` (`NULL`)
when the request fails. -/
def strdup (a : Alloc) (p : List Byte) : Res (Option (List Byte) × Alloc) :=
  match read_string p with
  | .fault f => .fault f
  | .ok s =>
    match alloc_request a with
    | (true, a1) => .ok (some s, a1)
    | (false, a1) => .ok (none, a1)

/-- The body of the `for` loop of `rpf7_build_directory_tree`, run for the
indices of the list in order, from the allocator `a`. `recur a i` is the
recursive call `rpf7_build_directory_tree(entries, names_buffer, i)`;
`subdirs` and `files` are the chains built so far, and a new node goes to the
tail of its chain. A child whose recursive call returns `NULL`, and a file
whose `malloc` fails, is skipped. -/
def build_children (recur : Alloc → Nat → Res (Option rpf7_directory_node × Alloc))
    (entries names_buffer : List Byte) :
    List Nat → Alloc → List rpf7_directory_node → List rpf7_file_node →
      Res ((List rpf7_directory_node × List rpf7_file_node) × Alloc)
  | [], a, subdirs, files => .ok ((subdirs, files), a)
  | i :: rest, a, subdirs, files =>
    match entry_at entries i with
    | .fault f => .fault f
    | .ok entry =>
      if rpf7_is_directory entry then
        match recur a i with
        | .fault f => .fault f
        | .ok (none, a1) => build_children recur entries names_buffer rest a1 subdirs files
        | .ok (some subdir, a1) =>
          build_children recur entries names_buffer rest a1 (subdirs ++ [subdir]) files
      else
        match alloc_request a with
        | (false, a1) => build_children recur entries names_buffer rest a1 subdirs files
        | (true, a1) =>
          match strdup a1 (names_buffer.drop (entry_name_offset entry)) with
          | .fault f => .fault f
          | .ok (name, a2) =>
            build_children recur entries names_buffer rest a2 subdirs
              (files ++ [{ name := name, size := entry_file_size entry,
                           offset := read_u24_le (entry_offset entry) }])

/-- The values the loop variable of `for (uint32_t i = first_entry_index;
i < first_entry_index + entry_count; i++)` takes, the bound being computed in
`uint32_t`. -/
def child_indices (first_entry_index entry_count : Nat) : List Nat :=
  List.range' first_entry_index
    ((first_entry_index + entry_count) % 2 ^ 32 - first_entry_index)

/-- The C function `rpf7_build_directory_tree`, from the allocator `a`: the
returned tree (`none` is `NULL`) and the allocator after the call. The first
argument bounds the depth of the recursion. When the `malloc` of the directory
node fails the result is `NULL`; when the `strdup` of its name fails the node
has a `NULL` name. -/
def rpf7_build_directory_tree :
    Nat → List Byte → List Byte → Alloc → Nat → Res (Option rpf7_directory_node × Alloc)
  | 0, _, _, _, _ => .fault .outOfFuel
  | fuel + 1, entries, names_buffer, a, index =>
    match entry_at entries index with
    | .fault f => .fault f
    | .ok directory_entry =>
      if rpf7_is_directory directory_entry = false then .ok (none, a)
      else
        match alloc_request a with
        | (false, a1) => .ok (none, a1)
        | (true, a1) =>
          match strdup a1 (names_buffer.drop (entry_name_offset directory_entry)) with
          | .fault f => .fault f
          | .ok (name, a2) =>
            let first_entry_index := entry_directory_first_entry_index directory_entry
            let entry_count := entry_directory_entry_count directory_entry
            match build_children (rpf7_build_directory_tree fuel entries names_buffer)
                entries names_buffer (child_indices first_entry_index entry_count) a2 [] [] with
            | .fault f => .fault f
            | .ok ((subdirs, files), a3) => .ok (some (.mk name subdirs files), a3)

/-! ## The builder when every allocation succeeds

The two functions below are `build_children` and `rpf7_build_directory_tree`
without the allocator, every request being a success. They serve in proofs
only: `build_tree_ok_eq` shows that the builder, run from an allocator that
never fails, computes what `build_tree_ok` computes. -/

/-- The child loop when every allocation succeeds. -/
def build_children_ok (recur : Nat → Res (Option rpf7_directory_node))
    (entries names_buffer : List Byte) :
    List Nat → List rpf7_directory_node → List rpf7_file_node →
      Res (List rpf7_directory_node × List rpf7_file_node)
  | [], subdirs, files => .ok (subdirs, files)
  | i :: rest, subdirs, files =>
    match entry_at entries i with
    | .fault f => .fault f
    | .ok entry =>
      if rpf7_is_directory entry then
        match recur i with
        | .fault f => .fault f
        | .ok none => build_children_ok recur entries names_buffer rest subdirs files
        | .ok (some subdir) =>
          build_children_ok recur entries names_buffer rest (subdirs ++ [subdir]) files
      else
        match read_string (names_buffer.drop (entry_name_offset entry)) with
        | .fault f => .fault f
        | .ok name =>
          build_children_ok recur entries names_buffer rest subdirs
            (files ++ [{ name := some name, size := entry_file_size entry,
                         offset := read_u24_le (entry_offset entry) }])

/-- The builder when every allocation succeeds. -/
def build_tree_ok :
    Nat → List Byte → List Byte → Nat → Res (Option rpf7_directory_node)
  | 0, _, _, _ => .fault .outOfFuel
  | fuel + 1, entries, names_buffer, index =>
    match entry_at entries index with
    | .fault f => .fault f
    | .ok directory_entry =>
      if rpf7_is_directory directory_entry = false then .ok none
      else
        match read_string (names_buffer.drop (entry_name_offset directory_entry)) with
        | .fault f => .fault f
        | .ok name =>
          let first_entry_index := entry_directory_first_entry_index directory_entry
          let entry_count := entry_directory_entry_count directory_entry
          match build_children_ok (build_tree_ok fuel entries names_buffer)
              entries names_buffer (child_indices first_entry_index entry_count) [] [] with
          | .fault f => .fault f
          | .ok (subdirs, files) => .ok (some (.mk (some name) subdirs files))

/-! ## Heap model of the tree builder and of the teardown

The functions above return trees as values. To speak about `malloc`, `free`
and the `next` links, the builder is modelled a second time over an explicit
heap, together with `rpf7_free_directory_tree`. A block is one cell of the
heap; a successful `malloc` or `strdup` returns a fresh cell and no address is
ever handed out twice, so every use of a released block is detected. Whether an
allocation succeeds is decided by the same allocator as above. -/

/-- A heap block: the characters of a `strdup` result, an `rpf7_file_node`, an
`rpf7_directory_node`, or a block that has been released. A pointer field is
`none` for `NULL` and `some a` for the block at address `a`. -/
inductive Cell where
  | chars (s : List Byte)
  | file (name : Option Nat) (size offset : Nat) (next : Option Nat)
  | dir (name : Option Nat) (subdirs files next : Option Nat)
  | freed
  deriving DecidableEq, Repr

/-- The heap: the block at address `a` is the element of index `a`. -/
abbrev Heap := List Cell

/-- The C library function `free`: `free(NULL)` does nothing; releasing a live
block marks it released; anything else is a fault. -/
def heap_free (h : Heap) : Option Nat → Res Heap
  | none => .ok h
  | some a =>
    match h[a]? with
    | some (.chars _) => .ok (h.set a .freed)
    | some (.file _ _ _ _) => .ok (h.set a .freed)
    | some (.dir _ _ _ _) => .ok (h.set a .freed)
    | _ => .fault .invalidFree

/-- The store `p->next = q` for a directory node `p`. -/
def store_dir_next (h : Heap) (p : Nat) (q : Option Nat) : Res Heap :=
  match h[p]? with
  | some (.dir name subdirs files _) => .ok (h.set p (.dir name subdirs files q))
  | _ => .fault .invalidPointer

/-- The store `p->subdirs = q` for a directory node `p`. -/
def store_dir_subdirs (h : Heap) (p : Nat) (q : Option Nat) : Res Heap :=
  match h[p]? with
  | some (.dir name _ files next) => .ok (h.set p (.dir name q files next))
  | _ => .fault .invalidPointer

/-- The store `p->files = q` for a directory node `p`. -/
def store_dir_files (h : Heap) (p : Nat) (q : Option Nat) : Res Heap :=
  match h[p]? with
  | some (.dir name subdirs _ next) => .ok (h.set p (.dir name subdirs q next))
  | _ => .fault .invalidPointer

/-- The store `p->next = q` for a file node `p`. -/
def store_file_next (h : Heap) (p : Nat) (q : Option Nat) : Res Heap :=
  match h[p]? with
  | some (.file name size offset _) => .ok (h.set p (.file name size offset q))
  | _ => .fault .invalidPointer

/-- The statement `if (last_subdir) last_subdir->next = subdir; else
directory->subdirs = subdir;`. -/
def link_subdir (h : Heap) (directory : Nat) (last_subdir : Option Nat) (subdir : Nat) :
    Res Heap :=
  match last_subdir with
  | some l => store_dir_next h l (some subdir)
  | none => store_dir_subdirs h directory (some subdir)

/-- The statement `if (last_file) last_file->next = file; else
directory->files = file;`. -/
def link_file (h : Heap) (directory : Nat) (last_file : Option Nat) (file : Nat) :
    Res Heap :=
  match last_file with
  | some l => store_file_next h l (some file)
  | none => store_dir_files h directory (some file)

/-- The `name` field of the node at address `p` after `p->name = strdup(...)`:
the block that follows the node, or `NULL` when `strdup` returned `NULL`. -/
def name_field (p : Nat) : Option (List Byte) → Option Nat
  | some _ => some (p + 1)
  | none => none

/-- The block a call of `strdup` allocated: the characters, or nothing when it
returned `NULL`. -/
def name_block : Option (List Byte) → List Cell
  | some s => [.chars s]
  | none => []

/-- The body of the `for` loop of `rpf7_build_directory_tree` over the heap,
from the allocator `a`. `directory` is the node being filled, `last_subdir` and
`last_file` are the loop variables of the same name, and `recur a i h` is the
recursive call on index `i` in heap `h`. A file node is allocated before its
name; when its `malloc` fails the record is skipped and the heap is left
alone, and when the `strdup` of its name fails its `name` field is `NULL`. -/
def build_children_heap (recur : Alloc → Nat → Heap → Res ((Option Nat × Heap) × Alloc))
    (entries names_buffer : List Byte) (directory : Nat) :
    List Nat → Alloc → Option Nat → Option Nat → Heap → Res (Heap × Alloc)
  | [], a, _, _, h => .ok (h, a)
  | i :: rest, a, last_subdir, last_file, h =>
    match entry_at entries i with
    | .fault f => .fault f
    | .ok entry =>
      if rpf7_is_directory entry then
        match recur a i h with
        | .fault f => .fault f
        | .ok ((none, h1), a1) =>
          build_children_heap recur entries names_buffer directory rest a1 last_subdir
            last_file h1
        | .ok ((some subdir, h1), a1) =>
          match link_subdir h1 directory last_subdir subdir with
          | .fault f => .fault f
          | .ok h2 =>
            build_children_heap recur entries names_buffer directory rest a1 (some subdir)
              last_file h2
      else
        match alloc_request a with
        | (false, a1) =>
          build_children_heap recur entries names_buffer directory rest a1 last_subdir
            last_file h
        | (true, a1) =>
          match strdup a1 (names_buffer.drop (entry_name_offset entry)) with
          | .fault f => .fault f
          | .ok (name, a2) =>
            match link_file
                (h ++ (.file (name_field h.length name) (entry_file_size entry)
                        (read_u24_le (entry_offset entry)) none :: name_block name))
                directory last_file h.length with
            | .fault f => .fault f
            | .ok h2 =>
              build_children_heap recur entries names_buffer directory rest a2 last_subdir
                (some h.length) h2

/-- The C function `rpf7_build_directory_tree` over the heap, from the
allocator `a`: the returned pointer, the heap after the call and the allocator
after the call. When the `malloc` of the directory node fails the result is
`NULL` and the heap is left alone. Otherwise the directory node is allocated
before its name, its `name` field is `NULL` when the `strdup` fails, and its
`subdirs`, `files` and `next` fields start as `NULL`. -/
def rpf7_build_directory_tree_heap :
    Nat → List Byte → List Byte → Alloc → Nat → Heap → Res ((Option Nat × Heap) × Alloc)
  | 0, _, _, _, _, _ => .fault .outOfFuel
  | fuel + 1, entries, names_buffer, a, index, h =>
    match entry_at entries index with
    | .fault f => .fault f
    | .ok directory_entry =>
      if rpf7_is_directory directory_entry = false then .ok ((none, h), a)
      else
        match alloc_request a with
        | (false, a1) => .ok ((none, h), a1)
        | (true, a1) =>
          match strdup a1 (names_buffer.drop (entry_name_offset directory_entry)) with
          | .fault f => .fault f
          | .ok (name, a2) =>
            let first_entry_index := entry_directory_first_entry_index directory_entry
            let entry_count := entry_directory_entry_count directory_entry
            match build_children_heap
                (rpf7_build_directory_tree_heap fuel entries names_buffer)
                entries names_buffer h.length
                (child_indices first_entry_index entry_count) a2 none none
                (h ++ (.dir (name_field h.length name) none none none :: name_block name)) with
            | .fault f => .fault f
            | .ok (h1, a3) => .ok ((some h.length, h1), a3)

/-- The loop `while (file) { next_file = file->next; free(file->name);
free(file); file = next_file; }`: the heap after the loop and the addresses
released, in order. The first argument bounds the number of iterations. -/
def free_files : Nat → Option Nat → Heap → Res (Heap × List Nat)
  | _, none, h => .ok (h, [])
  | 0, some _, _ => .fault .outOfFuel
  | k + 1, some file, h =>
    match h[file]? with
    | some (.file name _ _ next_file) =>
      match heap_free h name with
      | .fault f => .fault f
      | .ok h1 =>
        match heap_free h1 (some file) with
        | .fault f => .fault f
        | .ok h2 =>
          match free_files k next_file h2 with
          | .fault f => .fault f
          | .ok (h3, released) => .ok (h3, name.toList ++ [file] ++ released)
    | _ => .fault .invalidPointer

/-- The loop `while (subdir) { next_subdir = subdir->next;
rpf7_free_directory_tree(subdir); subdir = next_subdir; }`, `recur` being the
recursive call. The first argument bounds the number of iterations. -/
def free_subdirs (recur : Option Nat → Heap → Res (Heap × List Nat)) :
    Nat → Option Nat → Heap → Res (Heap × List Nat)
  | _, none, h => .ok (h, [])
  | 0, some _, _ => .fault .outOfFuel
  | k + 1, some subdir, h =>
    match h[subdir]? with
    | some (.dir _ _ _ next_subdir) =>
      match recur (some subdir) h with
      | .fault f => .fault f
      | .ok (h1, released1) =>
        match free_subdirs recur k next_subdir h1 with
        | .fault f => .fault f
        | .ok (h2, released2) => .ok (h2, released1 ++ released2)
    | _ => .fault .invalidPointer

/-- The field read `dir->subdirs`. -/
def load_dir_subdirs (h : Heap) (dir : Nat) : Res (Option Nat) :=
  match h[dir]? with
  | some (.dir _ subdirs _ _) => .ok subdirs
  | _ => .fault .invalidPointer

/-- The field read `dir->files`. -/
def load_dir_files (h : Heap) (dir : Nat) : Res (Option Nat) :=
  match h[dir]? with
  | some (.dir _ _ files _) => .ok files
  | _ => .fault .invalidPointer

/-- The field read `dir->name`. -/
def load_dir_name (h : Heap) (dir : Nat) : Res (Option Nat) :=
  match h[dir]? with
  | some (.dir name _ _ _) => .ok name
  | _ => .fault .invalidPointer

/-- The C function `rpf7_free_directory_tree`: the heap after the call and the
addresses released, in the order of the calls of `free`. The first argument
bounds the depth of the recursion and the number of iterations of each loop. -/
def rpf7_free_directory_tree :
    Nat → Option Nat → Heap → Res (Heap × List Nat)
  | 0, _, _ => .fault .outOfFuel
  | _ + 1, none, h => .ok (h, [])
  | fuel + 1, some dir, h =>
    match load_dir_subdirs h dir with
    | .fault f => .fault f
    | .ok subdirs =>
      match free_subdirs (rpf7_free_directory_tree fuel) fuel subdirs h with
      | .fault f => .fault f
      | .ok (h1, released1) =>
        match load_dir_files h1 dir with
        | .fault f => .fault f
        | .ok files =>
          match free_files fuel files h1 with
          | .fault f => .fault f
          | .ok (h2, released2) =>
            match load_dir_name h2 dir with
            | .fault f => .fault f
            | .ok name =>
              match heap_free h2 name with
              | .fault f => .fault f
              | .ok h3 =>
                match heap_free h3 (some dir) with
                | .fault f => .fault f
                | .ok h4 => .ok (h4, released1 ++ released2 ++ name.toList ++ [dir])

/-! ## Concrete inputs -/

/-- A complete archive image: the header (magic, 3 entries, 6 name bytes,
encryption type 9), then `example_entries`, then `example_names`. -/
def example_buffer : List Byte :=
  [0x37, 0x46, 0x50, 0x52, 3, 0, 0, 0, 6, 0, 0, 0, 9, 0, 0, 0,
   0, 0, 0, 0, 0, 0xFF, 0xFF, 0x7F, 1, 0, 0, 0, 2, 0, 0, 0,
   2, 0, 0, 0, 0, 0x10, 0x20, 0x30, 100, 0, 0, 0, 0, 0, 0, 0,
   4, 0, 0, 0, 0, 0xFF, 0xFF, 0x7F, 3, 0, 0, 0, 0, 0, 0, 0,
   0x72, 0, 0x66, 0, 0x64, 0]

/-- Entry table of the example of the spec: a directory at index 0 with children
1 and 2, a file of size 100 at index 1, and an empty directory at index 2. -/
def example_entries : List Byte :=
  [0, 0, 0, 0, 0, 0xFF, 0xFF, 0x7F, 1, 0, 0, 0, 2, 0, 0, 0,
   2, 0, 0, 0, 0, 0x10, 0x20, 0x30, 100, 0, 0, 0, 0, 0, 0, 0,
   4, 0, 0, 0, 0, 0xFF, 0xFF, 0x7F, 3, 0, 0, 0, 0, 0, 0, 0]

/-- Names blob of the example: the strings "r", "f" and "d". -/
def example_names : List Byte := [0x72, 0, 0x66, 0, 0x64, 0]

/-- A header with the magic that announces `2 ^ 32 - 1` entries and
`2 ^ 32 - 1` name bytes, and no body. -/
def example_truncated : List Byte :=
  [0x37, 0x46, 0x50, 0x52, 0xFF, 0xFF, 0xFF, 0xFF, 0xFF, 0xFF, 0xFF, 0xFF, 0, 0, 0, 0]

/-- Sixteen bytes that do not start with the magic. -/
def example_bad_magic : List Byte :=
  [0x37, 0x46, 0x50, 0x53, 0xFF, 0xFF, 0xFF, 0xFF, 0, 0, 0, 0, 0, 0, 0, 0]

/-- A 16-byte buffer with the magic that announces `0x10000000` entries and no
name bytes. -/
def example_wrap_entries : List Byte :=
  [0x37, 0x46, 0x50, 0x52, 0, 0, 0, 0x10, 0, 0, 0, 0, 0, 0, 0, 0]

/-- A 16-byte buffer with the magic that announces no entries and
`2 ^ 32 - 1` name bytes. -/
def example_wrap_names : List Byte :=
  [0x37, 0x46, 0x50, 0x52, 0, 0, 0, 0, 0xFF, 0xFF, 0xFF, 0xFF, 0, 0, 0, 0]

/-- A one-record entry table: a directory named at offset 0 whose child range
is `[0, 1)`, the record itself. -/
def example_self_loop : List Byte :=
  [0, 0, 0, 0, 0, 0xFF, 0xFF, 0x7F, 0, 0, 0, 0, 1, 0, 0, 0]

/-- A two-record entry table: directory 0 has the child range `[1, 2)` and
directory 1 has the child range `[0, 1)`. -/
def example_two_cycle : List Byte :=
  [0, 0, 0, 0, 0, 0xFF, 0xFF, 0x7F, 1, 0, 0, 0, 1, 0, 0, 0,
   2, 0, 0, 0, 0, 0xFF, 0xFF, 0x7F, 0, 0, 0, 0, 1, 0, 0, 0]

/-- A one-record entry table: a directory with `entry_count = 0` whose
`first_entry_index` is 1000, far outside the table. -/
def example_empty_dir : List Byte :=
  [0, 0, 0, 0, 0, 0xFF, 0xFF, 0x7F, 0xE8, 0x03, 0, 0, 0, 0, 0, 0]

/-- A one-record entry table: a directory with `first_entry_index = 1` and
`entry_count = 2 ^ 32 - 1`, whose sum is `2 ^ 32`. -/
def example_wrap_dir : List Byte :=
  [0, 0, 0, 0, 0, 0xFF, 0xFF, 0x7F, 1, 0, 0, 0, 0xFF, 0xFF, 0xFF, 0xFF]

/-- A five-record entry table that describes a tree of nesting depth 3:
directory 0 has the children 1 and 2, directory 1 has the children 3 and 4,
record 2 is a file, directory 3 is empty and record 4 is a file. -/
def example_nested : List Byte :=
  [0, 0, 0, 0, 0, 0xFF, 0xFF, 0x7F, 1, 0, 0, 0, 2, 0, 0, 0,
   4, 0, 0, 0, 0, 0xFF, 0xFF, 0x7F, 3, 0, 0, 0, 2, 0, 0, 0,
   2, 0, 0, 0, 0, 0x10, 0x20, 0x30, 100, 0, 0, 0, 0, 0, 0, 0,
   4, 0, 0, 0, 0, 0xFF, 0xFF, 0x7F, 5, 0, 0, 0, 0, 0, 0, 0,
   2, 0, 0, 0, 0, 0x01, 0x00, 0x00, 7, 0, 0, 0, 0, 0, 0, 0]

/-- An entry table of `2 ^ 32` records: the directory of `example_wrap_dir`,
whose child range is `[1, 2 ^ 32)`, then the empty directory of
`example_empty_dir`, then `2 ^ 32 - 2` records of zero bytes, which are files of
size 0 named at offset 0. -/
def example_wrap_table : List Byte :=
  example_wrap_dir ++ (example_empty_dir ++ List.replicate (16 * (2 ^ 32 - 2)) 0)

/-- The buffer `example_buffer` with bytes 12..15 replaced. -/
def example_buffer_enc : List Byte :=
  [0x37, 0x46, 0x50, 0x52, 3, 0, 0, 0, 6, 0, 0, 0, 0xAA, 0xBB, 0xCC, 0xDD,
   0, 0, 0, 0, 0, 0xFF, 0xFF, 0x7F, 1, 0, 0, 0, 2, 0, 0, 0,
   2, 0, 0, 0, 0, 0x10, 0x20, 0x30, 100, 0, 0, 0, 0, 0, 0, 0,
   4, 0, 0, 0, 0, 0xFF, 0xFF, 0x7F, 3, 0, 0, 0, 0, 0, 0, 0,
   0x72, 0, 0x66, 0, 0x64, 0]

/-- The table `example_entries` with the flags bytes of all three records
replaced. -/
def example_entries_flags : List Byte :=
  [0, 0, 0xA1, 0xA2, 0xA3, 0xFF, 0xFF, 0x7F, 1, 0, 0, 0, 2, 0, 0, 0,
   2, 0, 0xB1, 0xB2, 0xB3, 0x10, 0x20, 0x30, 100, 0, 0, 0, 0, 0, 0, 0,
   4, 0, 0xC1, 0xC2, 0xC3, 0xFF, 0xFF, 0x7F, 3, 0, 0, 0, 0, 0, 0, 0]

/-! ## Specification vocabulary -/

/-- Spec-side reading of "the little-endian u32 at byte offset `off`" of a
buffer: byte `off` is the least significant. -/
def spec_le_u32 (data : List Byte) (off : Nat) : Nat :=
  (data.getD off 0).val + 256 * (data.getD (off + 1) 0).val +
    65536 * (data.getD (off + 2) 0).val + 16777216 * (data.getD (off + 3) 0).val

/-- Spec-side reading of "record `i` of the entry table": the 16 bytes at
`[16 * i, 16 * i + 16)`. -/
def spec_record (entries : List Byte) (i : Nat) : List Byte :=
  (entries.drop (16 * i)).take 16

/-- Spec-side reading of "the null-terminated string starting at `names[off]`":
the bytes from `off` up to, and without, the first NUL. -/
def spec_c_string (names : List Byte) (off : Nat) : List Byte :=
  (names.drop off).takeWhile (fun b => b != 0)

/-- Spec-side file node of record `i`: its name, its file size and its decoded
24-bit offset. -/
def spec_file_node (entries names : List Byte) (i : Nat) : rpf7_file_node :=
  { name := some (spec_c_string names (entry_name_offset (spec_record entries i)))
    size := entry_file_size (spec_record entries i)
    offset := read_u24_le (entry_offset (spec_record entries i)) }

/-- Spec-side child-file sequence of a directory whose children are the
`count` records from `first` on: the file nodes of the records of the range
that are not directories, in ascending index order. -/
def spec_child_files (entries names : List Byte) (first count : Nat) : List rpf7_file_node :=
  ((List.range' first count).filter
    (fun i => !rpf7_is_directory (spec_record entries i))).map (spec_file_node entries names)

mutual
/-- Nesting depth of a directory node: 1 for a node without subdirectories,
otherwise 1 more than the largest nesting depth of its subdirectories. -/
def rpf7_directory_node.depth : rpf7_directory_node → Nat
  | .mk _ subdirs _ => 1 + depth_list subdirs
/-- Largest nesting depth in a chain of directory nodes, 0 for an empty chain. -/
def depth_list : List rpf7_directory_node → Nat
  | [] => 0
  | s :: rest => max s.depth (depth_list rest)
end

/-- A result together with the allocator after the run. -/
def with_alloc {α : Type} (a : Alloc) : Res α → Res (α × Alloc)
  | .ok x => .ok (x, a)
  | .fault f => .fault f

/-- Spec-side: every request the allocator answers succeeds. -/
def alloc_succeeds (a : Alloc) : Prop := ∀ b ∈ a, b = true

/-- Spec-side: the result of a run, without the allocator. -/
def result_of {α : Type} : Res (α × Alloc) → Res α
  | .ok (x, _) => .ok x
  | .fault f => .fault f

instance (a : Alloc) : Decidable (alloc_succeeds a) :=
  inferInstanceAs (Decidable (∀ b ∈ a, b = true))

/-- Spec-side: the result of a call with the `encryption_type` of the reported
header, when a header was written, replaced by `e`. -/
def with_encryption_type (e : Nat) : Res ReadResult → Res ReadResult
  | .fault f => .fault f
  | .ok r =>
    .ok { ret := r.ret
          header := r.header.map (fun h => { h with encryption_type := e })
          entries_out := r.entries_out
          names_out := r.names_out
          stderr := r.stderr }

/-- Spec-side: two entry tables differ at most in the flags bytes (bytes 2..4)
of their records. -/
def same_up_to_flags (entries1 entries2 : List Byte) : Prop :=
  entries1.length = entries2.length ∧
  ∀ k, k % 16 ≠ 2 → k % 16 ≠ 3 → k % 16 ≠ 4 → entries1.getD k 0 = entries2.getD k 0

/-- Everything the builder reads from a record is determined by the bytes of
the record other than the flags. -/
structure SameFields (r1 r2 : List Byte) : Prop where
  is_directory : rpf7_is_directory r1 = rpf7_is_directory r2
  name_offset : entry_name_offset r1 = entry_name_offset r2
  file_size : entry_file_size r1 = entry_file_size r2
  offset : read_u24_le (entry_offset r1) = read_u24_le (entry_offset r2)
  first_entry_index :
    entry_directory_first_entry_index r1 = entry_directory_first_entry_index r2
  entry_count : entry_directory_entry_count r1 = entry_directory_entry_count r2

/-- Spec-side: a file node together with the address of its block; its name,
when it has one, is the block that follows. -/
structure LFile where
  addr : Nat
  name : Option (List Byte)
  size : Nat
  offset : Nat

/-- Spec-side: a directory tree together with the addresses of its blocks; the
name of a node, when it has one, is the block that follows the node. -/
inductive LDir where
  | mk (addr : Nat) (name : Option (List Byte)) (subdirs : List LDir)
      (files : List LFile)

/-- Address of the directory node of a located tree. -/
def LDir.addr : LDir → Nat
  | .mk a _ _ _ => a

/-- Pointer to the first node of a chain of directories. -/
def dirs_head : List LDir → Option Nat
  | [] => none
  | t :: _ => some t.addr

/-- Pointer to the first node of a chain of files. -/
def files_head : List LFile → Option Nat
  | [] => none
  | f :: _ => some f.addr

/-- Pointer to the last node of a chain of directories. -/
def dirs_last : List LDir → Option Nat
  | [] => none
  | [t] => some t.addr
  | _ :: t :: rest => dirs_last (t :: rest)

/-- Pointer to the last node of a chain of files. -/
def files_last : List LFile → Option Nat
  | [] => none
  | [f] => some f.addr
  | _ :: f :: rest => files_last (f :: rest)

/-- The blocks of one node, in the order of their release: its name, when it
has one, then the node. -/
def node_released (p : Nat) (name : Option (List Byte)) : List Nat :=
  (name_field p name).toList ++ [p]

/-- Post-order listing of the blocks of a chain of files: for each file its
name, then its node. -/
def files_released : List LFile → List Nat
  | [] => []
  | f :: rest => node_released f.addr f.name ++ files_released rest

mutual
/-- Post-order listing of the blocks of a located tree: the listings of the
subdirectories in chain order, then the files, then the name of the directory,
then its node. -/
def LDir.released : LDir → List Nat
  | .mk a name subs files =>
    dirs_released subs ++ (files_released files ++ node_released a name)
/-- Post-order listing of the blocks of a chain of located trees. -/
def dirs_released : List LDir → List Nat
  | [] => []
  | t :: rest => t.released ++ dirs_released rest
end

/-- The heap holds the name of the node at address `p`: the characters in the
block that follows the node, or nothing for a `NULL` name. -/
def name_repr (h : Heap) (p : Nat) : Option (List Byte) → Prop
  | some s => h[p + 1]? = some (.chars s)
  | none => True

/-- The heap holds the chain of files `l`, linked through `next` and ended by
`NULL`. -/
def files_repr (h : Heap) : List LFile → Prop
  | [] => True
  | f :: rest =>
    name_repr h f.addr f.name ∧
    h[f.addr]? = some (.file (name_field f.addr f.name) f.size f.offset (files_head rest)) ∧
    files_repr h rest

mutual
/-- The heap holds the located tree `t`, its directory node having the given
`next` field. -/
def LDir.repr (h : Heap) : LDir → Option Nat → Prop
  | .mk a name subs files, next =>
    name_repr h a name ∧
    h[a]? = some (.dir (name_field a name) (dirs_head subs) (files_head files) next) ∧
    dirs_repr h subs ∧ files_repr h files
/-- The heap holds the chain of located trees `l`, linked through `next` and
ended by `NULL`. -/
def dirs_repr (h : Heap) : List LDir → Prop
  | [] => True
  | t :: rest => t.repr h (dirs_head rest) ∧ dirs_repr h rest
end

/-- The file node a located file stands for. -/
def LFile.erase (f : LFile) : rpf7_file_node :=
  { name := f.name, size := f.size, offset := f.offset }

mutual
/-- The directory tree a located tree stands for. -/
def LDir.erase : LDir → rpf7_directory_node
  | .mk _ name subs files => .mk name (dirs_erase subs) (files.map LFile.erase)
/-- The chain of directory trees a chain of located trees stands for. -/
def dirs_erase : List LDir → List rpf7_directory_node
  | [] => []
  | t :: rest => t.erase :: dirs_erase rest
end

/-- The heap after `free` of the addresses of the list, in order. -/
def release (h : Heap) : List Nat → Heap
  | [] => h
  | a :: rest => release (h.set a .freed) rest

/-- Spec-side: every block of `h` is a block of `h1`, with the same content. -/
def heap_extends (h h1 : Heap) : Prop :=
  h.length ≤ h1.length ∧ ∀ x, x < h.length → h1[x]? = h[x]?

/-- Spec-side: what a returned call of the heap builder has done, `p` being the
returned pointer, `h` and `h1` the heaps before and after the call, `a1` the
allocator after the call, and `value` the result of the value-level builder on
the same arguments. Either the call returned `NULL` and left the heap alone, or
it appended the blocks of a located tree `t`, every new block being a block of
`t`, and the value-level result is the tree `t` stands for; the value-level
builder leaves the same allocator. -/
def BuildPost (h : Heap) (p : Option Nat) (h1 : Heap)
    (value : Res (Option rpf7_directory_node × Alloc)) (a1 : Alloc) : Prop :=
  (p = none ∧ h1 = h ∧ value = .ok (none, a1)) ∨
  (∃ t : LDir, p = some t.addr ∧ heap_extends h h1 ∧ t.repr h1 none ∧ t.released.Nodup ∧
    (∀ x, x ∈ t.released ↔ h.length ≤ x ∧ x < h1.length) ∧
    value = .ok (some t.erase, a1))

/-- Spec-side: the state of the heap inside the child loop of a call that
started in heap `hb`: the directory node is block `hb.length`, its name, when
it has one, is the next block, and the later blocks are the blocks of the
chains `subs` and `files` built so far. -/
structure BuildInv (hb h : Heap) (name : Option (List Byte)) (subs : List LDir)
    (files : List LFile) : Prop where
  old : ∀ x, x < hb.length → h[x]? = hb[x]?
  two : hb.length + 1 + (name_block name).length ≤ h.length
  name_cell : name_repr h hb.length name
  node_cell : h[hb.length]? =
    some (.dir (name_field hb.length name) (dirs_head subs) (files_head files) none)
  subs_repr : dirs_repr h subs
  files_repr : files_repr h files
  nodup_subs : (dirs_released subs).Nodup
  nodup_files : (files_released files).Nodup
  mem : ∀ x, (hb.length + 1 + (name_block name).length ≤ x ∧ x < h.length) ↔
    (x ∈ dirs_released subs ∨ x ∈ files_released files)
  disjoint : ∀ x, x ∈ dirs_released subs → x ∉ files_released files

/-! ## Lemmas: layout and loads -/

theorem sizeof_header_eq : sizeof_header = 16 := by decide

theorem sizeof_entry_eq : sizeof_entry = 16 := by decide

theorem load_le_four (data : List Byte) (off : Nat) :
    load_le (data.drop off) 4 = spec_le_u32 data off := by
  simp only [load_le, spec_le_u32, List.getD_eq_getElem?_getD, List.drop_drop,
    List.getElem?_drop]
  simp only [Nat.add_zero, Nat.add_assoc]
  ring_nf

theorem spec_le_u32_lt (data : List Byte) (off : Nat) : spec_le_u32 data off < 2 ^ 32 := by
  unfold spec_le_u32
  have h0 := (data.getD off 0).isLt
  have h1 := (data.getD (off + 1) 0).isLt
  have h2 := (data.getD (off + 2) 0).isLt
  have h3 := (data.getD (off + 3) 0).isLt
  omega

theorem header_of_bytes_eq (data : List Byte) :
    header_of_bytes data =
      ⟨spec_le_u32 data 0, spec_le_u32 data 4, spec_le_u32 data 8, spec_le_u32 data 12⟩ := by
  have e0 : offsetof_packed rpf7_rpf_header_members "version" = 0 := by decide
  have e1 : offsetof_packed rpf7_rpf_header_members "entry_count" = 4 := by decide
  have e2 : offsetof_packed rpf7_rpf_header_members "names_data_size" = 8 := by decide
  have e3 : offsetof_packed rpf7_rpf_header_members "encryption_type" = 12 := by decide
  simp only [header_of_bytes, e0, e1, e2, e3, load_le_four]

theorem size_t_of_lt {w x : Nat} (h : x < 2 ^ w) : size_t w x = x := Nat.mod_eq_of_lt h

theorem two_pow_37_le {w : Nat} (hw : 37 ≤ w) : 2 ^ 37 ≤ 2 ^ w :=
  Nat.pow_le_pow_right (by decide) hw

/-- On a target whose `size_t` has at least 37 bits no size computation of
`rpf7_read_header` wraps, and the function is the following decision list. -/
theorem rpf7_read_header_exact (w : Nat) (hw : 37 ≤ w) (ea na : Bool) (data : List Byte) :
    rpf7_read_header w ea na data =
      if data.length < 16 then
        .ok { ret := -1, header := none, entries_out := none, names_out := none,
              stderr := some .headerTooSmall }
      else if spec_le_u32 data 0 ≠ 0x52504637 then
        .ok { ret := -1, header := some (header_of_bytes data), entries_out := none,
              names_out := none,
              stderr := some (.invalidVersion 0x52504637 (spec_le_u32 data 0)) }
      else if data.length < 16 + 16 * spec_le_u32 data 4 + spec_le_u32 data 8 then
        .ok { ret := -1, header := some (header_of_bytes data), entries_out := none,
              names_out := none, stderr := some .bodyTooSmall }
      else if ea = false then
        .ok { ret := -1, header := some (header_of_bytes data), entries_out := none,
              names_out := none, stderr := some .allocEntriesFailed }
      else if na = false then
        .ok { ret := -1, header := some (header_of_bytes data), entries_out := none,
              names_out := none, stderr := some .allocNamesFailed }
      else
        .ok { ret := 0, header := some (header_of_bytes data),
              entries_out := some ((data.drop 16).take (16 * spec_le_u32 data 4)),
              names_out :=
                some ((data.drop (16 + 16 * spec_le_u32 data 4)).take (spec_le_u32 data 8)),
              stderr := none } := by
  have hp := two_pow_37_le hw
  have hN := spec_le_u32_lt data 4
  have hM := spec_le_u32_lt data 8
  have s1 : size_t w (spec_le_u32 data 4) = spec_le_u32 data 4 :=
    size_t_of_lt (by omega)
  have s2 : size_t w (spec_le_u32 data 4 * 16) = spec_le_u32 data 4 * 16 :=
    size_t_of_lt (by omega)
  have s3 : size_t w (16 + spec_le_u32 data 4 * 16) = 16 + spec_le_u32 data 4 * 16 :=
    size_t_of_lt (by omega)
  have s4 : size_t w (spec_le_u32 data 8) = spec_le_u32 data 8 :=
    size_t_of_lt (by omega)
  have s5 : size_t w (16 + spec_le_u32 data 4 * 16 + spec_le_u32 data 8) =
      16 + spec_le_u32 data 4 * 16 + spec_le_u32 data 8 := size_t_of_lt (by omega)
  have e16 : 16 * spec_le_u32 data 4 = spec_le_u32 data 4 * 16 := Nat.mul_comm _ _
  unfold rpf7_read_header
  simp only [sizeof_header_eq, sizeof_entry_eq]
  by_cases h1 : data.length < 16
  · simp only [h1, if_true]
  · simp only [h1, if_false]
    have hv : (header_of_bytes data).version = spec_le_u32 data 0 := by
      rw [header_of_bytes_eq]
    have hn : (header_of_bytes data).entry_count = spec_le_u32 data 4 := by
      rw [header_of_bytes_eq]
    have hm : (header_of_bytes data).names_data_size = spec_le_u32 data 8 := by
      rw [header_of_bytes_eq]
    simp only [hv, hn, hm, s1, s2, s3, s4, s5, e16]
    by_cases h2 : spec_le_u32 data 0 ≠ 0x52504637
    · rw [if_pos h2, if_pos h2]
    · rw [if_neg h2, if_neg h2]
      by_cases h3 : data.length < 16 + spec_le_u32 data 4 * 16 + spec_le_u32 data 8
      · rw [if_pos h3, if_pos h3]
      · rw [if_neg h3, if_neg h3]
        by_cases h4 : ea = false
        · rw [if_pos h4, if_pos h4]
        · rw [if_neg h4, if_neg h4]
          have m1 : 16 + spec_le_u32 data 4 * 16 ≤ data.length := by omega
          have m2 : 16 + spec_le_u32 data 4 * 16 + spec_le_u32 data 8 ≤ data.length := by
            omega
          simp only [memcpy, m1, m2, if_true]


theorem read_u24_le_eq (b0 b1 b2 : Byte) :
    read_u24_le [b0, b1, b2] = b0.val + 256 * b1.val + 65536 * b2.val := by
  have h0 := b0.isLt
  have h1 := b1.isLt
  have h2 := b2.isLt
  have e1 : b1.val <<< 8 = 2 ^ 8 * b1.val := by rw [Nat.shiftLeft_eq, Nat.mul_comm]
  have e2 : b2.val <<< 16 = 2 ^ 16 * b2.val := by rw [Nat.shiftLeft_eq, Nat.mul_comm]
  have m0 : b0.val % 2 ^ 32 = b0.val := Nat.mod_eq_of_lt (by omega)
  have m1 : (2 ^ 8 * b1.val) % 2 ^ 32 = 2 ^ 8 * b1.val := Nat.mod_eq_of_lt (by omega)
  have m2 : (2 ^ 16 * b2.val) % 2 ^ 32 = 2 ^ 16 * b2.val := Nat.mod_eq_of_lt (by omega)
  have o1 : 2 ^ 8 * b1.val + b0.val = 2 ^ 8 * b1.val ||| b0.val :=
    Nat.mul_add_lt_is_or (by omega) _
  have o2 : 2 ^ 16 * b2.val + (2 ^ 8 * b1.val + b0.val) =
      2 ^ 16 * b2.val ||| (2 ^ 8 * b1.val + b0.val) :=
    Nat.mul_add_lt_is_or (by omega) _
  have hget0 : ([b0, b1, b2] : List Byte).getD 0 0 = b0 := rfl
  have hget1 : ([b0, b1, b2] : List Byte).getD 1 0 = b1 := rfl
  have hget2 : ([b0, b1, b2] : List Byte).getD 2 0 = b2 := rfl
  unfold read_u24_le
  rw [hget0, hget1, hget2, e1, e2, m0, m1, m2]
  rw [Nat.lor_comm (b0.val ||| 2 ^ 8 * b1.val), Nat.lor_comm b0.val, ← o1, ← o2]
  omega

theorem entry_at_of_lt (entries : List Byte) (i : Nat) (h : (i + 1) * 16 ≤ entries.length) :
    entry_at entries i = .ok ((entries.drop (16 * i)).take 16) := by
  unfold entry_at
  simp only [sizeof_entry_eq]
  rw [if_pos h, Nat.mul_comm i 16]

theorem entry_at_of_not_le (entries : List Byte) (i : Nat)
    (h : ¬ (i + 1) * 16 ≤ entries.length) :
    entry_at entries i = .fault .entryOutOfBounds := by
  unfold entry_at
  simp only [sizeof_entry_eq]
  rw [if_neg h]

theorem entry_at_spec_record (entries : List Byte) (i : Nat)
    (h : (i + 1) * 16 ≤ entries.length) :
    entry_at entries i = .ok (spec_record entries i) :=
  entry_at_of_lt entries i h

theorem take_drop_window (data : List Byte) (a n i : Nat) (h : 16 * (i + 1) ≤ n) :
    (((data.drop a).take n).drop (16 * i)).take 16 = (data.drop (a + 16 * i)).take 16 := by
  rw [List.drop_take, List.take_take, List.drop_drop]
  have e : min 16 (n - 16 * i) = 16 := by omega
  rw [e]

theorem read_string_ok (p s : List Byte) (h : read_string p = .ok s) :
    s = p.takeWhile (fun b => b != 0) := by
  induction p generalizing s with
  | nil => simp [read_string] at h
  | cons b rest ih =>
    unfold read_string at h
    by_cases hb : b = 0
    · rw [if_pos hb] at h
      cases h
      simp [List.takeWhile, hb]
    · rw [if_neg hb] at h
      cases hs : read_string rest with
      | fault f => rw [hs] at h; cases h
      | ok t =>
        rw [hs] at h
        cases h
        rw [ih t hs]
        have hb' : (b != 0) = true := bne_iff_ne.mpr hb
        rw [List.takeWhile_cons, hb']
        rfl

theorem child_indices_of_lt (first count : Nat) (h : first + count < 2 ^ 32) :
    child_indices first count = List.range' first count := by
  unfold child_indices
  rw [Nat.mod_eq_of_lt h, Nat.add_sub_cancel_left]

/-- The file chain the loop leaves is the chain it started with, followed by
the file nodes of the visited records that are not directories. -/
theorem build_children_ok_files (recur : Nat → Res (Option rpf7_directory_node))
    (entries names : List Byte) (idxs : List Nat)
    (hin : ∀ i ∈ idxs, (i + 1) * 16 ≤ entries.length) :
    ∀ (subdirs : List rpf7_directory_node) (files : List rpf7_file_node)
      (subdirs' : List rpf7_directory_node) (files' : List rpf7_file_node),
      build_children_ok recur entries names idxs subdirs files = .ok (subdirs', files') →
      files' = files ++
        (idxs.filter (fun i => !rpf7_is_directory (spec_record entries i))).map
          (spec_file_node entries names) := by
  induction idxs with
  | nil =>
    intro subdirs files subdirs' files' h
    simp only [build_children_ok] at h
    cases h
    simp
  | cons i rest ih =>
    intro subdirs files subdirs' files' h
    have hi : (i + 1) * 16 ≤ entries.length := hin i (List.mem_cons_self _ _)
    have hrest : ∀ j ∈ rest, (j + 1) * 16 ≤ entries.length :=
      fun j hj => hin j (List.mem_cons_of_mem _ hj)
    unfold build_children_ok at h
    rw [entry_at_of_lt entries i hi] at h
    dsimp only at h
    change (if rpf7_is_directory (spec_record entries i) = true then _ else _) = _ at h
    by_cases hd : rpf7_is_directory (spec_record entries i) = true
    · rw [if_pos hd] at h
      have hf : (List.filter (fun i => !rpf7_is_directory (spec_record entries i)) (i :: rest)) =
          List.filter (fun i => !rpf7_is_directory (spec_record entries i)) rest := by
        simp [List.filter, hd]
      rw [hf]
      cases hr : recur i with
      | fault f => rw [hr] at h; cases h
      | ok o =>
        rw [hr] at h
        cases o with
        | none => exact ih hrest _ _ _ _ h
        | some sd => exact ih hrest _ _ _ _ h
    · rw [if_neg hd] at h
      have hd' : rpf7_is_directory (spec_record entries i) = false := by
        simpa using hd
      have hf : (List.filter (fun i => !rpf7_is_directory (spec_record entries i)) (i :: rest)) =
          i :: List.filter (fun i => !rpf7_is_directory (spec_record entries i)) rest := by
        simp [List.filter, hd']
      rw [hf]
      cases hs : read_string (names.drop (entry_name_offset (spec_record entries i))) with
      | fault f =>
        simp only [spec_record] at hs
        rw [hs] at h; cases h
      | ok nm =>
        have hnm := read_string_ok _ _ hs
        simp only [spec_record] at hs
        rw [hs] at h
        rw [ih hrest _ _ _ _ h, List.map_cons, List.append_assoc]
        have : spec_file_node entries names i =
            { name := some nm, size := entry_file_size ((entries.drop (16 * i)).take 16),
              offset := read_u24_le (entry_offset ((entries.drop (16 * i)).take 16)) } := by
          simp only [spec_file_node, spec_c_string, spec_record, hnm]
        rw [this]
        rfl

/-- Inversion of one call of the builder on a directory record: when the call
returns, it read the name, ran the child loop to its end, and returned the node
made of the name and the two chains. -/
theorem build_succ_inv (fuel : Nat) (entries names_buffer : List Byte) (d : Nat)
    (r : Option rpf7_directory_node)
    (hin : (d + 1) * 16 ≤ entries.length)
    (hdir : rpf7_is_directory (spec_record entries d) = true)
    (h : build_tree_ok (fuel + 1) entries names_buffer d = .ok r) :
    ∃ name subdirs files,
      read_string (names_buffer.drop (entry_name_offset (spec_record entries d))) = .ok name ∧
      build_children_ok (build_tree_ok fuel entries names_buffer)
            entries names_buffer
            (child_indices (entry_directory_first_entry_index (spec_record entries d))
              (entry_directory_entry_count (spec_record entries d))) [] [] =
        .ok (subdirs, files) ∧
      r = some (.mk (some name) subdirs files) := by
  rw [build_tree_ok, entry_at_spec_record entries d hin] at h
  dsimp only at h
  rw [if_neg (by rw [hdir]; exact Bool.noConfusion)] at h
  cases hs : read_string (names_buffer.drop (entry_name_offset (spec_record entries d))) with
  | fault f => rw [hs] at h; cases h
  | ok name =>
    rw [hs] at h
    dsimp only at h
    cases hc : build_children_ok (build_tree_ok fuel entries names_buffer)
            entries names_buffer
            (child_indices (entry_directory_first_entry_index (spec_record entries d))
              (entry_directory_entry_count (spec_record entries d))) [] [] with
    | fault f => rw [hc] at h; cases h
    | ok pr =>
      obtain ⟨sd, fl⟩ := pr
      rw [hc] at h
      cases h
      exact ⟨name, sd, fl, rfl, rfl, rfl⟩

/-! ## The header reader on targets with a wide `size_t` -/

/-- On a target whose `size_t` has at least 37 bits (every 64-bit target),
and with both allocations succeeding, `rpf7_read_header` returns without a
fault on every buffer; it returns 0 exactly when the buffer has at least 16
bytes, the little-endian u32 at bytes 0..3 is `0x52504637`, and the buffer has
at least `16 + 16 * entry_count + names_data_size` bytes; and when it returns 0
the header holds the little-endian u32 values at offsets 0, 4, 8 and 12. -/
theorem read_header_success_iff_wide (w : Nat) (hw : 37 ≤ w) (data : List Byte) :
    ∃ r, rpf7_read_header w true true data = .ok r ∧
      (r.ret = 0 ↔
        (16 ≤ data.length ∧ spec_le_u32 data 0 = 0x52504637 ∧
          16 + 16 * spec_le_u32 data 4 + spec_le_u32 data 8 ≤ data.length)) ∧
      (r.ret = 0 →
        r.header = some { version := spec_le_u32 data 0, entry_count := spec_le_u32 data 4,
                          names_data_size := spec_le_u32 data 8,
                          encryption_type := spec_le_u32 data 12 }) := by
  rw [rpf7_read_header_exact w hw]
  by_cases h1 : data.length < 16
  · rw [if_pos h1]
    refine ⟨_, rfl, ?_, ?_⟩
    · constructor
      · intro h; exact absurd h (show ¬ ((-1 : Int) = 0) by decide)
      · intro h; omega
    · intro h; exact absurd h (show ¬ ((-1 : Int) = 0) by decide)
  · rw [if_neg h1]
    by_cases h2 : spec_le_u32 data 0 ≠ 0x52504637
    · rw [if_pos h2]
      refine ⟨_, rfl, ?_, ?_⟩
      · constructor
        · intro h; exact absurd h (show ¬ ((-1 : Int) = 0) by decide)
        · intro h; exact absurd h.2.1 h2
      · intro h; exact absurd h (show ¬ ((-1 : Int) = 0) by decide)
    · rw [if_neg h2]
      by_cases h3 : data.length < 16 + 16 * spec_le_u32 data 4 + spec_le_u32 data 8
      · rw [if_pos h3]
        refine ⟨_, rfl, ?_, ?_⟩
        · constructor
          · intro h; exact absurd h (show ¬ ((-1 : Int) = 0) by decide)
          · intro h; omega
        · intro h; exact absurd h (show ¬ ((-1 : Int) = 0) by decide)
      · rw [if_neg h3]
        refine ⟨_, rfl, ?_, ?_⟩
        · constructor
          · intro _
            exact ⟨by omega, not_not.mp h2, by omega⟩
          · intro _; rfl
        · intro _
          show some (header_of_bytes data) = _
          rw [header_of_bytes_eq]

/-- On a target whose `size_t` has at least 37 bits, a buffer of at least
16 bytes that starts with the magic and is shorter than
`16 + 16 * entry_count + names_data_size` (exact arithmetic) is rejected with
the body-too-small message; no allocation is attempted and neither the entries
nor the names are produced. -/
theorem read_header_body_too_small_wide (w : Nat) (hw : 37 ≤ w) (ea na : Bool) (data : List Byte)
    (hlen : 16 ≤ data.length) (hmagic : spec_le_u32 data 0 = 0x52504637)
    (hbody : data.length < 16 + 16 * spec_le_u32 data 4 + spec_le_u32 data 8) :
    rpf7_read_header w ea na data =
      .ok { ret := -1,
            header := some { version := spec_le_u32 data 0,
                             entry_count := spec_le_u32 data 4,
                             names_data_size := spec_le_u32 data 8,
                             encryption_type := spec_le_u32 data 12 },
            entries_out := none, names_out := none, stderr := some .bodyTooSmall } := by
  rw [rpf7_read_header_exact w hw, if_neg (by omega), if_neg (not_not.mpr hmagic),
    if_pos hbody, header_of_bytes_eq]

/-- On a target whose `size_t` has at least 37 bits, when
`rpf7_read_header` returns 0 with `entry_count = N` and `names_data_size = M`,
the bytes `[16, 16 + 16 * N + M)` lie inside the buffer, the entry array is the
`16 * N` bytes at `[16, 16 + 16 * N)`, its record `i` is the 16 bytes at
`[16 + 16 * i, 32 + 16 * i)`, and the names blob is the `M` bytes at
`[16 + 16 * N, 16 + 16 * N + M)`. -/
theorem read_header_entries_and_names_wide (w : Nat) (hw : 37 ≤ w) (ea na : Bool) (data : List Byte)
    (r : ReadResult) (hr : rpf7_read_header w ea na data = .ok r) (h0 : r.ret = 0) :
    ∃ hdr entries names,
      r.header = some hdr ∧ r.entries_out = some entries ∧ r.names_out = some names ∧
      16 + 16 * hdr.entry_count + hdr.names_data_size ≤ data.length ∧
      entries = (data.drop 16).take (16 * hdr.entry_count) ∧
      entries.length = 16 * hdr.entry_count ∧
      (∀ i, i < hdr.entry_count →
        entry_at entries i = .ok ((data.drop (16 + 16 * i)).take 16) ∧
        ((data.drop (16 + 16 * i)).take 16).length = 16) ∧
      names = (data.drop (16 + 16 * hdr.entry_count)).take hdr.names_data_size ∧
      names.length = hdr.names_data_size := by
  have hne : ¬ ((-1 : Int) = 0) := by decide
  rw [rpf7_read_header_exact w hw] at hr
  by_cases h1 : data.length < 16
  · rw [if_pos h1] at hr
    cases hr; exact absurd h0 hne
  rw [if_neg h1] at hr
  by_cases h2 : spec_le_u32 data 0 ≠ 0x52504637
  · rw [if_pos h2] at hr
    cases hr; exact absurd h0 hne
  rw [if_neg h2] at hr
  by_cases h3 : data.length < 16 + 16 * spec_le_u32 data 4 + spec_le_u32 data 8
  · rw [if_pos h3] at hr
    cases hr; exact absurd h0 hne
  rw [if_neg h3] at hr
  by_cases h4 : ea = false
  · rw [if_pos h4] at hr
    cases hr; exact absurd h0 hne
  rw [if_neg h4] at hr
  by_cases h5 : na = false
  · rw [if_pos h5] at hr
    cases hr; exact absurd h0 hne
  rw [if_neg h5] at hr
  cases hr
  have hN : (header_of_bytes data).entry_count = spec_le_u32 data 4 := by
    rw [header_of_bytes_eq]
  have hM : (header_of_bytes data).names_data_size = spec_le_u32 data 8 := by
    rw [header_of_bytes_eq]
  have hlenE : ((data.drop 16).take (16 * spec_le_u32 data 4)).length =
      16 * spec_le_u32 data 4 := by
    rw [List.length_take, List.length_drop]; omega
  refine ⟨header_of_bytes data, _, _, rfl, rfl, rfl, ?_, ?_, ?_, ?_, ?_, ?_⟩
  · rw [hN, hM]; omega
  · rw [hN]
  · rw [hN]; exact hlenE
  · intro i hi
    rw [hN] at hi
    constructor
    · rw [entry_at_of_lt _ i (by rw [hlenE]; omega), take_drop_window _ _ _ _ (by omega)]
    · rw [List.length_take, List.length_drop]; omega
  · rw [hN, hM]
  · rw [hM, List.length_take, List.length_drop]; omega

/-! ## Targets with a 32-bit `size_t`

The characterisation above needs `size_t` to hold `16 + 16 * (2 ^ 32 - 1) +
(2 ^ 32 - 1)`. With a 32-bit `size_t` the required size wraps. -/

/-- With a 32-bit `size_t`, `16 * 0x10000000` wraps to 0: a 16-byte buffer
announcing `0x10000000` entries is accepted, with an empty entry array. -/
theorem read_header_size_t_32_accepts :
    rpf7_read_header 32 true true example_wrap_entries =
      .ok { ret := 0, header := some ⟨0x52504637, 0x10000000, 0, 0⟩,
            entries_out := some [], names_out := some [], stderr := none } := by
  decide

/-- With a 32-bit `size_t`, `16 + (2 ^ 32 - 1)` wraps to 15: a 16-byte buffer
announcing `2 ^ 32 - 1` name bytes passes the size check and the copy of the
names reads past the end of the buffer. -/
theorem read_header_size_t_32_overrun :
    rpf7_read_header 32 true true example_wrap_names = .fault .bufferOutOfBounds := by
  decide

/-! ## Lemmas: one call of `build_tree_ok` -/

theorem read_string_of_mem (p : List Byte) (h : (0 : Byte) ∈ p) :
    read_string p = .ok (p.takeWhile (fun b => b != 0)) := by
  induction p with
  | nil => cases h
  | cons b rest ih =>
    rw [read_string]
    by_cases hb : b = 0
    · rw [if_pos hb, List.takeWhile_cons]
      have hb' : (b != 0) = false := by rw [hb]; rfl
      rw [hb']
      rfl
    · rw [if_neg hb]
      have hmem : (0 : Byte) ∈ rest := by
        rcases List.mem_cons.mp h with h0 | h0
        · exact absurd h0.symm hb
        · exact h0
      rw [ih hmem]
      have hb' : (b != 0) = true := bne_iff_ne.mpr hb
      rw [List.takeWhile_cons, hb']
      rfl

theorem build_succ_entry_fault (fuel : Nat) (entries names_buffer : List Byte) (i : Nat)
    (h : ¬ (i + 1) * 16 ≤ entries.length) :
    build_tree_ok (fuel + 1) entries names_buffer i =
      .fault .entryOutOfBounds := by
  rw [build_tree_ok, entry_at_of_not_le entries i h]

theorem build_succ_not_dir (fuel : Nat) (entries names_buffer : List Byte) (i : Nat)
    (hin : (i + 1) * 16 ≤ entries.length)
    (hnd : rpf7_is_directory (spec_record entries i) = false) :
    build_tree_ok (fuel + 1) entries names_buffer i = .ok none := by
  rw [build_tree_ok, entry_at_spec_record entries i hin]
  dsimp only
  rw [if_pos hnd]

theorem build_succ_name_fault (fuel : Nat) (entries names_buffer : List Byte) (d : Nat)
    (hin : (d + 1) * 16 ≤ entries.length)
    (hdir : rpf7_is_directory (spec_record entries d) = true) (f : Fault)
    (hs : read_string (names_buffer.drop (entry_name_offset (spec_record entries d))) = .fault f) :
    build_tree_ok (fuel + 1) entries names_buffer d = .fault f := by
  rw [build_tree_ok, entry_at_spec_record entries d hin]
  dsimp only
  rw [if_neg (by rw [hdir]; exact Bool.noConfusion), hs]

theorem build_succ_children_fault (fuel : Nat) (entries names_buffer : List Byte) (d : Nat)
    (hin : (d + 1) * 16 ≤ entries.length)
    (hdir : rpf7_is_directory (spec_record entries d) = true) (name : List Byte)
    (hs : read_string (names_buffer.drop (entry_name_offset (spec_record entries d))) = .ok name)
    (f : Fault)
    (hc : build_children_ok (build_tree_ok fuel entries names_buffer)
        entries names_buffer
        (child_indices (entry_directory_first_entry_index (spec_record entries d))
          (entry_directory_entry_count (spec_record entries d))) [] [] = .fault f) :
    build_tree_ok (fuel + 1) entries names_buffer d = .fault f := by
  rw [build_tree_ok, entry_at_spec_record entries d hin]
  dsimp only
  rw [if_neg (by rw [hdir]; exact Bool.noConfusion), hs]
  dsimp only
  rw [hc]

theorem build_succ_children_ok (fuel : Nat) (entries names_buffer : List Byte) (d : Nat)
    (hin : (d + 1) * 16 ≤ entries.length)
    (hdir : rpf7_is_directory (spec_record entries d) = true) (name : List Byte)
    (hs : read_string (names_buffer.drop (entry_name_offset (spec_record entries d))) = .ok name)
    (subdirs : List rpf7_directory_node) (files : List rpf7_file_node)
    (hc : build_children_ok (build_tree_ok fuel entries names_buffer)
        entries names_buffer
        (child_indices (entry_directory_first_entry_index (spec_record entries d))
          (entry_directory_entry_count (spec_record entries d))) [] [] =
        .ok (subdirs, files)) :
    build_tree_ok (fuel + 1) entries names_buffer d =
      .ok (some (.mk (some name) subdirs files)) := by
  rw [build_tree_ok, entry_at_spec_record entries d hin]
  dsimp only
  rw [if_neg (by rw [hdir]; exact Bool.noConfusion), hs]
  dsimp only
  rw [hc]

/-- A call of `build_tree_ok` on a directory record never returns `NULL`. -/
theorem build_dir_not_none (fuel : Nat) (entries names_buffer : List Byte) (d : Nat)
    (hin : (d + 1) * 16 ≤ entries.length)
    (hdir : rpf7_is_directory (spec_record entries d) = true) :
    build_tree_ok fuel entries names_buffer d ≠ .ok none := by
  intro h
  cases fuel with
  | zero => rw [build_tree_ok] at h; cases h
  | succ fuel =>
    obtain ⟨name, sd, fl, _, _, hr⟩ := build_succ_inv fuel entries names_buffer d none hin hdir h
    cases hr

/-! ## Lemmas: one iteration of `build_children_ok` -/

theorem build_children_ok_entry_fault (recur : Nat → Res (Option rpf7_directory_node))
    (entries names : List Byte) (i : Nat) (rest : List Nat)
    (sd : List rpf7_directory_node) (fl : List rpf7_file_node)
    (h : ¬ (i + 1) * 16 ≤ entries.length) :
    build_children_ok recur entries names (i :: rest) sd fl = .fault .entryOutOfBounds := by
  rw [build_children_ok, entry_at_of_not_le entries i h]

theorem build_children_ok_dir_fault (recur : Nat → Res (Option rpf7_directory_node))
    (entries names : List Byte) (i : Nat) (rest : List Nat)
    (sd : List rpf7_directory_node) (fl : List rpf7_file_node)
    (hin : (i + 1) * 16 ≤ entries.length)
    (hdir : rpf7_is_directory (spec_record entries i) = true) (f : Fault)
    (hr : recur i = .fault f) :
    build_children_ok recur entries names (i :: rest) sd fl = .fault f := by
  rw [build_children_ok, entry_at_spec_record entries i hin]
  dsimp only
  rw [if_pos hdir, hr]

theorem build_children_ok_dir_none (recur : Nat → Res (Option rpf7_directory_node))
    (entries names : List Byte) (i : Nat) (rest : List Nat)
    (sd : List rpf7_directory_node) (fl : List rpf7_file_node)
    (hin : (i + 1) * 16 ≤ entries.length)
    (hdir : rpf7_is_directory (spec_record entries i) = true)
    (hr : recur i = .ok none) :
    build_children_ok recur entries names (i :: rest) sd fl =
      build_children_ok recur entries names rest sd fl := by
  rw [build_children_ok, entry_at_spec_record entries i hin]
  dsimp only
  rw [if_pos hdir, hr]

theorem build_children_ok_dir_some (recur : Nat → Res (Option rpf7_directory_node))
    (entries names : List Byte) (i : Nat) (rest : List Nat)
    (sd : List rpf7_directory_node) (fl : List rpf7_file_node)
    (hin : (i + 1) * 16 ≤ entries.length)
    (hdir : rpf7_is_directory (spec_record entries i) = true) (s : rpf7_directory_node)
    (hr : recur i = .ok (some s)) :
    build_children_ok recur entries names (i :: rest) sd fl =
      build_children_ok recur entries names rest (sd ++ [s]) fl := by
  rw [build_children_ok, entry_at_spec_record entries i hin]
  dsimp only
  rw [if_pos hdir, hr]

theorem build_children_ok_file_fault (recur : Nat → Res (Option rpf7_directory_node))
    (entries names : List Byte) (i : Nat) (rest : List Nat)
    (sd : List rpf7_directory_node) (fl : List rpf7_file_node)
    (hin : (i + 1) * 16 ≤ entries.length)
    (hnd : rpf7_is_directory (spec_record entries i) = false) (f : Fault)
    (hs : read_string (names.drop (entry_name_offset (spec_record entries i))) = .fault f) :
    build_children_ok recur entries names (i :: rest) sd fl = .fault f := by
  rw [build_children_ok, entry_at_spec_record entries i hin]
  dsimp only
  rw [if_neg (by rw [hnd]; exact Bool.noConfusion), hs]

theorem build_children_ok_file_ok (recur : Nat → Res (Option rpf7_directory_node))
    (entries names : List Byte) (i : Nat) (rest : List Nat)
    (sd : List rpf7_directory_node) (fl : List rpf7_file_node)
    (hin : (i + 1) * 16 ≤ entries.length)
    (hnd : rpf7_is_directory (spec_record entries i) = false) (name : List Byte)
    (hs : read_string (names.drop (entry_name_offset (spec_record entries i))) = .ok name) :
    build_children_ok recur entries names (i :: rest) sd fl =
      build_children_ok recur entries names rest sd
        (fl ++ [{ name := some name, size := entry_file_size (spec_record entries i),
                  offset := read_u24_le (entry_offset (spec_record entries i)) }]) := by
  rw [build_children_ok, entry_at_spec_record entries i hin]
  dsimp only
  rw [if_neg (by rw [hnd]; exact Bool.noConfusion), hs]

/-- A result other than "out of budget" of the child loop does not change when
the recursive calls are replaced by calls that agree with them on every such
result. -/
theorem build_children_ok_stable (recur1 recur2 : Nat → Res (Option rpf7_directory_node))
    (entries names : List Byte)
    (hrec : ∀ i x, recur1 i = x → x ≠ .fault .outOfFuel → recur2 i = x)
    (idxs : List Nat) :
    ∀ (sd : List rpf7_directory_node) (fl : List rpf7_file_node)
      (y : Res (List rpf7_directory_node × List rpf7_file_node)),
      build_children_ok recur1 entries names idxs sd fl = y → y ≠ .fault .outOfFuel →
      build_children_ok recur2 entries names idxs sd fl = y := by
  induction idxs with
  | nil =>
    intro sd fl y h _
    rw [build_children_ok] at h ⊢
    exact h
  | cons i rest ih =>
    intro sd fl y h hy
    by_cases hin : (i + 1) * 16 ≤ entries.length
    · cases hd : rpf7_is_directory (spec_record entries i) with
      | true =>
        cases hr : recur1 i with
        | fault f =>
          rw [build_children_ok_dir_fault _ _ _ _ _ _ _ hin hd f hr] at h
          have h2 := hrec i _ hr (fun hh => hy (by rw [← h, Res.fault.inj hh]))
          rw [build_children_ok_dir_fault _ _ _ _ _ _ _ hin hd f h2]
          exact h
        | ok o =>
          have h2 := hrec i _ hr (by intro hh; cases hh)
          cases o with
          | none =>
            rw [build_children_ok_dir_none _ _ _ _ _ _ _ hin hd hr] at h
            rw [build_children_ok_dir_none _ _ _ _ _ _ _ hin hd h2]
            exact ih _ _ _ h hy
          | some s =>
            rw [build_children_ok_dir_some _ _ _ _ _ _ _ hin hd s hr] at h
            rw [build_children_ok_dir_some _ _ _ _ _ _ _ hin hd s h2]
            exact ih _ _ _ h hy
      | false =>
        cases hs : read_string (names.drop (entry_name_offset (spec_record entries i))) with
        | fault f =>
          rw [build_children_ok_file_fault _ _ _ _ _ _ _ hin hd f hs] at h
          rw [build_children_ok_file_fault _ _ _ _ _ _ _ hin hd f hs]
          exact h
        | ok name =>
          rw [build_children_ok_file_ok _ _ _ _ _ _ _ hin hd name hs] at h
          rw [build_children_ok_file_ok _ _ _ _ _ _ _ hin hd name hs]
          exact ih _ _ _ h hy
    · rw [build_children_ok_entry_fault _ _ _ _ _ _ _ hin] at h
      rw [build_children_ok_entry_fault _ _ _ _ _ _ _ hin]
      exact h

/-- A result of `build_tree_ok` other than "out of budget" is the result with every
larger recursion budget. -/
theorem build_stable_succ (entries names : List Byte) (fuel : Nat) :
    ∀ (i : Nat) (x : Res (Option rpf7_directory_node)),
      build_tree_ok fuel entries names i = x → x ≠ .fault .outOfFuel →
      build_tree_ok (fuel + 1) entries names i = x := by
  induction fuel with
  | zero =>
    intro i x h hx
    rw [build_tree_ok] at h
    exact absurd h.symm hx
  | succ fuel ih =>
    intro i x h hx
    by_cases hin : (i + 1) * 16 ≤ entries.length
    · cases hd : rpf7_is_directory (spec_record entries i) with
      | false =>
        rw [build_succ_not_dir fuel entries names i hin hd] at h
        rw [build_succ_not_dir (fuel + 1) entries names i hin hd]
        exact h
      | true =>
        cases hs : read_string (names.drop (entry_name_offset (spec_record entries i))) with
        | fault f =>
          rw [build_succ_name_fault fuel entries names i hin hd f hs] at h
          rw [build_succ_name_fault (fuel + 1) entries names i hin hd f hs]
          exact h
        | ok name =>
          cases hc : build_children_ok (build_tree_ok fuel entries names)
              entries names
              (child_indices (entry_directory_first_entry_index (spec_record entries i))
                (entry_directory_entry_count (spec_record entries i))) [] [] with
          | fault f =>
            rw [build_succ_children_fault fuel entries names i hin hd name hs f hc] at h
            have hc2 := build_children_ok_stable _
              (build_tree_ok (fuel + 1) entries names) entries names ih _ _ _ _ hc
              (fun hh => hx (by rw [← h, Res.fault.inj hh]))
            rw [build_succ_children_fault (fuel + 1) entries names i hin hd name hs f hc2]
            exact h
          | ok pr =>
            obtain ⟨sd, fl⟩ := pr
            rw [build_succ_children_ok fuel entries names i hin hd name hs sd fl hc] at h
            have hc2 := build_children_ok_stable _
              (build_tree_ok (fuel + 1) entries names) entries names ih _ _ _ _ hc
              (by intro hh; cases hh)
            rw [build_succ_children_ok (fuel + 1) entries names i hin hd name hs sd fl hc2]
            exact h
    · rw [build_succ_entry_fault fuel entries names i hin] at h
      rw [build_succ_entry_fault (fuel + 1) entries names i hin]
      exact h

theorem build_stable (entries names : List Byte) (fuel k : Nat) (i : Nat)
    (x : Res (Option rpf7_directory_node))
    (h : build_tree_ok fuel entries names i = x) (hx : x ≠ .fault .outOfFuel) :
    build_tree_ok (fuel + k) entries names i = x := by
  induction k with
  | zero => exact h
  | succ k ih => exact build_stable_succ entries names (fuel + k) i x ih hx

theorem build_stable_le (entries names : List Byte) (fuel fuel' : Nat) (hle : fuel ≤ fuel')
    (i : Nat) (x : Res (Option rpf7_directory_node))
    (h : build_tree_ok fuel entries names i = x) (hx : x ≠ .fault .outOfFuel) :
    build_tree_ok fuel' entries names i = x := by
  have := build_stable entries names fuel (fuel' - fuel) i x h hx
  rwa [Nat.add_sub_cancel' hle] at this

/-! ## Lemmas: what a completed run of `build_children_ok` did -/

/-- A child loop that ran to its end got a result from every recursive call. -/
theorem build_children_ok_recur_ok (recur : Nat → Res (Option rpf7_directory_node))
    (entries names : List Byte) (idxs : List Nat)
    (hin : ∀ i ∈ idxs, (i + 1) * 16 ≤ entries.length) :
    ∀ (sd : List rpf7_directory_node) (fl : List rpf7_file_node)
      (res : List rpf7_directory_node × List rpf7_file_node),
      build_children_ok recur entries names idxs sd fl = .ok res →
      ∀ i ∈ idxs, rpf7_is_directory (spec_record entries i) = true → ∃ r, recur i = .ok r := by
  induction idxs with
  | nil => intro sd fl res _ i hi; cases hi
  | cons j rest ih =>
    intro sd fl res h i hi hdi
    have hj : (j + 1) * 16 ≤ entries.length := hin j (List.mem_cons_self _ _)
    have hrest : ∀ k ∈ rest, (k + 1) * 16 ≤ entries.length :=
      fun k hk => hin k (List.mem_cons_of_mem _ hk)
    cases hd : rpf7_is_directory (spec_record entries j) with
    | true =>
      cases hr : recur j with
      | fault f =>
        rw [build_children_ok_dir_fault _ _ _ _ _ _ _ hj hd f hr] at h
        cases h
      | ok o =>
        have hnext : ∃ sd2, build_children_ok recur entries names rest sd2 fl = .ok res := by
          cases o with
          | none =>
            rw [build_children_ok_dir_none _ _ _ _ _ _ _ hj hd hr] at h
            exact ⟨_, h⟩
          | some s =>
            rw [build_children_ok_dir_some _ _ _ _ _ _ _ hj hd s hr] at h
            exact ⟨_, h⟩
        obtain ⟨sd2, h2⟩ := hnext
        rcases List.mem_cons.mp hi with e | e
        · rw [e]; exact ⟨o, hr⟩
        · exact ih hrest _ _ _ h2 i e hdi
    | false =>
      cases hs : read_string (names.drop (entry_name_offset (spec_record entries j))) with
      | fault f =>
        rw [build_children_ok_file_fault _ _ _ _ _ _ _ hj hd f hs] at h
        cases h
      | ok name =>
        rw [build_children_ok_file_ok _ _ _ _ _ _ _ hj hd name hs] at h
        rcases List.mem_cons.mp hi with e | e
        · rw [e, hd] at hdi; cases hdi
        · exact ih hrest _ _ _ h i e hdi

/-- The directory chain the loop leaves is the chain it started with, followed
by the results of the recursive calls on the visited directory records, when
none of these calls returns `NULL`. -/
theorem build_children_ok_subdirs (recur : Nat → Res (Option rpf7_directory_node))
    (entries names : List Byte) (idxs : List Nat)
    (hin : ∀ i ∈ idxs, (i + 1) * 16 ≤ entries.length)
    (hnn : ∀ i ∈ idxs, rpf7_is_directory (spec_record entries i) = true →
      recur i ≠ .ok none) :
    ∀ (sd : List rpf7_directory_node) (fl : List rpf7_file_node)
      (sd' : List rpf7_directory_node) (fl' : List rpf7_file_node),
      build_children_ok recur entries names idxs sd fl = .ok (sd', fl') →
      sd'.map (fun s => Res.ok (some s)) =
        sd.map (fun s => Res.ok (some s)) ++
          (idxs.filter (fun i => rpf7_is_directory (spec_record entries i))).map recur := by
  induction idxs with
  | nil =>
    intro sd fl sd' fl' h
    rw [build_children_ok] at h
    cases h
    simp
  | cons j rest ih =>
    intro sd fl sd' fl' h
    have hj : (j + 1) * 16 ≤ entries.length := hin j (List.mem_cons_self _ _)
    have hrest : ∀ k ∈ rest, (k + 1) * 16 ≤ entries.length :=
      fun k hk => hin k (List.mem_cons_of_mem _ hk)
    have hnn' : ∀ i ∈ rest, rpf7_is_directory (spec_record entries i) = true →
        recur i ≠ .ok none := fun k hk => hnn k (List.mem_cons_of_mem _ hk)
    cases hd : rpf7_is_directory (spec_record entries j) with
    | true =>
      rw [List.filter_cons_of_pos (by rw [hd])]
      cases hr : recur j with
      | fault f =>
        rw [build_children_ok_dir_fault _ _ _ _ _ _ _ hj hd f hr] at h
        cases h
      | ok o =>
        cases o with
        | none => exact absurd hr (hnn j (List.mem_cons_self _ _) hd)
        | some s =>
          rw [build_children_ok_dir_some _ _ _ _ _ _ _ hj hd s hr] at h
          rw [ih hrest hnn' _ _ _ _ h, List.map_append, List.map_cons, List.map_nil,
            List.map_cons, hr, List.append_assoc]
          rfl
    | false =>
      rw [List.filter_cons_of_neg (by rw [hd]; exact Bool.noConfusion)]
      cases hs : read_string (names.drop (entry_name_offset (spec_record entries j))) with
      | fault f =>
        rw [build_children_ok_file_fault _ _ _ _ _ _ _ hj hd f hs] at h
        cases h
      | ok name =>
        rw [build_children_ok_file_ok _ _ _ _ _ _ _ hj hd name hs] at h
        exact ih hrest hnn' _ _ _ _ h

theorem range_in_table (entries : List Byte) (first count : Nat)
    (hrange : (first + count) * 16 ≤ entries.length) :
    ∀ i ∈ List.range' first count, (i + 1) * 16 ≤ entries.length := by
  intro i hi
  rw [List.mem_range'_1] at hi
  omega

theorem entry_directory_first_entry_index_lt (entry : List Byte) :
    entry_directory_first_entry_index entry < 2 ^ 32 := by
  unfold entry_directory_first_entry_index
  rw [load_le_four]
  exact spec_le_u32_lt _ _

theorem entry_directory_entry_count_lt (entry : List Byte) :
    entry_directory_entry_count entry < 2 ^ 32 := by
  unfold entry_directory_entry_count
  rw [load_le_four]
  exact spec_le_u32_lt _ _

theorem child_indices_of_wrap (first count : Nat) (hf : first < 2 ^ 32) (hc : count < 2 ^ 32)
    (h : 2 ^ 32 ≤ first + count) :
    (first + count) % 2 ^ 32 < first ∧ child_indices first count = [] := by
  have hm : (first + count) % 2 ^ 32 = first + count - 2 ^ 32 := by
    rw [Nat.mod_eq_sub_mod h]
    exact Nat.mod_eq_of_lt (by omega)
  have hlt : (first + count) % 2 ^ 32 < first := by omega
  refine ⟨hlt, ?_⟩
  unfold child_indices
  have hz : (first + count) % 2 ^ 32 - first = 0 := by omega
  rw [hz]
  rfl

theorem child_indices_zero (first : Nat) : child_indices first 0 = [] := by
  unfold child_indices
  have hle : (first + 0) % 2 ^ 32 ≤ first := Nat.mod_le _ _
  have hz : (first + 0) % 2 ^ 32 - first = 0 := by omega
  rw [hz]
  rfl

/-! ## Lemmas: recursion depth of `build_tree_ok` -/

theorem depth_list_le_iff (l : List rpf7_directory_node) (m : Nat) :
    depth_list l ≤ m ↔ ∀ s ∈ l, s.depth ≤ m := by
  induction l with
  | nil => simp [depth_list]
  | cons a rest ih =>
    rw [depth_list, Nat.max_le, ih]
    constructor
    · intro h s hs
      rcases List.mem_cons.mp hs with e | e
      · rw [e]; exact h.1
      · exact h.2 s e
    · intro h
      exact ⟨h a (List.mem_cons_self _ _), fun s hs => h s (List.mem_cons_of_mem _ hs)⟩

theorem depth_mk (name : Option (List Byte)) (sd : List rpf7_directory_node)
    (fl : List rpf7_file_node) :
    (rpf7_directory_node.mk name sd fl).depth = 1 + depth_list sd := by
  rw [rpf7_directory_node.depth]

/-- Inversion of a call of `build_tree_ok` that returned a node. -/
theorem build_succ_some_inv (fuel : Nat) (entries names_buffer : List Byte) (d : Nat)
    (node : rpf7_directory_node)
    (h : build_tree_ok (fuel + 1) entries names_buffer d = .ok (some node)) :
    (d + 1) * 16 ≤ entries.length ∧ rpf7_is_directory (spec_record entries d) = true ∧
    ∃ name subdirs files,
      read_string (names_buffer.drop (entry_name_offset (spec_record entries d))) = .ok name ∧
      build_children_ok (build_tree_ok fuel entries names_buffer)
            entries names_buffer
            (child_indices (entry_directory_first_entry_index (spec_record entries d))
              (entry_directory_entry_count (spec_record entries d))) [] [] =
        .ok (subdirs, files) ∧
      node = .mk (some name) subdirs files := by
  by_cases hin : (d + 1) * 16 ≤ entries.length
  · cases hd : rpf7_is_directory (spec_record entries d) with
    | false =>
      rw [build_succ_not_dir fuel entries names_buffer d hin hd] at h
      cases h
    | true =>
      obtain ⟨name, sd, fl, hs, hc, hr⟩ :=
        build_succ_inv fuel entries names_buffer d _ hin hd h
      exact ⟨hin, rfl, name, sd, fl, hs, hc, Option.some.inj hr⟩
  · rw [build_succ_entry_fault fuel entries names_buffer d hin] at h
    cases h

/-- Every node of the directory chain a completed loop leaves was in the chain
at the start or was returned by a recursive call of the loop. -/
theorem build_children_ok_mem_origin (recur : Nat → Res (Option rpf7_directory_node))
    (entries names : List Byte) (idxs : List Nat) :
    ∀ (sd : List rpf7_directory_node) (fl : List rpf7_file_node)
      (sd' : List rpf7_directory_node) (fl' : List rpf7_file_node),
      build_children_ok recur entries names idxs sd fl = .ok (sd', fl') →
      ∀ s ∈ sd', s ∈ sd ∨ ∃ j ∈ idxs, recur j = .ok (some s) := by
  induction idxs with
  | nil =>
    intro sd fl sd' fl' h s hs
    rw [build_children_ok] at h
    cases h
    exact Or.inl hs
  | cons i rest ih =>
    intro sd fl sd' fl' h s hs
    have lift : (s ∈ sd ∨ ∃ j ∈ rest, recur j = .ok (some s)) →
        s ∈ sd ∨ ∃ j ∈ i :: rest, recur j = .ok (some s) := by
      rintro (h1 | ⟨j, hj, hr⟩)
      · exact Or.inl h1
      · exact Or.inr ⟨j, List.mem_cons_of_mem _ hj, hr⟩
    by_cases hin : (i + 1) * 16 ≤ entries.length
    · cases hd : rpf7_is_directory (spec_record entries i) with
      | true =>
        cases hr : recur i with
        | fault f =>
          rw [build_children_ok_dir_fault _ _ _ _ _ _ _ hin hd f hr] at h
          cases h
        | ok o =>
          cases o with
          | none =>
            rw [build_children_ok_dir_none _ _ _ _ _ _ _ hin hd hr] at h
            exact lift (ih _ _ _ _ h s hs)
          | some t =>
            rw [build_children_ok_dir_some _ _ _ _ _ _ _ hin hd t hr] at h
            rcases ih _ _ _ _ h s hs with h1 | h1
            · rcases List.mem_append.mp h1 with h2 | h2
              · exact Or.inl h2
              · rw [List.mem_singleton] at h2
                rw [h2]
                exact Or.inr ⟨i, List.mem_cons_self _ _, hr⟩
            · exact lift (Or.inr h1)
      | false =>
        cases hs2 : read_string (names.drop (entry_name_offset (spec_record entries i))) with
        | fault f =>
          rw [build_children_ok_file_fault _ _ _ _ _ _ _ hin hd f hs2] at h
          cases h
        | ok name =>
          rw [build_children_ok_file_ok _ _ _ _ _ _ _ hin hd name hs2] at h
          exact lift (ih _ _ _ _ h s hs)
    · rw [build_children_ok_entry_fault _ _ _ _ _ _ _ hin] at h
      cases h

/-- The directory chain a completed loop leaves contains the chain it started
with. -/
theorem build_children_ok_acc_mem (recur : Nat → Res (Option rpf7_directory_node))
    (entries names : List Byte) (idxs : List Nat) :
    ∀ (sd : List rpf7_directory_node) (fl : List rpf7_file_node)
      (sd' : List rpf7_directory_node) (fl' : List rpf7_file_node),
      build_children_ok recur entries names idxs sd fl = .ok (sd', fl') →
      ∀ s ∈ sd, s ∈ sd' := by
  induction idxs with
  | nil =>
    intro sd fl sd' fl' h s hs
    rw [build_children_ok] at h
    cases h
    exact hs
  | cons i rest ih =>
    intro sd fl sd' fl' h s hs
    by_cases hin : (i + 1) * 16 ≤ entries.length
    · cases hd : rpf7_is_directory (spec_record entries i) with
      | true =>
        cases hr : recur i with
        | fault f =>
          rw [build_children_ok_dir_fault _ _ _ _ _ _ _ hin hd f hr] at h
          cases h
        | ok o =>
          cases o with
          | none =>
            rw [build_children_ok_dir_none _ _ _ _ _ _ _ hin hd hr] at h
            exact ih _ _ _ _ h s hs
          | some t =>
            rw [build_children_ok_dir_some _ _ _ _ _ _ _ hin hd t hr] at h
            exact ih _ _ _ _ h s (List.mem_append_left _ hs)
      | false =>
        cases hs2 : read_string (names.drop (entry_name_offset (spec_record entries i))) with
        | fault f =>
          rw [build_children_ok_file_fault _ _ _ _ _ _ _ hin hd f hs2] at h
          cases h
        | ok name =>
          rw [build_children_ok_file_ok _ _ _ _ _ _ _ hin hd name hs2] at h
          exact ih _ _ _ _ h s hs
    · rw [build_children_ok_entry_fault _ _ _ _ _ _ _ hin] at h
      cases h

/-- A completed loop is reproduced by any recursive calls that return the same
nodes for the directory records, when no call returned `NULL`. -/
theorem build_children_ok_transfer (recur1 recur2 : Nat → Res (Option rpf7_directory_node))
    (entries names : List Byte) (idxs : List Nat) :
    ∀ (sd : List rpf7_directory_node) (fl : List rpf7_file_node)
      (sd' : List rpf7_directory_node) (fl' : List rpf7_file_node),
      build_children_ok recur1 entries names idxs sd fl = .ok (sd', fl') →
      (∀ j ∈ idxs, (j + 1) * 16 ≤ entries.length →
        rpf7_is_directory (spec_record entries j) = true → recur1 j ≠ .ok none) →
      (∀ j ∈ idxs, ∀ s, recur1 j = .ok (some s) → s ∈ sd' → recur2 j = .ok (some s)) →
      build_children_ok recur2 entries names idxs sd fl = .ok (sd', fl') := by
  induction idxs with
  | nil =>
    intro sd fl sd' fl' h _ _
    rw [build_children_ok] at h ⊢
    exact h
  | cons i rest ih =>
    intro sd fl sd' fl' h hnn htr
    have hnn' : ∀ j ∈ rest, (j + 1) * 16 ≤ entries.length →
        rpf7_is_directory (spec_record entries j) = true → recur1 j ≠ .ok none :=
      fun j hj => hnn j (List.mem_cons_of_mem _ hj)
    have htr' : ∀ j ∈ rest, ∀ s, recur1 j = .ok (some s) → s ∈ sd' →
        recur2 j = .ok (some s) := fun j hj => htr j (List.mem_cons_of_mem _ hj)
    by_cases hin : (i + 1) * 16 ≤ entries.length
    · cases hd : rpf7_is_directory (spec_record entries i) with
      | true =>
        cases hr : recur1 i with
        | fault f =>
          rw [build_children_ok_dir_fault _ _ _ _ _ _ _ hin hd f hr] at h
          cases h
        | ok o =>
          cases o with
          | none => exact absurd hr (hnn i (List.mem_cons_self _ _) hin hd)
          | some t =>
            rw [build_children_ok_dir_some _ _ _ _ _ _ _ hin hd t hr] at h
            have ht : t ∈ sd' := build_children_ok_acc_mem _ _ _ _ _ _ _ _ h t
              (List.mem_append_right _ (List.mem_singleton_self t))
            rw [build_children_ok_dir_some _ _ _ _ _ _ _ hin hd t
              (htr i (List.mem_cons_self _ _) t hr ht)]
            exact ih _ _ _ _ h hnn' htr'
      | false =>
        cases hs2 : read_string (names.drop (entry_name_offset (spec_record entries i))) with
        | fault f =>
          rw [build_children_ok_file_fault _ _ _ _ _ _ _ hin hd f hs2] at h
          cases h
        | ok name =>
          rw [build_children_ok_file_ok _ _ _ _ _ _ _ hin hd name hs2] at h
          rw [build_children_ok_file_ok _ _ _ _ _ _ _ hin hd name hs2]
          exact ih _ _ _ _ h hnn' htr'
    · rw [build_children_ok_entry_fault _ _ _ _ _ _ _ hin] at h
      cases h

/-- The recursion budget of a call that returned a node is at least the
nesting depth of the node. -/
theorem depth_le_fuel (entries names : List Byte) (fuel : Nat) :
    ∀ (i : Nat) (node : rpf7_directory_node),
      build_tree_ok fuel entries names i = .ok (some node) →
      node.depth ≤ fuel := by
  induction fuel with
  | zero =>
    intro i node h
    rw [build_tree_ok] at h
    cases h
  | succ fuel ih =>
    intro i node h
    obtain ⟨_, _, name, sd, fl, _, hc, hnode⟩ := build_succ_some_inv fuel entries names i node h
    rw [hnode, depth_mk]
    have : depth_list sd ≤ fuel := by
      rw [depth_list_le_iff]
      intro s hs
      rcases build_children_ok_mem_origin _ _ _ _ _ _ _ _ hc s hs with h1 | ⟨j, _, hj⟩
      · cases h1
      · exact ih j s hj
    omega

/-- A call that returned a node returns it with a budget equal to the nesting
depth of the node. -/
theorem build_at_depth (entries names : List Byte) (fuel : Nat) :
    ∀ (i : Nat) (node : rpf7_directory_node),
      build_tree_ok fuel entries names i = .ok (some node) →
      build_tree_ok node.depth entries names i = .ok (some node) := by
  induction fuel with
  | zero =>
    intro i node h
    rw [build_tree_ok] at h
    cases h
  | succ fuel ih =>
    intro i node h
    obtain ⟨hin, hdir, name, sd, fl, hs, hc, hnode⟩ :=
      build_succ_some_inv fuel entries names i node h
    rw [hnode, depth_mk, Nat.add_comm]
    apply build_succ_children_ok (depth_list sd) entries names i hin hdir name hs
    apply build_children_ok_transfer _ _ _ _ _ _ _ _ _ hc
    · intro j _ hj hdj
      exact build_dir_not_none fuel entries names j hj hdj
    · intro j _ s hrj hsm
      have h1 := ih j s hrj
      have h2 : s.depth ≤ depth_list sd := (depth_list_le_iff sd _).mp (Nat.le_refl _) s hsm
      exact build_stable_le entries names s.depth (depth_list sd) h2 j _ h1
        (by intro hh; cases hh)

/-- The results of `build_tree_ok` on an index where it returns a node with some
budget: that node from the nesting depth of the node on, and "out of budget"
below. -/
theorem build_by_depth (entries names : List Byte) (fuel0 i : Nat)
    (node : rpf7_directory_node)
    (h : build_tree_ok fuel0 entries names i = .ok (some node)) (fuel : Nat) :
    build_tree_ok fuel entries names i =
      if node.depth ≤ fuel then .ok (some node) else .fault .outOfFuel := by
  by_cases hle : node.depth ≤ fuel
  · rw [if_pos hle]
    exact build_stable_le entries names node.depth fuel hle i _
      (build_at_depth entries names fuel0 i node h) (by intro hh; cases hh)
  · rw [if_neg hle]
    by_cases hx : build_tree_ok fuel entries names i = .fault .outOfFuel
    · exact hx
    · exfalso
      have h1 := build_stable_le entries names fuel (max fuel fuel0) (Nat.le_max_left _ _) i _
        rfl hx
      have h2 := build_stable_le entries names fuel0 (max fuel fuel0) (Nat.le_max_right _ _)
        i _ h (by intro hh; cases hh)
      rw [h2] at h1
      exact hle (depth_le_fuel entries names fuel i node h1.symm)

/-- Every index the loop visits lies in the child range, whether or not the
bound wraps. -/
theorem child_indices_mem (first count j : Nat) (h : j ∈ child_indices first count) :
    first ≤ j ∧ j < first + count := by
  rw [child_indices, List.mem_range'_1] at h
  have := Nat.mod_le (first + count) (2 ^ 32)
  omega

/-- The child loop runs to its end when every visited record lies inside the
table, every recursive call on a directory record returns, and the name of
every other visited record is terminated inside the names blob. -/
theorem build_children_ok_total (recur : Nat → Res (Option rpf7_directory_node))
    (entries names : List Byte) (idxs : List Nat)
    (hin : ∀ i ∈ idxs, (i + 1) * 16 ≤ entries.length)
    (hrec : ∀ i ∈ idxs, rpf7_is_directory (spec_record entries i) = true →
      ∃ r, recur i = .ok r)
    (hname : ∀ i ∈ idxs, (0 : Byte) ∈ names.drop (entry_name_offset (spec_record entries i))) :
    ∀ (sd : List rpf7_directory_node) (fl : List rpf7_file_node),
      ∃ res, build_children_ok recur entries names idxs sd fl = .ok res := by
  induction idxs with
  | nil => intro sd fl; exact ⟨_, by rw [build_children_ok]⟩
  | cons i rest ih =>
    intro sd fl
    have hi : (i + 1) * 16 ≤ entries.length := hin i (List.mem_cons_self _ _)
    have ih' := ih (fun j hj => hin j (List.mem_cons_of_mem _ hj))
      (fun j hj => hrec j (List.mem_cons_of_mem _ hj))
      (fun j hj => hname j (List.mem_cons_of_mem _ hj))
    cases hd : rpf7_is_directory (spec_record entries i) with
    | true =>
      obtain ⟨r, hr⟩ := hrec i (List.mem_cons_self _ _) hd
      cases r with
      | none =>
        rw [build_children_ok_dir_none _ _ _ _ _ _ _ hi hd hr]
        exact ih' _ _
      | some s =>
        rw [build_children_ok_dir_some _ _ _ _ _ _ _ hi hd s hr]
        exact ih' _ _
    | false =>
      rw [build_children_ok_file_ok _ _ _ _ _ _ _ hi hd _
        (read_string_of_mem _ (hname i (List.mem_cons_self _ _)))]
      exact ih' _ _

/-- On a table that describes a tree `build_tree_ok` returns from index `i` with
the recursion budget `N - i`. -/
theorem build_tree_table_returns (entries names : List Byte) (N : Nat)
    (hlen : entries.length = 16 * N)
    (htree : ∀ j, j < N → rpf7_is_directory (spec_record entries j) = true →
      j < entry_directory_first_entry_index (spec_record entries j) ∧
      entry_directory_first_entry_index (spec_record entries j) +
        entry_directory_entry_count (spec_record entries j) ≤ N)
    (hnames : ∀ j, j < N →
      (0 : Byte) ∈ names.drop (entry_name_offset (spec_record entries j)))
    (k : Nat) :
    ∀ i, i < N → N - i ≤ k → ∃ r, build_tree_ok k entries names i = .ok r := by
  induction k with
  | zero => intro i hi hk; omega
  | succ k ih =>
    intro i hi hk
    have hin : (i + 1) * 16 ≤ entries.length := by omega
    cases hd : rpf7_is_directory (spec_record entries i) with
    | false => exact ⟨_, build_succ_not_dir k entries names i hin hd⟩
    | true =>
      obtain ⟨hfirst, hrange⟩ := htree i hi hd
      have hmem : ∀ j ∈ child_indices (entry_directory_first_entry_index (spec_record entries i))
          (entry_directory_entry_count (spec_record entries i)), i < j ∧ j < N := by
        intro j hj
        have := child_indices_mem _ _ j hj
        omega
      obtain ⟨res, hres⟩ := build_children_ok_total
        (build_tree_ok k entries names) entries names
        (child_indices (entry_directory_first_entry_index (spec_record entries i))
          (entry_directory_entry_count (spec_record entries i)))
        (fun j hj => by have := hmem j hj; omega)
        (fun j hj _ => ih j (hmem j hj).2 (by have := hmem j hj; omega))
        (fun j hj => hnames j (hmem j hj).2) [] []
      obtain ⟨sd, fl⟩ := res
      exact ⟨_, build_succ_children_ok k entries names i hin hd _
        (read_string_of_mem _ (hnames i hi)) sd fl hres⟩

/-! ## Lemmas: one step of the builder with an allocator -/

theorem strdup_fault (a : Alloc) (p : List Byte) (f : Fault)
    (h : read_string p = .fault f) : strdup a p = .fault f := by
  rw [strdup, h]

theorem strdup_ok (a a1 : Alloc) (p s : List Byte) (h : read_string p = .ok s)
    (ha : alloc_request a = (true, a1)) : strdup a p = .ok (some s, a1) := by
  rw [strdup, h]
  dsimp only
  rw [ha]

theorem strdup_null (a a1 : Alloc) (p s : List Byte) (h : read_string p = .ok s)
    (ha : alloc_request a = (false, a1)) : strdup a p = .ok (none, a1) := by
  rw [strdup, h]
  dsimp only
  rw [ha]

theorem build_children_nil (recur : Alloc → Nat → Res (Option rpf7_directory_node × Alloc))
    (entries names : List Byte) (a : Alloc)
    (sd : List rpf7_directory_node) (fl : List rpf7_file_node) :
    build_children recur entries names [] a sd fl = .ok ((sd, fl), a) := by
  rw [build_children]

theorem build_children_entry_fault
    (recur : Alloc → Nat → Res (Option rpf7_directory_node × Alloc))
    (entries names : List Byte) (i : Nat) (rest : List Nat) (a : Alloc)
    (sd : List rpf7_directory_node) (fl : List rpf7_file_node)
    (h : ¬ (i + 1) * 16 ≤ entries.length) :
    build_children recur entries names (i :: rest) a sd fl = .fault .entryOutOfBounds := by
  rw [build_children, entry_at_of_not_le entries i h]

theorem build_children_dir_fault
    (recur : Alloc → Nat → Res (Option rpf7_directory_node × Alloc))
    (entries names : List Byte) (i : Nat) (rest : List Nat) (a : Alloc)
    (sd : List rpf7_directory_node) (fl : List rpf7_file_node)
    (hin : (i + 1) * 16 ≤ entries.length)
    (hdir : rpf7_is_directory (spec_record entries i) = true) (f : Fault)
    (hr : recur a i = .fault f) :
    build_children recur entries names (i :: rest) a sd fl = .fault f := by
  rw [build_children, entry_at_spec_record entries i hin]
  dsimp only
  rw [if_pos hdir, hr]

theorem build_children_dir_none
    (recur : Alloc → Nat → Res (Option rpf7_directory_node × Alloc))
    (entries names : List Byte) (i : Nat) (rest : List Nat) (a a1 : Alloc)
    (sd : List rpf7_directory_node) (fl : List rpf7_file_node)
    (hin : (i + 1) * 16 ≤ entries.length)
    (hdir : rpf7_is_directory (spec_record entries i) = true)
    (hr : recur a i = .ok (none, a1)) :
    build_children recur entries names (i :: rest) a sd fl =
      build_children recur entries names rest a1 sd fl := by
  rw [build_children, entry_at_spec_record entries i hin]
  dsimp only
  rw [if_pos hdir, hr]

theorem build_children_dir_some
    (recur : Alloc → Nat → Res (Option rpf7_directory_node × Alloc))
    (entries names : List Byte) (i : Nat) (rest : List Nat) (a a1 : Alloc)
    (sd : List rpf7_directory_node) (fl : List rpf7_file_node)
    (hin : (i + 1) * 16 ≤ entries.length)
    (hdir : rpf7_is_directory (spec_record entries i) = true) (s : rpf7_directory_node)
    (hr : recur a i = .ok (some s, a1)) :
    build_children recur entries names (i :: rest) a sd fl =
      build_children recur entries names rest a1 (sd ++ [s]) fl := by
  rw [build_children, entry_at_spec_record entries i hin]
  dsimp only
  rw [if_pos hdir, hr]

theorem build_children_file_skip
    (recur : Alloc → Nat → Res (Option rpf7_directory_node × Alloc))
    (entries names : List Byte) (i : Nat) (rest : List Nat) (a a1 : Alloc)
    (sd : List rpf7_directory_node) (fl : List rpf7_file_node)
    (hin : (i + 1) * 16 ≤ entries.length)
    (hnd : rpf7_is_directory (spec_record entries i) = false)
    (ha : alloc_request a = (false, a1)) :
    build_children recur entries names (i :: rest) a sd fl =
      build_children recur entries names rest a1 sd fl := by
  rw [build_children, entry_at_spec_record entries i hin]
  dsimp only
  rw [if_neg (by rw [hnd]; exact Bool.noConfusion), ha]

theorem build_children_file_fault
    (recur : Alloc → Nat → Res (Option rpf7_directory_node × Alloc))
    (entries names : List Byte) (i : Nat) (rest : List Nat) (a a1 : Alloc)
    (sd : List rpf7_directory_node) (fl : List rpf7_file_node)
    (hin : (i + 1) * 16 ≤ entries.length)
    (hnd : rpf7_is_directory (spec_record entries i) = false)
    (ha : alloc_request a = (true, a1)) (f : Fault)
    (hs : strdup a1 (names.drop (entry_name_offset (spec_record entries i))) = .fault f) :
    build_children recur entries names (i :: rest) a sd fl = .fault f := by
  rw [build_children, entry_at_spec_record entries i hin]
  dsimp only
  rw [if_neg (by rw [hnd]; exact Bool.noConfusion), ha]
  dsimp only
  rw [hs]

theorem build_children_file_ok
    (recur : Alloc → Nat → Res (Option rpf7_directory_node × Alloc))
    (entries names : List Byte) (i : Nat) (rest : List Nat) (a a1 a2 : Alloc)
    (sd : List rpf7_directory_node) (fl : List rpf7_file_node)
    (hin : (i + 1) * 16 ≤ entries.length)
    (hnd : rpf7_is_directory (spec_record entries i) = false)
    (ha : alloc_request a = (true, a1)) (name : Option (List Byte))
    (hs : strdup a1 (names.drop (entry_name_offset (spec_record entries i))) =
      .ok (name, a2)) :
    build_children recur entries names (i :: rest) a sd fl =
      build_children recur entries names rest a2 sd
        (fl ++ [{ name := name, size := entry_file_size (spec_record entries i),
                  offset := read_u24_le (entry_offset (spec_record entries i)) }]) := by
  rw [build_children, entry_at_spec_record entries i hin]
  dsimp only
  rw [if_neg (by rw [hnd]; exact Bool.noConfusion), ha]
  dsimp only
  rw [hs]

theorem build_tree_entry_fault (fuel : Nat) (entries names : List Byte) (a : Alloc) (i : Nat)
    (h : ¬ (i + 1) * 16 ≤ entries.length) :
    rpf7_build_directory_tree (fuel + 1) entries names a i = .fault .entryOutOfBounds := by
  rw [rpf7_build_directory_tree, entry_at_of_not_le entries i h]

theorem build_tree_not_dir (fuel : Nat) (entries names : List Byte) (a : Alloc) (i : Nat)
    (hin : (i + 1) * 16 ≤ entries.length)
    (hnd : rpf7_is_directory (spec_record entries i) = false) :
    rpf7_build_directory_tree (fuel + 1) entries names a i = .ok (none, a) := by
  rw [rpf7_build_directory_tree, entry_at_spec_record entries i hin]
  dsimp only
  rw [if_pos hnd]

theorem build_tree_alloc_fail (fuel : Nat) (entries names : List Byte) (a a1 : Alloc) (d : Nat)
    (hin : (d + 1) * 16 ≤ entries.length)
    (hdir : rpf7_is_directory (spec_record entries d) = true)
    (ha : alloc_request a = (false, a1)) :
    rpf7_build_directory_tree (fuel + 1) entries names a d = .ok (none, a1) := by
  rw [rpf7_build_directory_tree, entry_at_spec_record entries d hin]
  dsimp only
  rw [if_neg (by rw [hdir]; exact Bool.noConfusion), ha]

theorem build_tree_name_fault (fuel : Nat) (entries names : List Byte) (a a1 : Alloc) (d : Nat)
    (hin : (d + 1) * 16 ≤ entries.length)
    (hdir : rpf7_is_directory (spec_record entries d) = true)
    (ha : alloc_request a = (true, a1)) (f : Fault)
    (hs : strdup a1 (names.drop (entry_name_offset (spec_record entries d))) = .fault f) :
    rpf7_build_directory_tree (fuel + 1) entries names a d = .fault f := by
  rw [rpf7_build_directory_tree, entry_at_spec_record entries d hin]
  dsimp only
  rw [if_neg (by rw [hdir]; exact Bool.noConfusion), ha]
  dsimp only
  rw [hs]

theorem build_tree_children_fault (fuel : Nat) (entries names : List Byte) (a a1 a2 : Alloc)
    (d : Nat) (hin : (d + 1) * 16 ≤ entries.length)
    (hdir : rpf7_is_directory (spec_record entries d) = true)
    (ha : alloc_request a = (true, a1)) (name : Option (List Byte))
    (hs : strdup a1 (names.drop (entry_name_offset (spec_record entries d))) =
      .ok (name, a2)) (f : Fault)
    (hc : build_children (rpf7_build_directory_tree fuel entries names) entries names
        (child_indices (entry_directory_first_entry_index (spec_record entries d))
          (entry_directory_entry_count (spec_record entries d))) a2 [] [] = .fault f) :
    rpf7_build_directory_tree (fuel + 1) entries names a d = .fault f := by
  rw [rpf7_build_directory_tree, entry_at_spec_record entries d hin]
  dsimp only
  rw [if_neg (by rw [hdir]; exact Bool.noConfusion), ha]
  dsimp only
  rw [hs]
  dsimp only
  rw [hc]

theorem build_tree_children_ok (fuel : Nat) (entries names : List Byte) (a a1 a2 a3 : Alloc)
    (d : Nat) (hin : (d + 1) * 16 ≤ entries.length)
    (hdir : rpf7_is_directory (spec_record entries d) = true)
    (ha : alloc_request a = (true, a1)) (name : Option (List Byte))
    (hs : strdup a1 (names.drop (entry_name_offset (spec_record entries d))) =
      .ok (name, a2))
    (subdirs : List rpf7_directory_node) (files : List rpf7_file_node)
    (hc : build_children (rpf7_build_directory_tree fuel entries names) entries names
        (child_indices (entry_directory_first_entry_index (spec_record entries d))
          (entry_directory_entry_count (spec_record entries d))) a2 [] [] =
        .ok ((subdirs, files), a3)) :
    rpf7_build_directory_tree (fuel + 1) entries names a d =
      .ok (some (.mk name subdirs files), a3) := by
  rw [rpf7_build_directory_tree, entry_at_spec_record entries d hin]
  dsimp only
  rw [if_neg (by rw [hdir]; exact Bool.noConfusion), ha]
  dsimp only
  rw [hs]
  dsimp only
  rw [hc]

/-! ## Lemmas: allocators that never fail -/

theorem alloc_succeeds_nil : alloc_succeeds [] := fun _ h => nomatch h

theorem alloc_succeeds_request (a : Alloc) (h : alloc_succeeds a) :
    ∃ a1, alloc_request a = (true, a1) ∧ alloc_succeeds a1 := by
  cases a with
  | nil => exact ⟨[], rfl, h⟩
  | cons b rest =>
    have hb : b = true := h b (List.mem_cons_self _ _)
    rw [hb]
    exact ⟨rest, rfl, fun c hc => h c (List.mem_cons_of_mem _ hc)⟩

/-- When no allocation fails the child loop is `build_children_ok`. -/
theorem build_children_ok_eq (recur : Alloc → Nat → Res (Option rpf7_directory_node × Alloc))
    (recur_ok : Nat → Res (Option rpf7_directory_node)) (entries names : List Byte)
    (hrec : ∀ a i, alloc_succeeds a →
      ∃ a1, alloc_succeeds a1 ∧ recur a i = with_alloc a1 (recur_ok i))
    (idxs : List Nat) :
    ∀ (a : Alloc) (sd : List rpf7_directory_node) (fl : List rpf7_file_node),
      alloc_succeeds a →
      ∃ a1, alloc_succeeds a1 ∧ build_children recur entries names idxs a sd fl =
        with_alloc a1 (build_children_ok recur_ok entries names idxs sd fl) := by
  induction idxs with
  | nil =>
    intro a sd fl ha
    exact ⟨a, ha, by rw [build_children, build_children_ok]; rfl⟩
  | cons i rest ih =>
    intro a sd fl ha
    by_cases hin : (i + 1) * 16 ≤ entries.length
    · cases hd : rpf7_is_directory (spec_record entries i) with
      | true =>
        obtain ⟨a1, ha1, hr⟩ := hrec a i ha
        cases hro : recur_ok i with
        | fault f =>
          rw [hro] at hr
          refine ⟨a, ha, ?_⟩
          rw [build_children_dir_fault _ _ _ _ _ _ _ _ hin hd f hr,
            build_children_ok_dir_fault _ _ _ _ _ _ _ hin hd f hro]
          rfl
        | ok o =>
          rw [hro] at hr
          cases o with
          | none =>
            rw [build_children_dir_none _ _ _ _ _ _ _ _ _ hin hd hr,
              build_children_ok_dir_none _ _ _ _ _ _ _ hin hd hro]
            exact ih _ _ _ ha1
          | some s =>
            rw [build_children_dir_some _ _ _ _ _ _ _ _ _ hin hd s hr,
              build_children_ok_dir_some _ _ _ _ _ _ _ hin hd s hro]
            exact ih _ _ _ ha1
      | false =>
        obtain ⟨a1, hq1, ha1⟩ := alloc_succeeds_request a ha
        obtain ⟨a2, hq2, ha2⟩ := alloc_succeeds_request a1 ha1
        cases hs : read_string (names.drop (entry_name_offset (spec_record entries i))) with
        | fault f =>
          refine ⟨a, ha, ?_⟩
          rw [build_children_file_fault _ _ _ _ _ _ _ _ _ hin hd hq1 f
              (strdup_fault _ _ f hs),
            build_children_ok_file_fault _ _ _ _ _ _ _ hin hd f hs]
          rfl
        | ok name =>
          rw [build_children_file_ok _ _ _ _ _ _ _ _ _ _ hin hd hq1 _
              (strdup_ok _ _ _ _ hs hq2),
            build_children_ok_file_ok _ _ _ _ _ _ _ hin hd name hs]
          exact ih _ _ _ ha2
    · refine ⟨a, ha, ?_⟩
      rw [build_children_entry_fault _ _ _ _ _ _ _ _ hin,
        build_children_ok_entry_fault _ _ _ _ _ _ _ hin]
      rfl

/-- When no allocation fails the builder is `build_tree_ok`, and no allocation
fails after the call either. -/
theorem build_tree_ok_eq (entries names : List Byte) (fuel : Nat) :
    ∀ a i, alloc_succeeds a →
      ∃ a1, alloc_succeeds a1 ∧ rpf7_build_directory_tree fuel entries names a i =
        with_alloc a1 (build_tree_ok fuel entries names i) := by
  induction fuel with
  | zero => intro a i ha; exact ⟨a, ha, rfl⟩
  | succ fuel ih =>
    intro a i ha
    by_cases hin : (i + 1) * 16 ≤ entries.length
    · cases hd : rpf7_is_directory (spec_record entries i) with
      | false =>
        refine ⟨a, ha, ?_⟩
        rw [build_tree_not_dir fuel entries names a i hin hd,
          build_succ_not_dir fuel entries names i hin hd]
        rfl
      | true =>
        obtain ⟨a1, hq1, ha1⟩ := alloc_succeeds_request a ha
        obtain ⟨a2, hq2, ha2⟩ := alloc_succeeds_request a1 ha1
        cases hs : read_string (names.drop (entry_name_offset (spec_record entries i))) with
        | fault f =>
          refine ⟨a, ha, ?_⟩
          rw [build_tree_name_fault fuel entries names a a1 i hin hd hq1 f
              (strdup_fault _ _ f hs),
            build_succ_name_fault fuel entries names i hin hd f hs]
          rfl
        | ok name =>
          obtain ⟨a3, ha3, hch⟩ := build_children_ok_eq
            (rpf7_build_directory_tree fuel entries names)
            (build_tree_ok fuel entries names) entries names ih
            (child_indices (entry_directory_first_entry_index (spec_record entries i))
              (entry_directory_entry_count (spec_record entries i))) a2 [] [] ha2
          cases hc : build_children_ok (build_tree_ok fuel entries names) entries names
              (child_indices (entry_directory_first_entry_index (spec_record entries i))
                (entry_directory_entry_count (spec_record entries i))) [] [] with
          | fault f =>
            rw [hc] at hch
            refine ⟨a, ha, ?_⟩
            rw [build_tree_children_fault fuel entries names a a1 a2 i hin hd
                hq1 (some name) (strdup_ok _ _ _ _ hs hq2) f hch,
              build_succ_children_fault fuel entries names i hin hd name hs f hc]
            rfl
          | ok pr =>
            obtain ⟨sd, fl⟩ := pr
            rw [hc] at hch
            refine ⟨a3, ha3, ?_⟩
            rw [build_tree_children_ok fuel entries names a a1 a2 a3 i hin hd
                hq1 (some name) (strdup_ok _ _ _ _ hs hq2) sd fl hch,
              build_succ_children_ok fuel entries names i hin hd name hs sd fl hc]
            rfl
    · refine ⟨a, ha, ?_⟩
      rw [build_tree_entry_fault fuel entries names a i hin,
        build_succ_entry_fault fuel entries names i hin]
      rfl

/-- A returned run in which no allocation fails is a returned run of
`build_tree_ok`. -/
theorem build_tree_succeeds_ok (entries names : List Byte) (fuel : Nat) (a : Alloc) (i : Nat)
    (ha : alloc_succeeds a) (r : Option rpf7_directory_node) (a1 : Alloc)
    (h : rpf7_build_directory_tree fuel entries names a i = .ok (r, a1)) :
    build_tree_ok fuel entries names i = .ok r ∧ alloc_succeeds a1 := by
  obtain ⟨a2, ha2, heq⟩ := build_tree_ok_eq entries names fuel a i ha
  rw [heq] at h
  cases hb : build_tree_ok fuel entries names i with
  | fault f => rw [hb] at h; cases h
  | ok x =>
    rw [hb] at h
    cases h
    exact ⟨rfl, ha2⟩

/-- A returned run of `build_tree_ok` is a returned run of the builder from
every allocator that never fails. -/
theorem build_tree_succeeds_of_ok (entries names : List Byte) (fuel : Nat) (a : Alloc)
    (i : Nat) (ha : alloc_succeeds a) (r : Option rpf7_directory_node)
    (h : build_tree_ok fuel entries names i = .ok r) :
    ∃ a1, alloc_succeeds a1 ∧
      rpf7_build_directory_tree fuel entries names a i = .ok (r, a1) := by
  obtain ⟨a2, ha2, heq⟩ := build_tree_ok_eq entries names fuel a i ha
  rw [h] at heq
  exact ⟨a2, ha2, heq⟩

/-- A fault of `build_tree_ok` is a fault of the builder from every allocator
that never fails. -/
theorem build_tree_succeeds_fault (entries names : List Byte) (fuel : Nat) (a : Alloc)
    (i : Nat) (ha : alloc_succeeds a) (f : Fault)
    (h : build_tree_ok fuel entries names i = .fault f) :
    rpf7_build_directory_tree fuel entries names a i = .fault f := by
  obtain ⟨a2, _, heq⟩ := build_tree_ok_eq entries names fuel a i ha
  rw [h] at heq
  exact heq

/-! ## Lemmas: a table of `2 ^ 32` records -/

theorem result_of_with_alloc {α : Type} (a : Alloc) (x : Res α) :
    result_of (with_alloc a x) = x := by
  cases x <;> rfl

theorem example_wrap_table_length : example_wrap_table.length = 16 * 2 ^ 32 := by
  have h1 : example_wrap_dir.length = 16 := rfl
  have h2 : example_empty_dir.length = 16 := rfl
  rw [example_wrap_table, List.length_append, List.length_append, List.length_replicate, h1, h2]
  norm_num

theorem example_wrap_table_record_0 : spec_record example_wrap_table 0 = example_wrap_dir := by
  rw [spec_record, example_wrap_table, Nat.mul_zero, List.drop_zero]
  exact List.take_left' rfl

theorem example_wrap_table_record_1 : spec_record example_wrap_table 1 = example_empty_dir := by
  have h : List.drop 16 (example_wrap_dir ++
      (example_empty_dir ++ List.replicate (16 * (2 ^ 32 - 2)) 0)) =
      example_empty_dir ++ List.replicate (16 * (2 ^ 32 - 2)) 0 := List.drop_left' rfl
  rw [spec_record, example_wrap_table, Nat.mul_one, h]
  exact List.take_left' rfl

theorem example_wrap_table_record_2 :
    spec_record example_wrap_table 2 = List.replicate 16 0 := by
  have h : List.drop (16 * 2) ((example_wrap_dir ++ example_empty_dir) ++
      List.replicate (16 * (2 ^ 32 - 2)) 0) = List.replicate (16 * (2 ^ 32 - 2)) 0 :=
    List.drop_left' rfl
  rw [spec_record, example_wrap_table, ← List.append_assoc, h, List.take_replicate]
  have hm : min 16 (16 * (2 ^ 32 - 2)) = 16 := by norm_num
  rw [hm]

/-- On the table of `2 ^ 32` records the build of record 0 visits no child. -/
theorem example_wrap_table_build :
    rpf7_build_directory_tree 1 example_wrap_table example_names [] 0 =
      .ok (some (.mk (some [0x72]) [] []), []) := by
  have hin : (0 + 1) * 16 ≤ example_wrap_table.length := by
    rw [example_wrap_table_length]; norm_num
  have hdir : rpf7_is_directory (spec_record example_wrap_table 0) = true := by
    rw [example_wrap_table_record_0]; decide
  apply build_tree_children_ok 0 example_wrap_table example_names [] [] [] [] 0 hin hdir rfl
  · rw [example_wrap_table_record_0]; rfl
  · rw [example_wrap_table_record_0]
    have hidx : child_indices (entry_directory_first_entry_index example_wrap_dir)
        (entry_directory_entry_count example_wrap_dir) = [] :=
      (child_indices_of_wrap _ _ (entry_directory_first_entry_index_lt _)
        (entry_directory_entry_count_lt _) (by decide)).2
    rw [hidx, build_children]

/-! ## Lemmas: the children of a directory when no allocation fails -/

theorem build_tree_ok_child_files (fuel : Nat) (entries names_buffer : List Byte) (d : Nat)
    (r : Option rpf7_directory_node)
    (hin : (d + 1) * 16 ≤ entries.length)
    (hdir : rpf7_is_directory (spec_record entries d) = true)
    (hrange : (entry_directory_first_entry_index (spec_record entries d) +
      entry_directory_entry_count (spec_record entries d)) * 16 ≤ entries.length)
    (hwrap : entry_directory_first_entry_index (spec_record entries d) +
      entry_directory_entry_count (spec_record entries d) < 2 ^ 32)
    (hterm : build_tree_ok fuel entries names_buffer d = .ok r) :
    ∃ node, r = some node ∧
      node.files = spec_child_files entries names_buffer
        (entry_directory_first_entry_index (spec_record entries d))
        (entry_directory_entry_count (spec_record entries d)) := by
  cases fuel with
  | zero => rw [build_tree_ok] at hterm; cases hterm
  | succ fuel =>
    obtain ⟨name, sd, fl, _, hc, hr⟩ :=
      build_succ_inv fuel entries names_buffer d r hin hdir hterm
    rw [child_indices_of_lt _ _ hwrap] at hc
    refine ⟨_, hr, ?_⟩
    have hfiles := build_children_ok_files _ entries names_buffer _
      (range_in_table entries _ _ hrange) [] [] sd fl hc
    have hfl : fl = spec_child_files entries names_buffer
        (entry_directory_first_entry_index (spec_record entries d))
        (entry_directory_entry_count (spec_record entries d)) := by
      rw [hfiles, List.nil_append, spec_child_files]
    rw [hfl, rpf7_directory_node.files]

theorem build_tree_ok_name_and_subdirs (fuel : Nat) (entries names_buffer : List Byte)
    (d : Nat) (r : Option rpf7_directory_node)
    (hin : (d + 1) * 16 ≤ entries.length)
    (hdir : rpf7_is_directory (spec_record entries d) = true)
    (hrange : (entry_directory_first_entry_index (spec_record entries d) +
      entry_directory_entry_count (spec_record entries d)) * 16 ≤ entries.length)
    (hwrap : entry_directory_first_entry_index (spec_record entries d) +
      entry_directory_entry_count (spec_record entries d) < 2 ^ 32)
    (hterm : build_tree_ok fuel entries names_buffer d = .ok r) :
    ∃ node, r = some node ∧
      node.name = some (spec_c_string names_buffer
        (entry_name_offset (spec_record entries d))) ∧
      ∀ k, node.subdirs.map (fun s => Res.ok (some s)) =
        ((List.range' (entry_directory_first_entry_index (spec_record entries d))
            (entry_directory_entry_count (spec_record entries d))).filter
          (fun j => rpf7_is_directory (spec_record entries j))).map
          (fun j => build_tree_ok (fuel + k) entries names_buffer j) := by
  cases fuel with
  | zero => rw [build_tree_ok] at hterm; cases hterm
  | succ fuel =>
    obtain ⟨name, sd, fl, hs, hc, hr⟩ :=
      build_succ_inv fuel entries names_buffer d r hin hdir hterm
    rw [child_indices_of_lt _ _ hwrap] at hc
    have hmem := range_in_table entries _ _ hrange
    refine ⟨_, hr, ?_, ?_⟩
    · rw [rpf7_directory_node.name, read_string_ok _ _ hs, spec_c_string]
    · intro k
      have hsub := build_children_ok_subdirs _ entries names_buffer _ hmem
        (fun i hi hdi => build_dir_not_none fuel entries names_buffer i (hmem i hi) hdi)
        [] [] sd fl hc
      rw [rpf7_directory_node.subdirs, hsub, List.map_nil, List.nil_append]
      apply List.map_congr_left
      intro j hj
      rw [List.mem_filter] at hj
      obtain ⟨rj, hrj⟩ := build_children_ok_recur_ok _ entries names_buffer _ hmem [] [] _ hc
        j hj.1 hj.2
      rw [hrj, Nat.add_assoc]
      exact (build_stable entries names_buffer fuel (1 + k) j _ hrj
        (by intro hh; cases hh)).symm

/-! ## Lemmas: directories whose loop visits no index -/

theorem strdup_of_mem (a : Alloc) (p : List Byte) (h : (0 : Byte) ∈ p) :
    ∃ name a2, strdup a p = .ok (name, a2) := by
  have hs := read_string_of_mem p h
  cases hq : alloc_request a with
  | mk b a2 =>
    cases b with
    | true => exact ⟨_, a2, strdup_ok a a2 p _ hs hq⟩
    | false => exact ⟨_, a2, strdup_null a a2 p _ hs hq⟩

/-- A directory whose loop visits no index: once the `malloc` of its node
succeeds and its name is terminated, the build returns the node with empty
chains. -/
theorem build_tree_no_children (fuel : Nat) (entries names : List Byte) (a a1 : Alloc)
    (d : Nat) (hin : (d + 1) * 16 ≤ entries.length)
    (hdir : rpf7_is_directory (spec_record entries d) = true)
    (halloc : alloc_request a = (true, a1))
    (hname : (0 : Byte) ∈ names.drop (entry_name_offset (spec_record entries d)))
    (hidx : child_indices (entry_directory_first_entry_index (spec_record entries d))
      (entry_directory_entry_count (spec_record entries d)) = []) :
    ∃ name a2,
      strdup a1 (names.drop (entry_name_offset (spec_record entries d))) = .ok (name, a2) ∧
      rpf7_build_directory_tree (fuel + 1) entries names a d =
        .ok (some (.mk name [] []), a2) := by
  obtain ⟨name, a2, hs⟩ := strdup_of_mem a1 _ hname
  refine ⟨name, a2, hs, ?_⟩
  apply build_tree_children_ok fuel entries names a a1 a2 a2 d hin hdir halloc name hs
  rw [hidx, build_children]

/-! ## Lemmas: tables that describe a tree, with any allocator -/

/-- The child loop runs to its end, whatever allocations fail, when every
visited record lies inside the table, every recursive call on a directory record
returns, and the name of every visited record is terminated inside the names
blob. -/
theorem build_children_returns
    (recur : Alloc → Nat → Res (Option rpf7_directory_node × Alloc))
    (entries names : List Byte) (idxs : List Nat)
    (hin : ∀ i ∈ idxs, (i + 1) * 16 ≤ entries.length)
    (hrec : ∀ a, ∀ i ∈ idxs, rpf7_is_directory (spec_record entries i) = true →
      ∃ r a1, recur a i = .ok (r, a1))
    (hname : ∀ i ∈ idxs, (0 : Byte) ∈ names.drop (entry_name_offset (spec_record entries i))) :
    ∀ (a : Alloc) (sd : List rpf7_directory_node) (fl : List rpf7_file_node),
      ∃ res a1, build_children recur entries names idxs a sd fl = .ok (res, a1) := by
  induction idxs with
  | nil => intro a sd fl; exact ⟨_, _, build_children_nil _ _ _ _ _ _⟩
  | cons i rest ih =>
    intro a sd fl
    have hi : (i + 1) * 16 ≤ entries.length := hin i (List.mem_cons_self _ _)
    have ih' := ih (fun j hj => hin j (List.mem_cons_of_mem _ hj))
      (fun a j hj => hrec a j (List.mem_cons_of_mem _ hj))
      (fun j hj => hname j (List.mem_cons_of_mem _ hj))
    cases hd : rpf7_is_directory (spec_record entries i) with
    | true =>
      obtain ⟨r, a1, hr⟩ := hrec a i (List.mem_cons_self _ _) hd
      cases r with
      | none =>
        rw [build_children_dir_none _ _ _ _ _ _ _ _ _ hi hd hr]
        exact ih' _ _ _
      | some s =>
        rw [build_children_dir_some _ _ _ _ _ _ _ _ _ hi hd s hr]
        exact ih' _ _ _
    | false =>
      cases hq : alloc_request a with
      | mk b a1 =>
        cases b with
        | false =>
          rw [build_children_file_skip _ _ _ _ _ _ _ _ _ hi hd hq]
          exact ih' _ _ _
        | true =>
          obtain ⟨nm, a2, hs⟩ := strdup_of_mem a1 _ (hname i (List.mem_cons_self _ _))
          rw [build_children_file_ok _ _ _ _ _ _ _ _ _ _ hi hd hq nm hs]
          exact ih' _ _ _

/-- On a table that describes a tree the builder returns from index `i`,
whatever allocations fail, with every recursion budget of at least `N - i`. -/
theorem build_tree_table_returns_any (entries names : List Byte) (N : Nat)
    (hlen : entries.length = 16 * N)
    (htree : ∀ j, j < N → rpf7_is_directory (spec_record entries j) = true →
      j < entry_directory_first_entry_index (spec_record entries j) ∧
      entry_directory_first_entry_index (spec_record entries j) +
        entry_directory_entry_count (spec_record entries j) ≤ N)
    (hnames : ∀ j, j < N →
      (0 : Byte) ∈ names.drop (entry_name_offset (spec_record entries j)))
    (k : Nat) :
    ∀ a i, i < N → N - i ≤ k →
      ∃ r a1, rpf7_build_directory_tree k entries names a i = .ok (r, a1) := by
  induction k with
  | zero => intro a i hi hk; omega
  | succ k ih =>
    intro a i hi hk
    have hin : (i + 1) * 16 ≤ entries.length := by omega
    cases hd : rpf7_is_directory (spec_record entries i) with
    | false => exact ⟨_, _, build_tree_not_dir k entries names a i hin hd⟩
    | true =>
      cases hq : alloc_request a with
      | mk b a1 =>
        cases b with
        | false => exact ⟨_, _, build_tree_alloc_fail k entries names a a1 i hin hd hq⟩
        | true =>
          obtain ⟨hfirst, hrange⟩ := htree i hi hd
          have hmem : ∀ j ∈ child_indices
              (entry_directory_first_entry_index (spec_record entries i))
              (entry_directory_entry_count (spec_record entries i)), i < j ∧ j < N := by
            intro j hj
            have := child_indices_mem _ _ j hj
            omega
          obtain ⟨nm, a2, hs⟩ := strdup_of_mem a1 _ (hnames i hi)
          obtain ⟨res, a3, hres⟩ := build_children_returns
            (rpf7_build_directory_tree k entries names) entries names
            (child_indices (entry_directory_first_entry_index (spec_record entries i))
              (entry_directory_entry_count (spec_record entries i)))
            (fun j hj => by have := hmem j hj; omega)
            (fun a' j hj _ => ih a' j (hmem j hj).2 (by have := hmem j hj; omega))
            (fun j hj => hnames j (hmem j hj).2) a2 [] []
          obtain ⟨sd, fl⟩ := res
          exact ⟨_, _, build_tree_children_ok k entries names a a1 a2 a3 i hin hd hq nm hs
            sd fl hres⟩

/-! ## Lemmas: cyclic tables -/

theorem example_self_loop_diverges (fuel : Nat) :
    build_tree_ok fuel example_self_loop example_names 0 = .fault .outOfFuel := by
  induction fuel with
  | zero => rfl
  | succ fuel ih =>
    apply build_succ_children_fault fuel example_self_loop example_names 0 (by decide)
      (by decide) [0x72] (by decide)
    have hidx : child_indices
        (entry_directory_first_entry_index (spec_record example_self_loop 0))
        (entry_directory_entry_count (spec_record example_self_loop 0)) = [0] := by decide
    rw [hidx]
    exact build_children_ok_dir_fault _ _ _ _ _ _ _ (by decide) (by decide) _ ih

theorem example_two_cycle_diverges (fuel : Nat) :
    build_tree_ok fuel example_two_cycle example_names 0 = .fault .outOfFuel ∧
    build_tree_ok fuel example_two_cycle example_names 1 = .fault .outOfFuel := by
  induction fuel with
  | zero => exact ⟨rfl, rfl⟩
  | succ fuel ih =>
    constructor
    · apply build_succ_children_fault fuel example_two_cycle example_names 0 (by decide)
        (by decide) [0x72] (by decide)
      have hidx : child_indices
          (entry_directory_first_entry_index (spec_record example_two_cycle 0))
          (entry_directory_entry_count (spec_record example_two_cycle 0)) = [1] := by
        decide
      rw [hidx]
      exact build_children_ok_dir_fault _ _ _ _ _ _ _ (by decide) (by decide) _ ih.2
    · apply build_succ_children_fault fuel example_two_cycle example_names 1 (by decide)
        (by decide) [0x66] (by decide)
      have hidx : child_indices
          (entry_directory_first_entry_index (spec_record example_two_cycle 1))
          (entry_directory_entry_count (spec_record example_two_cycle 1)) = [0] := by
        decide
      rw [hidx]
      exact build_children_ok_dir_fault _ _ _ _ _ _ _ (by decide) (by decide) _ ih.1

/-! ## Lemmas: one child per index -/

theorem build_tree_ok_child_counts (fuel : Nat) (entries names_buffer : List Byte) (d : Nat)
    (r : Option rpf7_directory_node)
    (hin : (d + 1) * 16 ≤ entries.length)
    (hdir : rpf7_is_directory (spec_record entries d) = true)
    (hrange : (entry_directory_first_entry_index (spec_record entries d) +
      entry_directory_entry_count (spec_record entries d)) * 16 ≤ entries.length)
    (hwrap : entry_directory_first_entry_index (spec_record entries d) +
      entry_directory_entry_count (spec_record entries d) < 2 ^ 32)
    (hterm : build_tree_ok fuel entries names_buffer d = .ok r) :
    ∃ node, r = some node ∧
      node.subdirs.length =
        ((List.range' (entry_directory_first_entry_index (spec_record entries d))
            (entry_directory_entry_count (spec_record entries d))).filter
          (fun j => rpf7_is_directory (spec_record entries j))).length ∧
      node.files.length =
        ((List.range' (entry_directory_first_entry_index (spec_record entries d))
            (entry_directory_entry_count (spec_record entries d))).filter
          (fun j => !rpf7_is_directory (spec_record entries j))).length ∧
      node.subdirs.length + node.files.length =
        entry_directory_entry_count (spec_record entries d) := by
  cases fuel with
  | zero => rw [build_tree_ok] at hterm; cases hterm
  | succ fuel =>
    obtain ⟨name, sd, fl, hs, hc, hr⟩ :=
      build_succ_inv fuel entries names_buffer d r hin hdir hterm
    rw [child_indices_of_lt _ _ hwrap] at hc
    have hmem := range_in_table entries _ _ hrange
    have hsub := build_children_ok_subdirs _ entries names_buffer _ hmem
      (fun i hi hdi => build_dir_not_none fuel entries names_buffer i (hmem i hi) hdi)
      [] [] sd fl hc
    have hfiles := build_children_ok_files _ entries names_buffer _ hmem [] [] sd fl hc
    have h1 : sd.length =
        ((List.range' (entry_directory_first_entry_index (spec_record entries d))
            (entry_directory_entry_count (spec_record entries d))).filter
          (fun j => rpf7_is_directory (spec_record entries j))).length := by
      have := congrArg List.length hsub
      rw [List.map_nil, List.nil_append, List.length_map, List.length_map] at this
      exact this
    have h2 : fl.length =
        ((List.range' (entry_directory_first_entry_index (spec_record entries d))
            (entry_directory_entry_count (spec_record entries d))).filter
          (fun j => !rpf7_is_directory (spec_record entries j))).length := by
      rw [hfiles, List.nil_append, List.length_map]
    refine ⟨_, hr, ?_, ?_, ?_⟩
    · rw [rpf7_directory_node.subdirs]; exact h1
    · rw [rpf7_directory_node.files]; exact h2
    · rw [rpf7_directory_node.subdirs, rpf7_directory_node.files, h1, h2]
      have := List.length_eq_length_filter_add
        (l := List.range' (entry_directory_first_entry_index (spec_record entries d))
          (entry_directory_entry_count (spec_record entries d)))
        (fun j => rpf7_is_directory (spec_record entries j))
      rw [List.length_range'] at this
      exact this.symm

theorem getD_of_take_eq (a b : List Byte) (n i : Nat) (h : a.take n = b.take n) (hi : i < n) :
    a.getD i 0 = b.getD i 0 := by
  rw [List.getD_eq_getElem?_getD, List.getD_eq_getElem?_getD,
    ← List.getElem?_take_of_lt hi, ← List.getElem?_take_of_lt (l := b) hi, h]

theorem spec_le_u32_of_take_eq (a b : List Byte) (n off : Nat) (h : a.take n = b.take n)
    (hoff : off + 3 < n) : spec_le_u32 a off = spec_le_u32 b off := by
  unfold spec_le_u32
  rw [getD_of_take_eq a b n off h (by omega), getD_of_take_eq a b n (off + 1) h (by omega),
    getD_of_take_eq a b n (off + 2) h (by omega), getD_of_take_eq a b n (off + 3) h (by omega)]

theorem memcpy_of_drop_eq (a b : List Byte) (off n : Nat) (hlen : a.length = b.length)
    (h : a.drop 16 = b.drop 16) : memcpy a (16 + off) n = memcpy b (16 + off) n := by
  unfold memcpy
  rw [hlen, ← List.drop_drop, ← List.drop_drop, h]

/-- The control flow and the copies of `rpf7_read_header` do not depend on
bytes 12..15 of the buffer. -/
theorem read_header_encryption_type (w : Nat) (ea na : Bool) (data1 data2 : List Byte)
    (hlen : data1.length = data2.length)
    (hpre : data1.take 12 = data2.take 12)
    (hpost : data1.drop 16 = data2.drop 16) :
    rpf7_read_header w ea na data2 =
      with_encryption_type (spec_le_u32 data2 12) (rpf7_read_header w ea na data1) := by
  have e0 := spec_le_u32_of_take_eq data1 data2 12 0 hpre (by omega)
  have e4 := spec_le_u32_of_take_eq data1 data2 12 4 hpre (by omega)
  have e8 := spec_le_u32_of_take_eq data1 data2 12 8 hpre (by omega)
  have hv1 : (header_of_bytes data1).version = spec_le_u32 data2 0 := by
    rw [header_of_bytes_eq, ← e0]
  have hn1 : (header_of_bytes data1).entry_count = spec_le_u32 data2 4 := by
    rw [header_of_bytes_eq, ← e4]
  have hm1 : (header_of_bytes data1).names_data_size = spec_le_u32 data2 8 := by
    rw [header_of_bytes_eq, ← e8]
  have hv2 : (header_of_bytes data2).version = spec_le_u32 data2 0 := by
    rw [header_of_bytes_eq]
  have hn2 : (header_of_bytes data2).entry_count = spec_le_u32 data2 4 := by
    rw [header_of_bytes_eq]
  have hm2 : (header_of_bytes data2).names_data_size = spec_le_u32 data2 8 := by
    rw [header_of_bytes_eq]
  have hh : some (header_of_bytes data2) =
      (some (header_of_bytes data1)).map
        (fun h => { h with encryption_type := spec_le_u32 data2 12 }) := by
    rw [header_of_bytes_eq, header_of_bytes_eq, Option.map_some', e0, e4, e8]
  unfold rpf7_read_header
  simp only [sizeof_header_eq, sizeof_entry_eq, hv1, hn1, hm1, hv2, hn2, hm2, hlen]
  by_cases h1 : data2.length < 16
  · rw [if_pos h1, if_pos h1]; rfl
  rw [if_neg h1, if_neg h1]
  by_cases h2 : spec_le_u32 data2 0 ≠ 0x52504637
  · rw [if_pos h2, if_pos h2, hh]; rfl
  rw [if_neg h2, if_neg h2]
  by_cases h3 : data2.length <
      size_t w (size_t w (16 + size_t w (size_t w (spec_le_u32 data2 4) * 16)) +
        size_t w (spec_le_u32 data2 8))
  · rw [if_pos h3, if_pos h3, hh]; rfl
  rw [if_neg h3, if_neg h3]
  by_cases h4 : ea = false
  · rw [if_pos h4, if_pos h4, hh]; rfl
  rw [if_neg h4, if_neg h4]
  rw [← Nat.add_zero 16, ← memcpy_of_drop_eq data1 data2 0 _ hlen hpost]
  cases hc1 : memcpy data1 (16 + 0) (size_t w (size_t w (spec_le_u32 data2 4) * 16)) with
  | fault f => rfl
  | ok entries =>
    dsimp only
    by_cases h5 : na = false
    · rw [if_pos h5, if_pos h5, hh]; rfl
    rw [if_neg h5, if_neg h5]
    rw [Nat.add_zero, ← memcpy_of_drop_eq data1 data2 _ _ hlen hpost]
    cases hc2 : memcpy data1 (16 + size_t w (size_t w (spec_le_u32 data2 4) * 16))
        (size_t w (spec_le_u32 data2 8)) with
    | fault f => rfl
    | ok names => dsimp only; rw [hh]; rfl

/-- A header that `rpf7_read_header` leaves behind is the header decoded from
the first 16 bytes of the buffer. -/
theorem read_header_header (w : Nat) (ea na : Bool) (data : List Byte) (r : ReadResult)
    (h : rpf7_read_header w ea na data = .ok r) (hd : rpf7_rpf_header)
    (hh : r.header = some hd) : hd = header_of_bytes data := by
  unfold rpf7_read_header at h
  dsimp only at h
  by_cases h1 : data.length < sizeof_header
  · rw [if_pos h1] at h; cases h; cases hh
  rw [if_neg h1] at h
  by_cases h2 : (header_of_bytes data).version ≠ 0x52504637
  · rw [if_pos h2] at h; cases h; cases hh; rfl
  rw [if_neg h2] at h
  split at h
  · cases h; cases hh; rfl
  split at h
  · cases h; cases hh; rfl
  split at h
  · cases h
  split at h
  · cases h; cases hh; rfl
  split at h
  · cases h
  · cases h; cases hh; rfl

/-! ## Lemmas: the fields the builder reads -/

theorem spec_record_getD (entries : List Byte) (i j : Nat) (hj : j < 16) :
    (spec_record entries i).getD j 0 = entries.getD (16 * i + j) 0 := by
  unfold spec_record
  rw [List.getD_eq_getElem?_getD, List.getD_eq_getElem?_getD, List.getElem?_take_of_lt hj,
    List.getElem?_drop]

theorem entry_name_offset_getD (entry : List Byte) :
    entry_name_offset entry = (entry.getD 0 0).val + 256 * (entry.getD 1 0).val := by
  have a0 : offsetof_packed rpf7_rpf_entry_members "name_offset" = 0 := by decide
  unfold entry_name_offset
  rw [a0]
  simp only [load_le, List.drop_zero, List.getD_eq_getElem?_getD, List.getElem?_drop,
    Nat.add_zero]
  omega

theorem entry_file_size_getD (entry : List Byte) :
    entry_file_size entry = spec_le_u32 entry 8 := by
  have a : offsetof_packed rpf7_rpf_entry_members "union" +
      offsetof_packed file_members "size" = 8 := by decide
  unfold entry_file_size
  rw [a, load_le_four]

theorem entry_directory_first_entry_index_getD (entry : List Byte) :
    entry_directory_first_entry_index entry = spec_le_u32 entry 8 := by
  have a : offsetof_packed rpf7_rpf_entry_members "union" +
      offsetof_packed directory_members "first_entry_index" = 8 := by decide
  unfold entry_directory_first_entry_index
  rw [a, load_le_four]

theorem entry_directory_entry_count_getD (entry : List Byte) :
    entry_directory_entry_count entry = spec_le_u32 entry 12 := by
  have a : offsetof_packed rpf7_rpf_entry_members "union" +
      offsetof_packed directory_members "entry_count" = 12 := by decide
  unfold entry_directory_entry_count
  rw [a, load_le_four]

theorem read_u24_le_entry_offset (entry : List Byte) :
    read_u24_le (entry_offset entry) =
      read_u24_le [entry.getD 5 0, entry.getD 6 0, entry.getD 7 0] := by
  have a : offsetof_packed rpf7_rpf_entry_members "offset" = 5 := by decide
  have g : ∀ j, j < 3 → (entry_offset entry).getD j 0 = entry.getD (5 + j) 0 := by
    intro j hj
    unfold entry_offset
    rw [a, List.getD_eq_getElem?_getD, List.getD_eq_getElem?_getD,
      List.getElem?_take_of_lt hj, List.getElem?_drop]
  unfold read_u24_le
  rw [g 0 (by omega), g 1 (by omega), g 2 (by omega)]
  rfl

theorem same_fields_of_same_up_to_flags (entries1 entries2 : List Byte)
    (h : same_up_to_flags entries1 entries2) (i : Nat) :
    SameFields (spec_record entries1 i) (spec_record entries2 i) := by
  have g : ∀ j, j < 16 → j ≠ 2 → j ≠ 3 → j ≠ 4 →
      (spec_record entries1 i).getD j 0 = (spec_record entries2 i).getD j 0 := by
    intro j hj h2 h3 h4
    rw [spec_record_getD _ _ _ hj, spec_record_getD _ _ _ hj]
    exact h.2 _ (by omega) (by omega) (by omega)
  have hoff : read_u24_le (entry_offset (spec_record entries1 i)) =
      read_u24_le (entry_offset (spec_record entries2 i)) := by
    rw [read_u24_le_entry_offset, read_u24_le_entry_offset,
      g 5 (by omega) (by omega) (by omega) (by omega),
      g 6 (by omega) (by omega) (by omega) (by omega),
      g 7 (by omega) (by omega) (by omega) (by omega)]
  have h8 : spec_le_u32 (spec_record entries1 i) 8 = spec_le_u32 (spec_record entries2 i) 8 := by
    unfold spec_le_u32
    rw [g 8 (by omega) (by omega) (by omega) (by omega),
      g (8 + 1) (by omega) (by omega) (by omega) (by omega),
      g (8 + 2) (by omega) (by omega) (by omega) (by omega),
      g (8 + 3) (by omega) (by omega) (by omega) (by omega)]
  have h12 : spec_le_u32 (spec_record entries1 i) 12 =
      spec_le_u32 (spec_record entries2 i) 12 := by
    unfold spec_le_u32
    rw [g 12 (by omega) (by omega) (by omega) (by omega),
      g (12 + 1) (by omega) (by omega) (by omega) (by omega),
      g (12 + 2) (by omega) (by omega) (by omega) (by omega),
      g (12 + 3) (by omega) (by omega) (by omega) (by omega)]
  refine ⟨?_, ?_, ?_, hoff, ?_, ?_⟩
  · unfold rpf7_is_directory
    rw [hoff]
  · rw [entry_name_offset_getD, entry_name_offset_getD,
      g 0 (by omega) (by omega) (by omega) (by omega),
      g 1 (by omega) (by omega) (by omega) (by omega)]
  · rw [entry_file_size_getD, entry_file_size_getD, h8]
  · rw [entry_directory_first_entry_index_getD, entry_directory_first_entry_index_getD, h8]
  · rw [entry_directory_entry_count_getD, entry_directory_entry_count_getD, h12]

theorem build_children_flags
    (recur1 recur2 : Alloc → Nat → Res (Option rpf7_directory_node × Alloc))
    (entries1 entries2 names : List Byte) (h : same_up_to_flags entries1 entries2)
    (hrec : ∀ a i, recur1 a i = recur2 a i) (idxs : List Nat) :
    ∀ (a : Alloc) (sd : List rpf7_directory_node) (fl : List rpf7_file_node),
      build_children recur1 entries1 names idxs a sd fl =
        build_children recur2 entries2 names idxs a sd fl := by
  induction idxs with
  | nil => intro a sd fl; rw [build_children, build_children]
  | cons i rest ih =>
    intro a sd fl
    have hf := same_fields_of_same_up_to_flags entries1 entries2 h i
    by_cases hin : (i + 1) * 16 ≤ entries1.length
    · have hin2 : (i + 1) * 16 ≤ entries2.length := by rw [← h.1]; exact hin
      cases hd : rpf7_is_directory (spec_record entries1 i) with
      | true =>
        have hd2 : rpf7_is_directory (spec_record entries2 i) = true := by
          rw [← hf.is_directory]; exact hd
        cases hr : recur1 a i with
        | fault f =>
          rw [build_children_dir_fault _ _ _ _ _ _ _ _ hin hd f hr,
            build_children_dir_fault _ _ _ _ _ _ _ _ hin2 hd2 f (by rw [← hrec]; exact hr)]
        | ok o =>
          obtain ⟨o, a1⟩ := o
          cases o with
          | none =>
            rw [build_children_dir_none _ _ _ _ _ _ _ _ _ hin hd hr,
              build_children_dir_none _ _ _ _ _ _ _ _ _ hin2 hd2 (by rw [← hrec]; exact hr)]
            exact ih _ _ _
          | some s =>
            rw [build_children_dir_some _ _ _ _ _ _ _ _ _ hin hd s hr,
              build_children_dir_some _ _ _ _ _ _ _ _ _ hin2 hd2 s (by rw [← hrec]; exact hr)]
            exact ih _ _ _
      | false =>
        have hd2 : rpf7_is_directory (spec_record entries2 i) = false := by
          rw [← hf.is_directory]; exact hd
        cases hq : alloc_request a with
        | mk b a1 =>
          cases b with
          | false =>
            rw [build_children_file_skip _ _ _ _ _ _ _ _ _ hin hd hq,
              build_children_file_skip _ _ _ _ _ _ _ _ _ hin2 hd2 hq]
            exact ih _ _ _
          | true =>
            cases hs : strdup a1 (names.drop (entry_name_offset (spec_record entries1 i))) with
            | fault f =>
              rw [build_children_file_fault _ _ _ _ _ _ _ _ _ hin hd hq f hs,
                build_children_file_fault _ _ _ _ _ _ _ _ _ hin2 hd2 hq f
                  (by rw [← hf.name_offset]; exact hs)]
            | ok pr =>
              obtain ⟨name, a2⟩ := pr
              rw [build_children_file_ok _ _ _ _ _ _ _ _ _ _ hin hd hq name hs,
                build_children_file_ok _ _ _ _ _ _ _ _ _ _ hin2 hd2 hq name
                  (by rw [← hf.name_offset]; exact hs),
                hf.file_size, hf.offset]
              exact ih _ _ _
    · have hin2 : ¬ (i + 1) * 16 ≤ entries2.length := by rw [← h.1]; exact hin
      rw [build_children_entry_fault _ _ _ _ _ _ _ _ hin,
        build_children_entry_fault _ _ _ _ _ _ _ _ hin2]

/-! ## Lemmas: the blocks of one node -/

theorem name_block_length_le (name : Option (List Byte)) : (name_block name).length ≤ 1 := by
  cases name <;> simp [name_block]

theorem mem_node_released (p x : Nat) (name : Option (List Byte)) :
    x ∈ node_released p name ↔ p ≤ x ∧ x < p + 1 + (name_block name).length := by
  cases name with
  | none =>
    simp only [node_released, name_field, name_block, Option.toList, List.nil_append,
      List.mem_singleton, List.length_nil]
    omega
  | some s =>
    simp only [node_released, name_field, name_block, Option.toList, List.singleton_append,
      List.mem_cons, List.mem_singleton, List.length_cons, List.length_nil, List.not_mem_nil,
      or_false]
    omega

theorem self_mem_node_released (p : Nat) (name : Option (List Byte)) :
    p ∈ node_released p name := by
  rw [mem_node_released]; omega

theorem node_released_nodup (p : Nat) (name : Option (List Byte)) :
    (node_released p name).Nodup := by
  cases name with
  | none => simp [node_released, name_field, Option.toList]
  | some s => simp [node_released, name_field, Option.toList]

theorem node_released_length (p : Nat) (name : Option (List Byte)) :
    (node_released p name).length = 1 + (name_block name).length := by
  cases name with
  | none => rfl
  | some s => rfl

theorem name_repr_frame (h h2 : Heap) (p : Nat) (name : Option (List Byte))
    (hx : ∀ x ∈ node_released p name, x ≠ p → h2[x]? = h[x]?) (hr : name_repr h p name) :
    name_repr h2 p name := by
  cases name with
  | none => trivial
  | some s =>
    have hm : p + 1 ∈ node_released p (some s) := by
      rw [mem_node_released]
      simp [name_block]
    rw [name_repr, hx _ hm (by omega)]
    exact hr

/-! ## Lemmas: heap frames -/

theorem files_repr_frame (h h2 : Heap) (l : List LFile)
    (hx : ∀ x ∈ files_released l, h2[x]? = h[x]?) (hr : files_repr h l) :
    files_repr h2 l := by
  induction l with
  | nil => trivial
  | cons f rest ih =>
    obtain ⟨h1, h3, h4⟩ := hr
    refine ⟨?_, ?_, ih (fun x hxm => hx x ?_) h4⟩
    · exact name_repr_frame h h2 _ _
        (fun x hxm _ => hx x (by rw [files_released]; exact List.mem_append_left _ hxm)) h1
    · rw [hx _ (by rw [files_released]
                   exact List.mem_append_left _ (self_mem_node_released _ _))]
      exact h3
    · rw [files_released]; exact List.mem_append_right _ hxm

mutual
theorem LDir.repr_frame (h h2 : Heap) :
    ∀ (t : LDir) (next : Option Nat), (∀ x ∈ t.released, h2[x]? = h[x]?) →
      t.repr h next → t.repr h2 next
  | .mk a name subs files, next, hx, hr => by
    rw [LDir.repr] at hr ⊢
    rw [LDir.released] at hx
    obtain ⟨h1, h3, h4, h5⟩ := hr
    refine ⟨?_, ?_, dirs_repr_frame h h2 subs (fun x hxm => hx x ?_) h4,
      files_repr_frame h h2 files (fun x hxm => hx x ?_) h5⟩
    · exact name_repr_frame h h2 _ _
        (fun x hxm _ => hx x (List.mem_append_right _ (List.mem_append_right _ hxm))) h1
    · rw [hx _ (List.mem_append_right _ (List.mem_append_right _
        (self_mem_node_released _ _)))]
      exact h3
    · exact List.mem_append_left _ hxm
    · exact List.mem_append_right _ (List.mem_append_left _ hxm)
theorem dirs_repr_frame (h h2 : Heap) :
    ∀ (l : List LDir), (∀ x ∈ dirs_released l, h2[x]? = h[x]?) →
      dirs_repr h l → dirs_repr h2 l
  | [], _, _ => by rw [dirs_repr]; trivial
  | t :: rest, hx, hr => by
    rw [dirs_repr] at hr ⊢
    refine ⟨LDir.repr_frame h h2 t _ (fun x hxm => hx x ?_) hr.1,
      dirs_repr_frame h h2 rest (fun x hxm => hx x ?_) hr.2⟩
    · simp [dirs_released, hxm]
    · simp [dirs_released, hxm]
end

/-! ## Lemmas: releasing blocks -/

theorem release_length (l : List Nat) : ∀ h : Heap, (release h l).length = h.length := by
  induction l with
  | nil => intro h; rfl
  | cons a rest ih => intro h; rw [release, ih, List.length_set]

theorem release_get_not_mem (l : List Nat) (x : Nat) (hx : x ∉ l) :
    ∀ h : Heap, (release h l)[x]? = h[x]? := by
  induction l with
  | nil => intro h; rfl
  | cons a rest ih =>
    intro h
    have h1 : x ≠ a := fun e => hx (e ▸ List.mem_cons_self _ _)
    have h2 : x ∉ rest := fun e => hx (List.mem_cons_of_mem _ e)
    rw [release, ih h2, List.getElem?_set_ne (Ne.symm h1)]

theorem release_get_mem (l : List Nat) (x : Nat) (hx : x ∈ l) :
    ∀ h : Heap, x < h.length → (release h l)[x]? = some .freed := by
  induction l with
  | nil => cases hx
  | cons a rest ih =>
    intro h hlt
    rw [release]
    by_cases hr : x ∈ rest
    · exact ih hr _ (by rw [List.length_set]; exact hlt)
    · have hxa : x = a := by
        rcases List.mem_cons.mp hx with e | e
        · exact e
        · exact absurd e hr
      rw [release_get_not_mem rest x hr, hxa, List.getElem?_set_self (by rw [← hxa]; exact hlt)]

theorem release_append (a b : List Nat) : ∀ h : Heap,
    release h (a ++ b) = release (release h a) b := by
  induction a with
  | nil => intro h; rfl
  | cons x rest ih => intro h; rw [List.cons_append, release, release, ih]

theorem heap_free_chars (h : Heap) (a : Nat) (s : List Byte)
    (hc : h[a]? = some (.chars s)) : heap_free h (some a) = .ok (h.set a .freed) := by
  rw [heap_free, hc]

theorem heap_free_file (h : Heap) (a : Nat) (n : Option Nat) (sz off : Nat) (x : Option Nat)
    (hc : h[a]? = some (.file n sz off x)) : heap_free h (some a) = .ok (h.set a .freed) := by
  rw [heap_free, hc]

theorem heap_free_dir (h : Heap) (a : Nat) (n s f x : Option Nat)
    (hc : h[a]? = some (.dir n s f x)) : heap_free h (some a) = .ok (h.set a .freed) := by
  rw [heap_free, hc]

/-- Releasing the name of a file node, then the node. -/
theorem free_node_file (h : Heap) (p : Nat) (name : Option (List Byte)) (sz off : Nat)
    (x : Option Nat) (hn : name_repr h p name)
    (hc : h[p]? = some (.file (name_field p name) sz off x)) :
    ∃ h1, heap_free h (name_field p name) = .ok h1 ∧
      heap_free h1 (some p) = .ok (release h (node_released p name)) := by
  cases name with
  | none => exact ⟨h, rfl, heap_free_file h p _ sz off x hc⟩
  | some s =>
    refine ⟨h.set (p + 1) .freed, heap_free_chars h (p + 1) s hn, ?_⟩
    exact heap_free_file _ p (name_field p (some s)) sz off x
      (by rw [List.getElem?_set_ne (by omega)]; exact hc)

/-- Releasing the name of a directory node, then the node. -/
theorem free_node_dir (h : Heap) (p : Nat) (name : Option (List Byte))
    (s f x : Option Nat) (hn : name_repr h p name)
    (hc : h[p]? = some (.dir (name_field p name) s f x)) :
    ∃ h1, heap_free h (name_field p name) = .ok h1 ∧
      heap_free h1 (some p) = .ok (release h (node_released p name)) := by
  cases name with
  | none => exact ⟨h, rfl, heap_free_dir h p _ s f x hc⟩
  | some nm =>
    refine ⟨h.set (p + 1) .freed, heap_free_chars h (p + 1) nm hn, ?_⟩
    exact heap_free_dir _ p (name_field p (some nm)) s f x
      (by rw [List.getElem?_set_ne (by omega)]; exact hc)

/-- The file loop of the teardown releases the blocks of a chain of files. -/
theorem free_files_spec (l : List LFile) :
    ∀ (k : Nat) (h : Heap), files_repr h l → (files_released l).Nodup → l.length ≤ k →
      free_files k (files_head l) h = .ok (release h (files_released l), files_released l) := by
  induction l with
  | nil =>
    intro k h _ _ _
    cases k <;> rfl
  | cons f rest ih =>
    intro k h hr hnd hk
    cases k with
    | zero => simp at hk
    | succ k =>
      obtain ⟨hname, hnode, hrest⟩ := hr
      rw [files_released] at hnd
      obtain ⟨_, hnd2, hdisj⟩ := List.nodup_append.mp hnd
      have hframe : ∀ x ∈ files_released rest,
          (release h (node_released f.addr f.name))[x]? = h[x]? :=
        fun x hx => release_get_not_mem _ x (fun hm => hdisj hm hx) h
      obtain ⟨h1, hf1, hf2⟩ := free_node_file h f.addr f.name f.size f.offset
        (files_head rest) hname hnode
      rw [files_head, free_files, hnode]
      dsimp only
      rw [hf1]
      dsimp only
      rw [hf2]
      dsimp only
      rw [ih k _ (files_repr_frame h _ rest hframe hrest) hnd2 (by simpa using hk)]
      dsimp only
      rw [files_released, release_append]
      rfl

theorem LDir.released_mk (a : Nat) (name : Option (List Byte)) (subs : List LDir)
    (files : List LFile) :
    (LDir.mk a name subs files).released =
      dirs_released subs ++ (files_released files ++ node_released a name) := by
  rw [LDir.released]

theorem LDir.released_length_pos (t : LDir) : 1 ≤ t.released.length := by
  cases t with
  | mk a name subs files =>
    rw [LDir.released_mk, List.length_append, List.length_append, node_released_length]
    omega

theorem dirs_released_length_mem (l : List LDir) :
    ∀ t ∈ l, t.released.length ≤ (dirs_released l).length := by
  induction l with
  | nil => intro t ht; cases ht
  | cons s rest ih =>
    intro t ht
    rw [dirs_released, List.length_append]
    rcases List.mem_cons.mp ht with e | e
    · rw [e]; omega
    · have := ih t e; omega

theorem dirs_length_le_released (l : List LDir) : l.length ≤ (dirs_released l).length := by
  induction l with
  | nil => exact Nat.le_refl _
  | cons s rest ih =>
    rw [dirs_released, List.length_append, List.length_cons]
    have := s.released_length_pos
    omega

theorem files_length_le_released (l : List LFile) : l.length ≤ (files_released l).length := by
  induction l with
  | nil => exact Nat.le_refl _
  | cons s rest ih =>
    rw [files_released, List.length_append, List.length_cons, node_released_length]
    omega

/-- The directory loop of the teardown releases the blocks of a chain of trees,
when the recursive call releases the blocks of each tree of the chain. -/
theorem free_subdirs_spec (recur : Option Nat → Heap → Res (Heap × List Nat)) (k : Nat)
    (hrec : ∀ (t : LDir) (h : Heap) (next : Option Nat), t.released.length ≤ k →
      t.repr h next → t.released.Nodup →
      recur (some t.addr) h = .ok (release h t.released, t.released))
    (l : List LDir) :
    ∀ (kk : Nat) (h : Heap), dirs_repr h l → (dirs_released l).Nodup → l.length ≤ kk →
      (∀ t ∈ l, t.released.length ≤ k) →
      free_subdirs recur kk (dirs_head l) h =
        .ok (release h (dirs_released l), dirs_released l) := by
  induction l with
  | nil =>
    intro kk h _ _ _ _
    cases kk <;> rfl
  | cons t rest ih =>
    intro kk h hr hnd hk hsz
    cases kk with
    | zero => simp at hk
    | succ kk =>
      rw [dirs_repr] at hr
      rw [dirs_released] at hnd
      obtain ⟨hnd1, hnd2, hdisj⟩ := List.nodup_append.mp hnd
      have hcell : ∃ n s f, h[t.addr]? = some (.dir n s f (dirs_head rest)) := by
        cases t with
        | mk a name subs files =>
          have := hr.1
          rw [LDir.repr] at this
          exact ⟨_, _, _, this.2.1⟩
      obtain ⟨n, s, f, hc⟩ := hcell
      have hframe : ∀ x ∈ dirs_released rest, (release h t.released)[x]? = h[x]? :=
        fun x hx => release_get_not_mem _ x (fun hm => hdisj hm hx) h
      rw [dirs_head, free_subdirs, hc]
      dsimp only
      rw [hrec t h _ (hsz t (List.mem_cons_self _ _)) hr.1 hnd1]
      dsimp only
      rw [ih kk _ (dirs_repr_frame h _ rest hframe hr.2) hnd2 (by simpa using hk)
        (fun s hs => hsz s (List.mem_cons_of_mem _ hs))]
      dsimp only
      rw [dirs_released, release_append]

/-- The teardown releases the blocks of a located tree held by the heap, in
post-order, and nothing else. -/
theorem free_tree_spec (fuel : Nat) :
    ∀ (t : LDir) (h : Heap) (next : Option Nat), t.released.length ≤ fuel →
      t.repr h next → t.released.Nodup →
      rpf7_free_directory_tree fuel (some t.addr) h =
        .ok (release h t.released, t.released) := by
  induction fuel with
  | zero =>
    intro t h next hsz _ _
    have := t.released_length_pos
    omega
  | succ k ih =>
    intro t h next hsz hr hnd
    cases t with
    | mk a name subs files =>
      rw [LDir.repr] at hr
      obtain ⟨hname, hnode, hsubs, hfiles⟩ := hr
      rw [LDir.released_mk] at hnd hsz ⊢
      rw [List.length_append, List.length_append, node_released_length] at hsz
      obtain ⟨hnd1, hnd23, hdisj1⟩ := List.nodup_append.mp hnd
      obtain ⟨hnd2, hnd3, hdisj2⟩ := List.nodup_append.mp hnd23
      have hfr1 : ∀ x ∈ node_released a name, (release h (dirs_released subs))[x]? = h[x]? :=
        fun x hx => release_get_not_mem _ x
          (fun hm => hdisj1 hm (List.mem_append_right _ hx)) h
      have hfr2 : ∀ x ∈ node_released a name,
          (release (release h (dirs_released subs)) (files_released files))[x]? = h[x]? := by
        intro x hx
        rw [release_get_not_mem _ x (fun hm => hdisj2 hm hx)]
        exact hfr1 x hx
      have hs1 := free_subdirs_spec (rpf7_free_directory_tree k) k ih subs k h hsubs hnd1
        (by have := dirs_length_le_released subs; omega)
        (fun t ht => by have := dirs_released_length_mem subs t ht; omega)
      have hnode1 : (release h (dirs_released subs))[a]? =
          some (.dir (name_field a name) (dirs_head subs) (files_head files) next) := by
        rw [hfr1 a (self_mem_node_released a name)]; exact hnode
      have hfiles1 : files_repr (release h (dirs_released subs)) files :=
        files_repr_frame h _ files
          (fun x hx => release_get_not_mem _ x
            (fun hm => hdisj1 hm (List.mem_append_left _ hx)) h) hfiles
      have hs2 := free_files_spec files k _ hfiles1 hnd2
        (by have := files_length_le_released files; omega)
      have hnode2 : (release (release h (dirs_released subs)) (files_released files))[a]? =
          some (.dir (name_field a name) (dirs_head subs) (files_head files) next) := by
        rw [hfr2 a (self_mem_node_released a name)]; exact hnode
      have hname2 : name_repr (release (release h (dirs_released subs))
          (files_released files)) a name :=
        name_repr_frame h _ a name (fun x hx _ => hfr2 x hx) hname
      obtain ⟨h3, hf1, hf2⟩ := free_node_dir _ a name (dirs_head subs) (files_head files)
        next hname2 hnode2
      rw [LDir.addr, rpf7_free_directory_tree, load_dir_subdirs, hnode]
      dsimp only
      rw [hs1]
      dsimp only
      rw [load_dir_files, hnode1]
      dsimp only
      rw [hs2]
      dsimp only
      rw [load_dir_name, hnode2]
      dsimp only
      rw [hf1]
      dsimp only
      rw [hf2]
      dsimp only
      rw [release_append, release_append, node_released, List.append_assoc,
        List.append_assoc]

/-! ## Lemmas: chains and their last node -/

theorem LDir.addr_mem_released (t : LDir) : t.addr ∈ t.released := by
  cases t with
  | mk a name subs files =>
    rw [LDir.released_mk, LDir.addr]
    exact List.mem_append_right _ (List.mem_append_right _ (self_mem_node_released a name))

theorem dirs_last_snoc (l : List LDir) (t : LDir) : dirs_last (l ++ [t]) = some t.addr := by
  induction l with
  | nil => rfl
  | cons s rest ih =>
    cases rest with
    | nil => rfl
    | cons s2 rest2 =>
      rw [List.cons_append, List.cons_append, dirs_last]
      exact ih

theorem files_last_snoc (l : List LFile) (f : LFile) :
    files_last (l ++ [f]) = some f.addr := by
  induction l with
  | nil => rfl
  | cons s rest ih =>
    cases rest with
    | nil => rfl
    | cons s2 rest2 =>
      rw [List.cons_append, List.cons_append, files_last]
      exact ih

theorem dirs_head_snoc (s : LDir) (rest : List LDir) (t : LDir) :
    dirs_head ((s :: rest) ++ [t]) = dirs_head (s :: rest) := rfl

theorem files_head_snoc (s : LFile) (rest : List LFile) (f : LFile) :
    files_head ((s :: rest) ++ [f]) = files_head (s :: rest) := rfl

theorem dirs_released_snoc (l : List LDir) (t : LDir) :
    dirs_released (l ++ [t]) = dirs_released l ++ t.released := by
  induction l with
  | nil => rw [List.nil_append, dirs_released, dirs_released, dirs_released, List.append_nil,
      List.nil_append]
  | cons s rest ih => rw [List.cons_append, dirs_released, ih, dirs_released, List.append_assoc]

theorem files_released_snoc (l : List LFile) (f : LFile) :
    files_released (l ++ [f]) = files_released l ++ node_released f.addr f.name := by
  induction l with
  | nil => rw [List.nil_append, files_released, files_released, files_released,
      List.append_nil, List.nil_append]
  | cons s rest ih =>
    rw [List.cons_append, files_released, ih, files_released, List.append_assoc]

theorem dirs_erase_snoc (l : List LDir) (t : LDir) :
    dirs_erase (l ++ [t]) = dirs_erase l ++ [t.erase] := by
  induction l with
  | nil => rw [List.nil_append, dirs_erase, dirs_erase, dirs_erase, List.nil_append]
  | cons s rest ih => rw [List.cons_append, dirs_erase, ih, dirs_erase, List.cons_append]

theorem dirs_last_mem (l : List LDir) :
    ∀ a, dirs_last l = some a → a ∈ dirs_released l := by
  induction l with
  | nil => intro a h; cases h
  | cons s rest ih =>
    intro a h
    rw [dirs_released]
    cases rest with
    | nil =>
      rw [dirs_last] at h
      cases h
      exact List.mem_append_left _ s.addr_mem_released
    | cons s2 rest2 =>
      rw [dirs_last] at h
      exact List.mem_append_right _ (ih a h)

theorem files_last_mem (l : List LFile) :
    ∀ a, files_last l = some a → a ∈ files_released l := by
  induction l with
  | nil => intro a h; cases h
  | cons s rest ih =>
    intro a h
    rw [files_released]
    cases rest with
    | nil =>
      rw [files_last] at h
      cases h
      exact List.mem_append_left _ (self_mem_node_released _ _)
    | cons s2 rest2 =>
      rw [files_last] at h
      exact List.mem_append_right _ (ih a h)

/-- Storing the address of a new tree in the `next` field of the last node of
a chain, in a heap that holds the new tree, gives a heap that holds the
lengthened chain. -/
theorem dirs_repr_snoc (h h2 : Heap) (t : LDir) (ht : t.repr h2 none) (l : List LDir) :
    ∀ (a : Nat), dirs_last l = some a → dirs_repr h l → (dirs_released l).Nodup →
      (∀ x ∈ dirs_released l, x ≠ a → h2[x]? = h[x]?) →
      (∀ n s f, h[a]? = some (.dir n s f none) → h2[a]? = some (.dir n s f (some t.addr))) →
      dirs_repr h2 (l ++ [t]) := by
  induction l with
  | nil => intro a h; cases h
  | cons s rest ih =>
    intro a hlast hr hnd hsame hnew
    rw [dirs_repr] at hr
    rw [dirs_released] at hnd hsame
    obtain ⟨hnd1, hnd2, hdisj⟩ := List.nodup_append.mp hnd
    cases rest with
    | nil =>
      rw [dirs_last] at hlast
      cases hlast
      rw [List.cons_append, List.nil_append, dirs_repr, dirs_repr, dirs_head, dirs_repr,
        dirs_head]
      refine ⟨?_, ht, trivial⟩
      have hr1 := hr.1
      cases s with
      | mk a name subs files =>
        rw [dirs_head, LDir.repr] at hr1
        rw [LDir.released_mk] at hnd1 hsame
        have haddr : (LDir.mk a name subs files).addr = a := rfl
        rw [haddr] at hnew hsame
        obtain ⟨k1, k23, kd1⟩ := List.nodup_append.mp hnd1
        obtain ⟨k2, k3, kd2⟩ := List.nodup_append.mp k23
        have hself := self_mem_node_released a name
        rw [LDir.repr]
        refine ⟨?_, hnew _ _ _ hr1.2.1, ?_, ?_⟩
        · exact name_repr_frame h h2 a name
            (fun x hx hxa => hsame x (List.mem_append_left _
              (List.mem_append_right _ (List.mem_append_right _ hx))) hxa) hr1.1
        · exact dirs_repr_frame h h2 subs
            (fun x hx => hsame x (List.mem_append_left _ (List.mem_append_left _ hx))
              (fun e => kd1 hx (List.mem_append_right _ (e ▸ hself)))) hr1.2.2.1
        · exact files_repr_frame h h2 files
            (fun x hx => hsame x (List.mem_append_left _
              (List.mem_append_right _ (List.mem_append_left _ hx)))
              (fun e => kd2 hx (e ▸ hself))) hr1.2.2.2
    | cons s2 rest2 =>
      rw [dirs_last] at hlast
      have ha : a ∈ dirs_released (s2 :: rest2) := dirs_last_mem _ a hlast
      rw [List.cons_append, dirs_repr]
      refine ⟨?_, ih a hlast hr.2 hnd2
        (fun x hx hxa => hsame x (List.mem_append_right _ hx) hxa) hnew⟩
      exact LDir.repr_frame h h2 s _
        (fun x hx => hsame x (List.mem_append_left _ hx) (fun e => hdisj hx (e ▸ ha))) hr.1

/-- The same for a chain of files and a new file. -/
theorem files_repr_snoc (h h2 : Heap) (f : LFile)
    (hf1 : name_repr h2 f.addr f.name)
    (hf2 : h2[f.addr]? = some (.file (name_field f.addr f.name) f.size f.offset none))
    (l : List LFile) :
    ∀ (a : Nat), files_last l = some a → files_repr h l → (files_released l).Nodup →
      (∀ x ∈ files_released l, x ≠ a → h2[x]? = h[x]?) →
      (∀ n sz off, h[a]? = some (.file n sz off none) →
        h2[a]? = some (.file n sz off (some f.addr))) →
      files_repr h2 (l ++ [f]) := by
  induction l with
  | nil => intro a h; cases h
  | cons s rest ih =>
    intro a hlast hr hnd hsame hnew
    obtain ⟨hr1, hr2, hr3⟩ := hr
    rw [files_released] at hnd hsame
    obtain ⟨hn1, hn3, hdisj⟩ := List.nodup_append.mp hnd
    cases rest with
    | nil =>
      rw [files_last] at hlast
      cases hlast
      refine ⟨?_, ?_, hf1, hf2, trivial⟩
      · exact name_repr_frame h h2 _ _
          (fun x hx hxa => hsame x (List.mem_append_left _ hx) hxa) hr1
      · exact hnew _ _ _ hr2
    | cons s2 rest2 =>
      rw [files_last] at hlast
      have ha : a ∈ files_released (s2 :: rest2) := files_last_mem _ a hlast
      refine ⟨?_, ?_, ih a hlast hr3 hn3
        (fun x hx hxa => hsame x (List.mem_append_right _ hx) hxa) hnew⟩
      · exact name_repr_frame h h2 _ _
          (fun x hx _ => hsame x (List.mem_append_left _ hx)
            (fun e => hdisj hx (e ▸ ha))) hr1
      · rw [hsame _ (List.mem_append_left _ (self_mem_node_released _ _))
          (fun e => hdisj (self_mem_node_released _ _) (e ▸ ha))]
        exact hr2

/-! ## Lemmas: the heap inside the child loop -/

theorem dirs_last_cons_ne_none (rest : List LDir) : ∀ s, dirs_last (s :: rest) ≠ none := by
  induction rest with
  | nil => intro s h; rw [dirs_last] at h; cases h
  | cons s2 rest2 ih => intro s h; rw [dirs_last] at h; exact ih s2 h

theorem files_last_cons_ne_none (rest : List LFile) :
    ∀ s, files_last (s :: rest) ≠ none := by
  induction rest with
  | nil => intro s h; rw [files_last] at h; cases h
  | cons s2 rest2 ih => intro s h; rw [files_last] at h; exact ih s2 h

theorem dirs_last_cell (h : Heap) (l : List LDir) :
    ∀ a, dirs_last l = some a → dirs_repr h l → ∃ n s f, h[a]? = some (.dir n s f none) := by
  induction l with
  | nil => intro a hl; cases hl
  | cons t rest ih =>
    intro a hl hr
    rw [dirs_repr] at hr
    cases rest with
    | nil =>
      rw [dirs_last] at hl
      cases hl
      cases t with
      | mk a name subs files =>
        have := hr.1
        rw [dirs_head, LDir.repr] at this
        exact ⟨_, _, _, this.2.1⟩
    | cons t2 rest2 =>
      rw [dirs_last] at hl
      exact ih a hl hr.2

theorem files_last_cell (h : Heap) (l : List LFile) :
    ∀ a, files_last l = some a → files_repr h l →
      ∃ n sz off, h[a]? = some (.file n sz off none) := by
  induction l with
  | nil => intro a hl; cases hl
  | cons t rest ih =>
    intro a hl hr
    obtain ⟨_, hr2, hr3⟩ := hr
    cases rest with
    | nil =>
      rw [files_last] at hl
      cases hl
      exact ⟨_, _, _, hr2⟩
    | cons t2 rest2 =>
      rw [files_last] at hl
      exact ih a hl hr3

/-- Linking a new subdirectory keeps the loop invariant. -/
theorem build_inv_add_dir (hb h h1 h2 : Heap) (name : Option (List Byte))
    (subs : List LDir)
    (files : List LFile) (t : LDir) (inv : BuildInv hb h name subs files)
    (hext : heap_extends h h1) (ht : t.repr h1 none) (hnd : t.released.Nodup)
    (hmem : ∀ x, x ∈ t.released ↔ h.length ≤ x ∧ x < h1.length)
    (hlink : link_subdir h1 hb.length (dirs_last subs) t.addr = .ok h2) :
    BuildInv hb h2 name (subs ++ [t]) files := by
  have hlen1 : h.length ≤ h1.length := hext.1
  have two := inv.two
  have hk1 := name_block_length_le name
  -- the block that the link writes, and the heap after the link
  have key : ∃ (l : Nat) (c : Cell), h2 = h1.set l c ∧
      (l = hb.length ∨ hb.length + 1 + (name_block name).length ≤ l) ∧ l < h.length ∧
      (l = hb.length → subs = [] ∧
        c = .dir (name_field hb.length name) (some t.addr) (files_head files) none) ∧
      (l ≠ hb.length → dirs_last subs = some l ∧
        ∃ n s f, h[l]? = some (.dir n s f none) ∧ c = .dir n s f (some t.addr)) := by
    cases hl : dirs_last subs with
    | none =>
      have hsubs : subs = [] := by
        cases subs with
        | nil => rfl
        | cons s rest => exact absurd hl (dirs_last_cons_ne_none rest s)
      have hcell : h1[hb.length]? =
          some (.dir (name_field hb.length name) (dirs_head subs) (files_head files)
            none) := by
        rw [hext.2 _ (by omega)]; exact inv.node_cell
      rw [hl, link_subdir, store_dir_subdirs, hcell] at hlink
      dsimp only at hlink
      refine ⟨hb.length, _, (Res.ok.inj hlink).symm, Or.inl rfl, by omega,
        fun _ => ⟨hsubs, rfl⟩, fun hne => absurd rfl hne⟩
    | some l =>
      obtain ⟨n, s, f, hc⟩ := dirs_last_cell h subs l hl inv.subs_repr
      have hlm : hb.length + 1 + (name_block name).length ≤ l ∧ l < h.length :=
        (inv.mem l).mpr (Or.inl (dirs_last_mem subs l hl))
      have hcell : h1[l]? = some (.dir n s f none) := by
        rw [hext.2 _ hlm.2]; exact hc
      rw [hl, link_subdir, store_dir_next, hcell] at hlink
      dsimp only at hlink
      refine ⟨l, _, (Res.ok.inj hlink).symm, Or.inr hlm.1, hlm.2,
        fun he => by omega, fun _ => ⟨rfl, n, s, f, hc, rfl⟩⟩
  obtain ⟨l, c, hh2, hl1, hl2, hcase0, hcase1⟩ := key
  have hget : ∀ x, x ≠ l → h2[x]? = h1[x]? := by
    intro x hx
    rw [hh2, List.getElem?_set_ne (Ne.symm hx)]
  have hgetl : h2[l]? = some c := by
    rw [hh2, List.getElem?_set_self (by omega)]
  have hlen2 : h2.length = h1.length := by rw [hh2, List.length_set]
  have hlt : l ∉ t.released := fun hm => by have := (hmem l).mp hm; omega
  have ht2 : t.repr h2 none :=
    LDir.repr_frame h1 h2 t none (fun x hx => hget x (fun e => hlt (e ▸ hx))) ht
  have hsubs_lt : ∀ x ∈ dirs_released subs,
      hb.length + 1 + (name_block name).length ≤ x ∧ x < h.length :=
    fun x hx => (inv.mem x).mpr (Or.inl hx)
  have hfiles_lt : ∀ x ∈ files_released files,
      hb.length + 1 + (name_block name).length ≤ x ∧ x < h.length :=
    fun x hx => (inv.mem x).mpr (Or.inr hx)
  have hfiles2 : files_repr h2 files := by
    apply files_repr_frame h h2 files _ inv.files_repr
    intro x hx
    have hxl : x ≠ l := by
      intro e
      by_cases h0 : l = hb.length
      · have := hfiles_lt x hx; omega
      · exact inv.disjoint l (dirs_last_mem subs l (hcase1 h0).1) (e ▸ hx)
    rw [hget x hxl, hext.2 x (hfiles_lt x hx).2]
  have hsubs2 : dirs_repr h2 (subs ++ [t]) := by
    by_cases h0 : l = hb.length
    · rw [(hcase0 h0).1, List.nil_append, dirs_repr, dirs_head, dirs_repr]
      exact ⟨ht2, trivial⟩
    · obtain ⟨hlast, n, s, f, hc, hceq⟩ := hcase1 h0
      apply dirs_repr_snoc h h2 t ht2 subs l hlast inv.subs_repr inv.nodup_subs
      · intro x hx hxl
        rw [hget x hxl, hext.2 x (hsubs_lt x hx).2]
      · intro n' s' f' hc'
        rw [hc] at hc'
        cases hc'
        rw [hgetl, hceq]
  have hhead : dirs_head (subs ++ [t]) =
      (if l = hb.length then some t.addr else dirs_head subs) := by
    by_cases h0 : l = hb.length
    · rw [if_pos h0, (hcase0 h0).1]; rfl
    · rw [if_neg h0]
      cases subs with
      | nil =>
        have := (hcase1 h0).1
        rw [dirs_last] at this
        cases this
      | cons s rest => rfl
  refine ⟨?_, by omega, ?_, ?_, hsubs2, hfiles2, ?_, inv.nodup_files, ?_, ?_⟩
  · intro x hx
    rw [hget x (by omega), hext.2 x (by omega)]
    exact inv.old x hx
  · apply name_repr_frame h h2 hb.length name _ inv.name_cell
    intro x hx hxb
    rw [mem_node_released] at hx
    rw [hget x (by omega), hext.2 x (by omega)]
  · by_cases h0 : l = hb.length
    · rw [hhead, if_pos h0, ← h0, hgetl, (hcase0 h0).2, h0]
    · rw [hhead, if_neg h0, hget _ (Ne.symm h0), hext.2 _ (by omega)]
      exact inv.node_cell
  · rw [dirs_released_snoc]
    refine List.nodup_append.mpr ⟨inv.nodup_subs, hnd, ?_⟩
    intro x hx1 hx2
    have := hsubs_lt x hx1
    have := (hmem x).mp hx2
    omega
  · intro x
    rw [dirs_released_snoc, List.mem_append, hlen2]
    constructor
    · intro hx
      by_cases hxl : x < h.length
      · rcases (inv.mem x).mp ⟨hx.1, hxl⟩ with h3 | h3
        · exact Or.inl (Or.inl h3)
        · exact Or.inr h3
      · exact Or.inl (Or.inr ((hmem x).mpr ⟨by omega, hx.2⟩))
    · rintro ((h3 | h3) | h3)
      · have := hsubs_lt x h3; omega
      · have := (hmem x).mp h3; omega
      · have := hfiles_lt x h3; omega
  · intro x hx
    rw [dirs_released_snoc, List.mem_append] at hx
    rcases hx with h3 | h3
    · exact inv.disjoint x h3
    · intro h4
      have := (hmem x).mp h3
      have := hfiles_lt x h4
      omega

/-- Linking a new file keeps the loop invariant. -/
theorem build_inv_add_file (hb h h2 : Heap) (name : Option (List Byte)) (subs : List LDir)
    (files : List LFile) (nm : Option (List Byte)) (sz off : Nat)
    (inv : BuildInv hb h name subs files)
    (hlink : link_file (h ++ (.file (name_field h.length nm) sz off none :: name_block nm))
      hb.length (files_last files) h.length = .ok h2) :
    BuildInv hb h2 name subs
      (files ++ [{ addr := h.length, name := nm, size := sz, offset := off }]) := by
  have two := inv.two
  have hk1 := name_block_length_le name
  have hk2 := name_block_length_le nm
  have hold : ∀ x, x < h.length →
      (h ++ (Cell.file (name_field h.length nm) sz off none :: name_block nm))[x]? = h[x]? :=
    fun x hx => List.getElem?_append_left hx
  have hnew1 : (h ++ (Cell.file (name_field h.length nm) sz off none :: name_block nm))[
      h.length]? = some (.file (name_field h.length nm) sz off none) := by
    rw [List.getElem?_append_right (Nat.le_refl _), Nat.sub_self, List.getElem?_cons_zero]
  have hnew2 : name_repr (h ++ (Cell.file (name_field h.length nm) sz off none ::
      name_block nm)) h.length nm := by
    cases nm with
    | none => trivial
    | some s =>
      rw [name_repr, List.getElem?_append_right (by omega), Nat.add_sub_cancel_left]
      rfl
  have hlen1 : (h ++ (Cell.file (name_field h.length nm) sz off none ::
      name_block nm)).length = h.length + 1 + (name_block nm).length := by
    rw [List.length_append, List.length_cons]; omega
  have key : ∃ (l : Nat) (c : Cell),
      h2 = (h ++ (Cell.file (name_field h.length nm) sz off none :: name_block nm)).set l c ∧
      (l = hb.length ∨ hb.length + 1 + (name_block name).length ≤ l) ∧ l < h.length ∧
      (l = hb.length → files = [] ∧
        c = .dir (name_field hb.length name) (dirs_head subs) (some h.length) none) ∧
      (l ≠ hb.length → files_last files = some l ∧
        ∃ n sz' off', h[l]? = some (.file n sz' off' none) ∧
          c = .file n sz' off' (some h.length)) := by
    cases hl : files_last files with
    | none =>
      have hfiles : files = [] := by
        cases files with
        | nil => rfl
        | cons s rest => exact absurd hl (files_last_cons_ne_none rest s)
      have hcell :
          (h ++ (Cell.file (name_field h.length nm) sz off none :: name_block nm))[
            hb.length]? =
          some (.dir (name_field hb.length name) (dirs_head subs) (files_head files)
            none) := by
        rw [hold _ (by omega)]; exact inv.node_cell
      rw [hl, link_file, store_dir_files, hcell] at hlink
      dsimp only at hlink
      refine ⟨hb.length, _, (Res.ok.inj hlink).symm, Or.inl rfl, by omega,
        fun _ => ⟨hfiles, rfl⟩, fun hne => absurd rfl hne⟩
    | some l =>
      obtain ⟨n, s, f, hc⟩ := files_last_cell h files l hl inv.files_repr
      have hlm : hb.length + 1 + (name_block name).length ≤ l ∧ l < h.length :=
        (inv.mem l).mpr (Or.inr (files_last_mem files l hl))
      have hcell :
          (h ++ (Cell.file (name_field h.length nm) sz off none :: name_block nm))[l]? =
            some (.file n s f none) := by
        rw [hold _ hlm.2]; exact hc
      rw [hl, link_file, store_file_next, hcell] at hlink
      dsimp only at hlink
      refine ⟨l, _, (Res.ok.inj hlink).symm, Or.inr hlm.1, hlm.2,
        fun he => by omega, fun _ => ⟨rfl, n, s, f, hc, rfl⟩⟩
  obtain ⟨l, c, hh2, hl1, hl2, hcase0, hcase1⟩ := key
  have hget : ∀ x, x ≠ l → h2[x]? =
      (h ++ (Cell.file (name_field h.length nm) sz off none :: name_block nm))[x]? := by
    intro x hx
    rw [hh2, List.getElem?_set_ne (Ne.symm hx)]
  have hgetl : h2[l]? = some c := by
    rw [hh2, List.getElem?_set_self (by omega)]
  have hlen2 : h2.length = h.length + 1 + (name_block nm).length := by
    rw [hh2, List.length_set, hlen1]
  have hsubs_lt : ∀ x ∈ dirs_released subs,
      hb.length + 1 + (name_block name).length ≤ x ∧ x < h.length :=
    fun x hx => (inv.mem x).mpr (Or.inl hx)
  have hfiles_lt : ∀ x ∈ files_released files,
      hb.length + 1 + (name_block name).length ≤ x ∧ x < h.length :=
    fun x hx => (inv.mem x).mpr (Or.inr hx)
  have hsubs2 : dirs_repr h2 subs := by
    apply dirs_repr_frame h h2 subs _ inv.subs_repr
    intro x hx
    have hxl : x ≠ l := by
      intro e
      by_cases h0 : l = hb.length
      · have := hsubs_lt x hx; omega
      · exact inv.disjoint x hx (e ▸ files_last_mem files l (hcase1 h0).1)
    rw [hget x hxl, hold x (hsubs_lt x hx).2]
  have hf1 : name_repr h2 h.length nm := by
    apply name_repr_frame _ h2 h.length nm _ hnew2
    intro x hx _
    rw [mem_node_released] at hx
    exact hget x (by omega)
  have hf2 : h2[h.length]? = some (.file (name_field h.length nm) sz off none) := by
    rw [hget _ (by omega)]; exact hnew1
  have hfiles2 : files_repr h2
      (files ++ [{ addr := h.length, name := nm, size := sz, offset := off }]) := by
    by_cases h0 : l = hb.length
    · rw [(hcase0 h0).1, List.nil_append]
      exact ⟨hf1, hf2, trivial⟩
    · obtain ⟨hlast, n, s, f, hc, hceq⟩ := hcase1 h0
      apply files_repr_snoc h h2 _ hf1 hf2 files l hlast inv.files_repr inv.nodup_files
      · intro x hx hxl
        rw [hget x hxl, hold x (hfiles_lt x hx).2]
      · intro n' s' f' hc'
        rw [hc] at hc'
        cases hc'
        rw [hgetl, hceq]
  have hhead : files_head
      (files ++ [{ addr := h.length, name := nm, size := sz, offset := off }]) =
      (if l = hb.length then some h.length else files_head files) := by
    by_cases h0 : l = hb.length
    · rw [if_pos h0, (hcase0 h0).1]; rfl
    · rw [if_neg h0]
      cases files with
      | nil =>
        have := (hcase1 h0).1
        rw [files_last] at this
        cases this
      | cons s rest => rfl
  refine ⟨?_, by omega, ?_, ?_, hsubs2, hfiles2, inv.nodup_subs, ?_, ?_, ?_⟩
  · intro x hx
    rw [hget x (by omega), hold x (by omega)]
    exact inv.old x hx
  · apply name_repr_frame h h2 hb.length name _ inv.name_cell
    intro x hx hxb
    rw [mem_node_released] at hx
    rw [hget x (by omega), hold x (by omega)]
  · by_cases h0 : l = hb.length
    · rw [hhead, if_pos h0, ← h0, hgetl, (hcase0 h0).2, h0]
    · rw [hhead, if_neg h0, hget _ (Ne.symm h0), hold _ (by omega)]
      exact inv.node_cell
  · rw [files_released_snoc]
    refine List.nodup_append.mpr ⟨inv.nodup_files, node_released_nodup _ _, ?_⟩
    intro x hx1 hx2
    have := hfiles_lt x hx1
    rw [mem_node_released] at hx2
    dsimp only at hx2
    omega
  · intro x
    rw [files_released_snoc, List.mem_append, hlen2, mem_node_released]
    dsimp only
    constructor
    · intro hx
      by_cases hxl : x < h.length
      · rcases (inv.mem x).mp ⟨hx.1, hxl⟩ with h3 | h3
        · exact Or.inl h3
        · exact Or.inr (Or.inl h3)
      · exact Or.inr (Or.inr (by omega))
    · rintro (h3 | h3 | h3)
      · have := hsubs_lt x h3; omega
      · have := hfiles_lt x h3; omega
      · omega
  · intro x hx
    rw [files_released_snoc, List.mem_append, mem_node_released]
    dsimp only
    rintro (h3 | h3)
    · exact inv.disjoint x hx h3
    · have := hsubs_lt x hx; omega

/-- The heap right after the node of a directory and its name are allocated. -/
theorem build_inv_init (h : Heap) (name : Option (List Byte)) :
    BuildInv h (h ++ (.dir (name_field h.length name) none none none :: name_block name))
      name [] [] := by
  have hlen0 : (h ++ (Cell.dir (name_field h.length name) none none none ::
      name_block name)).length = h.length + 1 + (name_block name).length := by
    rw [List.length_append, List.length_cons]; omega
  refine ⟨fun x hx => List.getElem?_append_left hx, ?_, ?_, ?_, ?_, trivial,
    ?_, ?_, ?_, ?_⟩
  · rw [hlen0]
  · cases name with
    | none => trivial
    | some s =>
      rw [name_repr, List.getElem?_append_right (by omega), Nat.add_sub_cancel_left]
      rfl
  · rw [List.getElem?_append_right (Nat.le_refl _), Nat.sub_self, List.getElem?_cons_zero]
    rfl
  · rw [dirs_repr]; trivial
  · rw [dirs_released]; exact List.nodup_nil
  · exact List.nodup_nil
  · intro x
    rw [hlen0, dirs_released]
    simp only [List.not_mem_nil, or_false, files_released, iff_false]
    omega
  · intro x hx
    rw [dirs_released] at hx
    cases hx

/-! ## Lemmas: the heap builder and the value-level builder -/

/-- The child loop over the heap keeps the loop invariant and computes the
chains the value-level loop computes, with the same allocations. -/
theorem build_children_heap_spec
    (rh : Alloc → Nat → Heap → Res ((Option Nat × Heap) × Alloc))
    (rp : Alloc → Nat → Res (Option rpf7_directory_node × Alloc))
    (entries names : List Byte) (hb : Heap) (name : Option (List Byte))
    (hrec : ∀ a i h p h1 a1, rh a i h = .ok ((p, h1), a1) → BuildPost h p h1 (rp a i) a1)
    (idxs : List Nat) :
    ∀ (a : Alloc) (h : Heap) (subs : List LDir) (files : List LFile) (h1 : Heap)
      (a1 : Alloc),
      BuildInv hb h name subs files →
      build_children_heap rh entries names hb.length idxs a (dirs_last subs)
        (files_last files) h = .ok (h1, a1) →
      ∃ subs2 files2, BuildInv hb h1 name subs2 files2 ∧
        build_children rp entries names idxs a (dirs_erase subs) (files.map LFile.erase) =
          .ok ((dirs_erase subs2, files2.map LFile.erase), a1) := by
  induction idxs with
  | nil =>
    intro a h subs files h1 a1 inv hrun
    rw [build_children_heap] at hrun
    cases hrun
    exact ⟨subs, files, inv, by rw [build_children]⟩
  | cons i rest ih =>
    intro a h subs files h1 a1 inv hrun
    by_cases hin : (i + 1) * 16 ≤ entries.length
    · rw [build_children_heap, entry_at_spec_record entries i hin] at hrun
      dsimp only at hrun
      cases hd : rpf7_is_directory (spec_record entries i) with
      | true =>
        rw [if_pos hd] at hrun
        cases hr : rh a i h with
        | fault f => rw [hr] at hrun; cases hrun
        | ok pr =>
          obtain ⟨⟨p, h'⟩, a'⟩ := pr
          rw [hr] at hrun
          have post := hrec a i h p h' a' hr
          cases p with
          | none =>
            dsimp only at hrun
            rcases post with ⟨_, hh, hv⟩ | ⟨t, hp, _⟩
            · rw [hh] at hrun
              obtain ⟨subs2, files2, inv2, hpure⟩ := ih a' h subs files h1 a1 inv hrun
              exact ⟨subs2, files2, inv2, by
                rw [build_children_dir_none _ _ _ _ _ _ _ _ _ hin hd hv]; exact hpure⟩
            · cases hp
          | some q =>
            dsimp only at hrun
            rcases post with ⟨hp, _, _⟩ | ⟨t, hp, hext, ht, hnd, hmem, hv⟩
            · cases hp
            · cases hp
              cases hl : link_subdir h' hb.length (dirs_last subs) t.addr with
              | fault f => rw [hl] at hrun; cases hrun
              | ok h2 =>
                rw [hl] at hrun
                dsimp only at hrun
                have inv2 := build_inv_add_dir hb h h' h2 name subs files t inv hext ht hnd
                  hmem hl
                rw [← dirs_last_snoc subs t] at hrun
                obtain ⟨subs2, files2, inv3, hpure⟩ :=
                  ih a' h2 (subs ++ [t]) files h1 a1 inv2 hrun
                exact ⟨subs2, files2, inv3, by
                  rw [build_children_dir_some _ _ _ _ _ _ _ _ _ hin hd _ hv,
                    ← dirs_erase_snoc]
                  exact hpure⟩
      | false =>
        rw [if_neg (by rw [hd]; exact Bool.noConfusion)] at hrun
        cases hq : alloc_request a with
        | mk b a' =>
          rw [hq] at hrun
          cases b with
          | false =>
            dsimp only at hrun
            obtain ⟨subs2, files2, inv2, hpure⟩ := ih a' h subs files h1 a1 inv hrun
            exact ⟨subs2, files2, inv2, by
              rw [build_children_file_skip _ _ _ _ _ _ _ _ _ hin hd hq]; exact hpure⟩
          | true =>
            dsimp only at hrun
            cases hs : strdup a' (names.drop (entry_name_offset (spec_record entries i))) with
            | fault f => rw [hs] at hrun; cases hrun
            | ok pr =>
              obtain ⟨nm, a2⟩ := pr
              rw [hs] at hrun
              dsimp only at hrun
              cases hl : link_file
                  (h ++ (.file (name_field h.length nm)
                          (entry_file_size (spec_record entries i))
                          (read_u24_le (entry_offset (spec_record entries i))) none ::
                        name_block nm))
                  hb.length (files_last files) h.length with
              | fault f => rw [hl] at hrun; cases hrun
              | ok h2 =>
                rw [hl] at hrun
                dsimp only at hrun
                have inv2 := build_inv_add_file hb h h2 name subs files nm _ _ inv hl
                have hlast := files_last_snoc files
                  { addr := h.length, name := nm,
                    size := entry_file_size (spec_record entries i),
                    offset := read_u24_le (entry_offset (spec_record entries i)) }
                rw [← hlast] at hrun
                obtain ⟨subs2, files2, inv3, hpure⟩ := ih a2 h2 subs _ h1 a1 inv2 hrun
                exact ⟨subs2, files2, inv3, by
                  rw [build_children_file_ok _ _ _ _ _ _ _ _ _ _ hin hd hq nm hs]
                  rw [List.map_append] at hpure
                  exact hpure⟩
    · rw [build_children_heap, entry_at_of_not_le entries i hin] at hrun
      cases hrun

/-- A returned call of the heap builder either returned `NULL` and left the
heap alone, or appended the blocks of one located tree, which stands for the
tree the value-level builder returns from the same allocator. -/
theorem build_heap_spec (entries names : List Byte) (fuel : Nat) :
    ∀ (a : Alloc) (i : Nat) (h : Heap) (p : Option Nat) (h1 : Heap) (a1 : Alloc),
      rpf7_build_directory_tree_heap fuel entries names a i h = .ok ((p, h1), a1) →
      BuildPost h p h1 (rpf7_build_directory_tree fuel entries names a i) a1 := by
  induction fuel with
  | zero =>
    intro a i h p h1 a1 hrun
    rw [rpf7_build_directory_tree_heap] at hrun
    cases hrun
  | succ fuel ih =>
    intro a i h p h1 a1 hrun
    by_cases hin : (i + 1) * 16 ≤ entries.length
    · rw [rpf7_build_directory_tree_heap, entry_at_spec_record entries i hin] at hrun
      dsimp only at hrun
      cases hd : rpf7_is_directory (spec_record entries i) with
      | false =>
        rw [if_pos hd] at hrun
        cases hrun
        exact Or.inl ⟨rfl, rfl, build_tree_not_dir fuel entries names a i hin hd⟩
      | true =>
        rw [if_neg (by rw [hd]; exact Bool.noConfusion)] at hrun
        cases hq : alloc_request a with
        | mk b a' =>
          rw [hq] at hrun
          cases b with
          | false =>
            dsimp only at hrun
            cases hrun
            exact Or.inl ⟨rfl, rfl, build_tree_alloc_fail fuel entries names a _ i hin hd hq⟩
          | true =>
            dsimp only at hrun
            cases hs : strdup a' (names.drop (entry_name_offset (spec_record entries i))) with
            | fault f => rw [hs] at hrun; cases hrun
            | ok pr =>
              obtain ⟨name, a2⟩ := pr
              rw [hs] at hrun
              dsimp only at hrun
              cases hc : build_children_heap
                  (rpf7_build_directory_tree_heap fuel entries names)
                  entries names h.length
                  (child_indices (entry_directory_first_entry_index (spec_record entries i))
                    (entry_directory_entry_count (spec_record entries i))) a2 none none
                  (h ++ (.dir (name_field h.length name) none none none ::
                    name_block name)) with
              | fault f => rw [hc] at hrun; cases hrun
              | ok pr2 =>
                obtain ⟨h2, a3⟩ := pr2
                rw [hc] at hrun
                cases hrun
                have inv0 := build_inv_init h name
                have hc2 : build_children_heap
                    (rpf7_build_directory_tree_heap fuel entries names)
                    entries names h.length
                    (child_indices (entry_directory_first_entry_index (spec_record entries i))
                      (entry_directory_entry_count (spec_record entries i))) a2
                    (dirs_last []) (files_last [])
                    (h ++ (.dir (name_field h.length name) none none none ::
                      name_block name)) = .ok (h1, a1) := hc
                obtain ⟨subs, files, inv, hpure⟩ := build_children_heap_spec
                  (rpf7_build_directory_tree_heap fuel entries names)
                  (rpf7_build_directory_tree fuel entries names) entries names h name
                  ih _ a2 _ [] [] h1 a1 inv0 hc2
                have hsubs_lt : ∀ x ∈ dirs_released subs,
                    h.length + 1 + (name_block name).length ≤ x ∧ x < h1.length :=
                  fun x hx => (inv.mem x).mpr (Or.inl hx)
                have hfiles_lt : ∀ x ∈ files_released files,
                    h.length + 1 + (name_block name).length ≤ x ∧ x < h1.length :=
                  fun x hx => (inv.mem x).mpr (Or.inr hx)
                have two := inv.two
                refine Or.inr ⟨.mk h.length name subs files, rfl,
                  ⟨by omega, inv.old⟩, ?_, ?_, ?_, ?_⟩
                · rw [LDir.repr]
                  exact ⟨inv.name_cell, inv.node_cell, inv.subs_repr, inv.files_repr⟩
                · rw [LDir.released_mk]
                  refine List.nodup_append.mpr ⟨inv.nodup_subs,
                    List.nodup_append.mpr ⟨inv.nodup_files, node_released_nodup _ _, ?_⟩, ?_⟩
                  · intro x hx1 hx2
                    have := hfiles_lt x hx1
                    rw [mem_node_released] at hx2
                    omega
                  · intro x hx1 hx2
                    have := hsubs_lt x hx1
                    rw [List.mem_append, mem_node_released] at hx2
                    rcases hx2 with h3 | h3
                    · exact inv.disjoint x hx1 h3
                    · omega
                · intro x
                  rw [LDir.released_mk, List.mem_append, List.mem_append, mem_node_released]
                  constructor
                  · rintro (h3 | h3 | h3)
                    · have := hsubs_lt x h3; omega
                    · have := hfiles_lt x h3; omega
                    · omega
                  · intro hx
                    by_cases hx2 : h.length + 1 + (name_block name).length ≤ x
                    · rcases (inv.mem x).mp ⟨hx2, hx.2⟩ with h3 | h3
                      · exact Or.inl h3
                      · exact Or.inr (Or.inl h3)
                    · exact Or.inr (Or.inr (by omega))
                · rw [LDir.erase]
                  exact build_tree_children_ok fuel entries names a a' a2 a1 i hin hd hq
                    name hs _ _ hpure
    · rw [rpf7_build_directory_tree_heap, entry_at_of_not_le entries i hin] at hrun
      cases hrun

/-! ## Lemmas: the heap builder returns when the value-level builder does -/

theorem link_subdir_ok (hb h h1 : Heap) (name : Option (List Byte)) (subs : List LDir)
    (files : List LFile) (subdir : Nat) (inv : BuildInv hb h name subs files)
    (hext : heap_extends h h1) :
    ∃ h2, link_subdir h1 hb.length (dirs_last subs) subdir = .ok h2 := by
  have two := inv.two
  cases hl : dirs_last subs with
  | none =>
    have hcell : h1[hb.length]? =
        some (.dir (name_field hb.length name) (dirs_head subs) (files_head files)
          none) := by
      rw [hext.2 _ (by omega)]; exact inv.node_cell
    rw [link_subdir, store_dir_subdirs, hcell]
    exact ⟨_, rfl⟩
  | some l =>
    obtain ⟨n, s, f, hc⟩ := dirs_last_cell h subs l hl inv.subs_repr
    have hlm := (inv.mem l).mpr (Or.inl (dirs_last_mem subs l hl))
    have hcell : h1[l]? = some (.dir n s f none) := by
      rw [hext.2 _ hlm.2]; exact hc
    rw [link_subdir, store_dir_next, hcell]
    exact ⟨_, rfl⟩

theorem link_file_ok (hb h : Heap) (name : Option (List Byte)) (subs : List LDir)
    (files : List LFile) (cells : List Cell) (file : Nat)
    (inv : BuildInv hb h name subs files) :
    ∃ h2, link_file (h ++ cells) hb.length (files_last files) file = .ok h2 := by
  have two := inv.two
  cases hl : files_last files with
  | none =>
    have hcell : (h ++ cells)[hb.length]? =
        some (.dir (name_field hb.length name) (dirs_head subs) (files_head files)
          none) := by
      rw [List.getElem?_append_left (by omega)]; exact inv.node_cell
    rw [link_file, store_dir_files, hcell]
    exact ⟨_, rfl⟩
  | some l =>
    obtain ⟨n, s, f, hc⟩ := files_last_cell h files l hl inv.files_repr
    have hlm := (inv.mem l).mpr (Or.inr (files_last_mem files l hl))
    have hcell : (h ++ cells)[l]? = some (.file n s f none) := by
      rw [List.getElem?_append_left hlm.2]; exact hc
    rw [link_file, store_file_next, hcell]
    exact ⟨_, rfl⟩

/-- The child loop over the heap runs to its end whenever the value-level loop
does: no store goes through a pointer that is not a live node. -/
theorem build_children_heap_returns
    (rh : Alloc → Nat → Heap → Res ((Option Nat × Heap) × Alloc))
    (rp : Alloc → Nat → Res (Option rpf7_directory_node × Alloc))
    (entries names : List Byte) (hb : Heap) (name : Option (List Byte))
    (hpost : ∀ a i h p h1 a1, rh a i h = .ok ((p, h1), a1) → BuildPost h p h1 (rp a i) a1)
    (hprog : ∀ a i h r a1, rp a i = .ok (r, a1) → ∃ p h1, rh a i h = .ok ((p, h1), a1))
    (idxs : List Nat) :
    ∀ (a : Alloc) (h : Heap) (subs : List LDir) (files : List LFile)
      (res : List rpf7_directory_node × List rpf7_file_node) (a1 : Alloc),
      BuildInv hb h name subs files →
      build_children rp entries names idxs a (dirs_erase subs) (files.map LFile.erase) =
        .ok (res, a1) →
      ∃ h1, build_children_heap rh entries names hb.length idxs a (dirs_last subs)
        (files_last files) h = .ok (h1, a1) := by
  induction idxs with
  | nil =>
    intro a h subs files res a1 inv hval
    rw [build_children] at hval
    cases hval
    exact ⟨h, by rw [build_children_heap]⟩
  | cons i rest ih =>
    intro a h subs files res a1 inv hval
    by_cases hin : (i + 1) * 16 ≤ entries.length
    · rw [build_children_heap, entry_at_spec_record entries i hin]
      dsimp only
      cases hd : rpf7_is_directory (spec_record entries i) with
      | true =>
        rw [if_pos rfl]
        cases hr : rp a i with
        | fault f =>
          rw [build_children_dir_fault _ _ _ _ _ _ _ _ hin hd f hr] at hval
          cases hval
        | ok pr =>
          obtain ⟨r, a'⟩ := pr
          obtain ⟨p, h', hrh⟩ := hprog a i h r a' hr
          rw [hrh]
          rcases hpost a i h p h' a' hrh with ⟨hp, hh, hv⟩ | ⟨t, hp, hext, ht, hnd, hmem, hv⟩
          · rw [hp, hh]
            dsimp only
            rw [build_children_dir_none _ _ _ _ _ _ _ _ _ hin hd hv] at hval
            exact ih a' h subs files res a1 inv hval
          · rw [hp]
            dsimp only
            obtain ⟨h2, hl⟩ := link_subdir_ok hb h h' name subs files t.addr inv hext
            rw [hl]
            dsimp only
            have inv2 := build_inv_add_dir hb h h' h2 name subs files t inv hext ht hnd
              hmem hl
            rw [build_children_dir_some _ _ _ _ _ _ _ _ _ hin hd _ hv,
              ← dirs_erase_snoc] at hval
            rw [← dirs_last_snoc subs t]
            exact ih a' h2 (subs ++ [t]) files res a1 inv2 hval
      | false =>
        rw [if_neg (by exact Bool.noConfusion)]
        cases hq : alloc_request a with
        | mk b a' =>
          cases b with
          | false =>
            dsimp only
            rw [build_children_file_skip _ _ _ _ _ _ _ _ _ hin hd hq] at hval
            exact ih a' h subs files res a1 inv hval
          | true =>
            dsimp only
            cases hs : strdup a' (names.drop (entry_name_offset (spec_record entries i))) with
            | fault f =>
              rw [build_children_file_fault _ _ _ _ _ _ _ _ _ hin hd hq f hs] at hval
              cases hval
            | ok pr =>
              obtain ⟨nm, a2⟩ := pr
              dsimp only
              obtain ⟨h2, hl⟩ := link_file_ok hb h name subs files
                (.file (name_field h.length nm) (entry_file_size (spec_record entries i))
                  (read_u24_le (entry_offset (spec_record entries i))) none :: name_block nm)
                h.length inv
              rw [hl]
              dsimp only
              have inv2 := build_inv_add_file hb h h2 name subs files nm _ _ inv hl
              have hlast := files_last_snoc files
                { addr := h.length, name := nm,
                  size := entry_file_size (spec_record entries i),
                  offset := read_u24_le (entry_offset (spec_record entries i)) }
              rw [build_children_file_ok _ _ _ _ _ _ _ _ _ _ hin hd hq nm hs] at hval
              rw [← hlast]
              apply ih a2 h2 subs _ res a1 inv2
              rw [List.map_append]
              exact hval
    · rw [build_children_entry_fault _ _ _ _ _ _ _ _ hin] at hval
      cases hval

/-- The heap builder returns, from every heap, whenever the value-level builder
returns, and it leaves the same allocator. -/
theorem build_heap_returns (entries names : List Byte) (fuel : Nat) :
    ∀ (a : Alloc) (i : Nat) (h : Heap) (r : Option rpf7_directory_node) (a1 : Alloc),
      rpf7_build_directory_tree fuel entries names a i = .ok (r, a1) →
      ∃ p h1, rpf7_build_directory_tree_heap fuel entries names a i h = .ok ((p, h1), a1) := by
  induction fuel with
  | zero =>
    intro a i h r a1 hval
    rw [rpf7_build_directory_tree] at hval
    cases hval
  | succ fuel ih =>
    intro a i h r a1 hval
    by_cases hin : (i + 1) * 16 ≤ entries.length
    · rw [rpf7_build_directory_tree_heap, entry_at_spec_record entries i hin]
      dsimp only
      cases hd : rpf7_is_directory (spec_record entries i) with
      | false =>
        rw [build_tree_not_dir fuel entries names a i hin hd] at hval
        cases hval
        rw [if_pos rfl]
        exact ⟨_, _, rfl⟩
      | true =>
        rw [if_neg (by exact Bool.noConfusion)]
        cases hq : alloc_request a with
        | mk b a' =>
          cases b with
          | false =>
            rw [build_tree_alloc_fail fuel entries names a a' i hin hd hq] at hval
            cases hval
            exact ⟨_, _, rfl⟩
          | true =>
            dsimp only
            cases hs : strdup a' (names.drop (entry_name_offset (spec_record entries i))) with
            | fault f =>
              rw [build_tree_name_fault fuel entries names a a' i hin hd hq f hs] at hval
              cases hval
            | ok pr =>
              obtain ⟨name, a2⟩ := pr
              dsimp only
              cases hc : build_children (rpf7_build_directory_tree fuel entries names)
                  entries names
                  (child_indices (entry_directory_first_entry_index (spec_record entries i))
                    (entry_directory_entry_count (spec_record entries i))) a2 [] [] with
              | fault f =>
                rw [build_tree_children_fault fuel entries names a a' a2 i hin hd hq name hs
                  f hc] at hval
                cases hval
              | ok pr2 =>
                obtain ⟨⟨sd, fl⟩, a3⟩ := pr2
                rw [build_tree_children_ok fuel entries names a a' a2 a3 i hin hd hq name hs
                  sd fl hc] at hval
                cases hval
                have hc2 : build_children (rpf7_build_directory_tree fuel entries names)
                    entries names
                    (child_indices (entry_directory_first_entry_index (spec_record entries i))
                      (entry_directory_entry_count (spec_record entries i))) a2
                    (dirs_erase []) (([] : List LFile).map LFile.erase) =
                    .ok ((sd, fl), a1) := hc
                obtain ⟨h1, hch⟩ := build_children_heap_returns
                  (rpf7_build_directory_tree_heap fuel entries names)
                  (rpf7_build_directory_tree fuel entries names) entries names h name
                  (build_heap_spec entries names fuel) ih _ a2 _ [] [] _ a1
                  (build_inv_init h name) hc2
                have hch2 : build_children_heap
                    (rpf7_build_directory_tree_heap fuel entries names)
                    entries names h.length
                    (child_indices (entry_directory_first_entry_index (spec_record entries i))
                      (entry_directory_entry_count (spec_record entries i))) a2 none none
                    (h ++ (.dir (name_field h.length name) none none none ::
                      name_block name)) = .ok (h1, a1) := hch
                rw [hch2]
                exact ⟨_, _, rfl⟩
    · rw [build_tree_entry_fault fuel entries names a i hin] at hval
      cases hval

theorem nodup_length_le_of_range (l : List Nat) (lo hi : Nat) (hnd : l.Nodup)
    (hmem : ∀ x ∈ l, lo ≤ x ∧ x < hi) : l.length ≤ hi - lo := by
  have hsub : l ⊆ List.range' lo (hi - lo) := by
    intro x hx
    have := hmem x hx
    rw [List.mem_range'_1]
    omega
  have := (List.Nodup.subperm hnd hsub).length_le
  rwa [List.length_range'] at this

/-- Releasing all the blocks a call of the builder appended leaves the heap of
before the call followed by released blocks. -/
theorem release_all (h0 h1 : Heap) (l : List Nat) (hext : heap_extends h0 h1)
    (hmem : ∀ x, x ∈ l ↔ h0.length ≤ x ∧ x < h1.length) :
    release h1 l = h0 ++ List.replicate (h1.length - h0.length) .freed := by
  apply List.ext_getElem?
  intro x
  by_cases h1x : x < h0.length
  · rw [release_get_not_mem l x (fun hm => by have := (hmem x).mp hm; omega), hext.2 x h1x,
      List.getElem?_append_left h1x]
  · by_cases h2x : x < h1.length
    · rw [release_get_mem l x ((hmem x).mpr ⟨by omega, h2x⟩) h1 h2x,
        List.getElem?_append_right (by omega), List.getElem?_replicate]
      rw [if_pos (by omega)]
    · have hl1 : (release h1 l).length ≤ x := by rw [release_length]; omega
      have hl2 : (h0 ++ List.replicate (h1.length - h0.length) Cell.freed).length ≤ x := by
        rw [List.length_append, List.length_replicate]
        have := hext.1
        omega
      rw [List.getElem?_eq_none hl1, List.getElem?_eq_none hl2]

/-! ## Claims -/

/-- C1: on a target with a 32-bit `size_t` the equivalence fails. The 16-byte
buffer `example_wrap_entries` starts with the magic and announces `0x10000000`
entries, so it is shorter than `16 + 16 * entry_count + names_data_size`; yet
`rpf7_read_header` returns 0, because `entry_count * 16` wraps to 0 in the
computation of the required size. -/
theorem C1_size_t_32_accepts_short_buffer :
    16 ≤ example_wrap_entries.length ∧
    spec_le_u32 example_wrap_entries 0 = 0x52504637 ∧
    spec_le_u32 example_wrap_entries 4 = 0x10000000 ∧
    ¬ (16 + 16 * spec_le_u32 example_wrap_entries 4 + spec_le_u32 example_wrap_entries 8 ≤
      example_wrap_entries.length) ∧
    ∃ r, rpf7_read_header 32 true true example_wrap_entries = .ok r ∧ r.ret = 0 := by
  refine ⟨by decide, by decide, by decide, by decide, _, read_header_size_t_32_accepts, rfl⟩

/-- C2: a buffer shorter than 16 bytes is rejected with the too-small message,
whatever its contents, the width of `size_t` and the allocator do; nothing is
written to the header, the entries or the names. -/
theorem C2_short_buffer_too_small (w : Nat) (ea na : Bool) (data : List Byte)
    (h : data.length < 16) :
    rpf7_read_header w ea na data =
      .ok { ret := -1, header := none, entries_out := none, names_out := none,
            stderr := some .headerTooSmall } := by
  unfold rpf7_read_header
  simp only [sizeof_header_eq]
  rw [if_pos h]

/-- Witness of C2: the four magic bytes alone. -/
theorem C2_short_buffer_too_small_witness :
    ([0x37, 0x46, 0x50, 0x52] : List Byte).length < 16 ∧
    rpf7_read_header 64 true true [0x37, 0x46, 0x50, 0x52] =
      .ok { ret := -1, header := none, entries_out := none, names_out := none,
            stderr := some .headerTooSmall } :=
  ⟨by decide, C2_short_buffer_too_small 64 true true _ (by decide)⟩

/-- C3 as stated fails: the four bytes `[1, 0, 0, 0]` decode to 1, not to the
magic, and the call reports the too-small failure, not the bad-magic one. -/
theorem C3_counterexample :
    spec_le_u32 [1, 0, 0, 0] 0 ≠ 0x52504637 ∧
    rpf7_read_header 64 true true [1, 0, 0, 0] =
      .ok { ret := -1, header := none, entries_out := none, names_out := none,
            stderr := some .headerTooSmall } ∧
    rpf7_read_header 64 true true [1, 0, 0, 0] ≠
      .ok { ret := -1, header := some (header_of_bytes [1, 0, 0, 0]), entries_out := none,
            names_out := none,
            stderr := some (.invalidVersion 0x52504637 (spec_le_u32 [1, 0, 0, 0] 0)) } := by
  decide

/-- C3, amended: for a buffer of at least 16 bytes whose first 4 bytes decode
to a value other than `0x52504637`, the call fails with the bad-magic message,
and the value reported as actual is the little-endian u32 of those bytes. -/
theorem C3_bad_magic (w : Nat) (ea na : Bool) (data : List Byte)
    (hlen : 16 ≤ data.length) (hmagic : spec_le_u32 data 0 ≠ 0x52504637) :
    rpf7_read_header w ea na data =
      .ok { ret := -1,
            header := some { version := spec_le_u32 data 0,
                             entry_count := spec_le_u32 data 4,
                             names_data_size := spec_le_u32 data 8,
                             encryption_type := spec_le_u32 data 12 },
            entries_out := none, names_out := none,
            stderr := some (.invalidVersion 0x52504637 (spec_le_u32 data 0)) } := by
  unfold rpf7_read_header
  simp only [sizeof_header_eq]
  rw [if_neg (by omega)]
  have hv : (header_of_bytes data).version = spec_le_u32 data 0 := by
    rw [header_of_bytes_eq]
  simp only [hv]
  rw [if_pos hmagic, header_of_bytes_eq]

/-- Witness of C3, amended: `example_bad_magic` reports the value 0x53504637. -/
theorem C3_bad_magic_witness :
    16 ≤ example_bad_magic.length ∧ spec_le_u32 example_bad_magic 0 ≠ 0x52504637 ∧
    rpf7_read_header 64 true true example_bad_magic =
      .ok { ret := -1,
            header := some { version := 0x53504637, entry_count := 0xFFFFFFFF,
                             names_data_size := 0, encryption_type := 0 },
            entries_out := none, names_out := none,
            stderr := some (.invalidVersion 0x52504637 0x53504637) } :=
  ⟨by decide, by decide,
    C3_bad_magic 64 true true example_bad_magic (by decide) (by decide)⟩

/-- C4: on a target with a 32-bit `size_t` the guard fails. The buffer
`example_wrap_entries` has 16 bytes and the magic, and
`16 + 16 * entry_count + names_data_size` (exact arithmetic) is above its
length; yet the call does not fail with the body-too-small message: it returns
0 and hands out an entry array and a names blob. -/
theorem C4_size_t_32_guard_wraps :
    16 ≤ example_wrap_entries.length ∧
    spec_le_u32 example_wrap_entries 0 = 0x52504637 ∧
    example_wrap_entries.length <
      16 + 16 * spec_le_u32 example_wrap_entries 4 + spec_le_u32 example_wrap_entries 8 ∧
    rpf7_read_header 32 true true example_wrap_entries =
      .ok { ret := 0, header := some ⟨0x52504637, 0x10000000, 0, 0⟩,
            entries_out := some [], names_out := some [], stderr := none } := by
  decide

/-- C5: on a target with a 32-bit `size_t` a call can return 0 without the
entry array the claim describes. On `example_wrap_entries` the call returns 0
with `entry_count = 0x10000000` and an entry array of 0 bytes, not of
`16 * entry_count` bytes; on `example_wrap_names`, which announces
`2 ^ 32 - 1` name bytes in a 16-byte buffer, the size check passes and the copy
of the names leaves the buffer. -/
theorem C5_size_t_32_short_copies :
    rpf7_read_header 32 true true example_wrap_entries =
      .ok { ret := 0, header := some ⟨0x52504637, 0x10000000, 0, 0⟩,
            entries_out := some [], names_out := some [], stderr := none } ∧
    ([] : List Byte).length ≠ 16 * 0x10000000 ∧
    spec_le_u32 example_wrap_names 8 = 2 ^ 32 - 1 ∧
    rpf7_read_header 32 true true example_wrap_names = .fault .bufferOutOfBounds := by
  decide

/-- C6: under `#pragma pack(1)` an entry record has 16 bytes, the members
following one another at offsets 0, 2, 5 and 8 with an 8-byte union; of a
16-byte record, `name_offset` is the little-endian u16 at bytes 0..1, `flags`
are bytes 2..4, `offset` is bytes 5..7, `file.size` and
`directory.first_entry_index` are both the little-endian u32 at bytes 8..11,
and `directory.entry_count` is the little-endian u32 at bytes 12..15. -/
theorem C6_entry_layout (n0 n1 f0 f1 f2 o0 o1 o2 u0 u1 u2 u3 u4 u5 u6 u7 : Byte) :
    sizeof_entry = 16 ∧
    offsetof_packed rpf7_rpf_entry_members "name_offset" = 0 ∧
    offsetof_packed rpf7_rpf_entry_members "flags" = 2 ∧
    offsetof_packed rpf7_rpf_entry_members "offset" = 5 ∧
    offsetof_packed rpf7_rpf_entry_members "union" = 8 ∧
    sizeof_union [file_members, directory_members] = 8 ∧
    entry_name_offset [n0, n1, f0, f1, f2, o0, o1, o2, u0, u1, u2, u3, u4, u5, u6, u7] = n0.val + 256 * n1.val ∧
    entry_flags [n0, n1, f0, f1, f2, o0, o1, o2, u0, u1, u2, u3, u4, u5, u6, u7] = [f0, f1, f2] ∧
    entry_offset [n0, n1, f0, f1, f2, o0, o1, o2, u0, u1, u2, u3, u4, u5, u6, u7] = [o0, o1, o2] ∧
    entry_file_size [n0, n1, f0, f1, f2, o0, o1, o2, u0, u1, u2, u3, u4, u5, u6, u7] =
      u0.val + 256 * u1.val + 65536 * u2.val + 16777216 * u3.val ∧
    entry_directory_first_entry_index [n0, n1, f0, f1, f2, o0, o1, o2, u0, u1, u2, u3, u4, u5, u6, u7] =
      u0.val + 256 * u1.val + 65536 * u2.val + 16777216 * u3.val ∧
    entry_directory_entry_count [n0, n1, f0, f1, f2, o0, o1, o2, u0, u1, u2, u3, u4, u5, u6, u7] =
      u4.val + 256 * u5.val + 65536 * u6.val + 16777216 * u7.val := by
  have a0 : offsetof_packed rpf7_rpf_entry_members "name_offset" = 0 := by decide
  have a1 : offsetof_packed rpf7_rpf_entry_members "flags" = 2 := by decide
  have a2 : offsetof_packed rpf7_rpf_entry_members "offset" = 5 := by decide
  have a3 : offsetof_packed rpf7_rpf_entry_members "union" = 8 := by decide
  have a4 : offsetof_packed file_members "size" = 0 := by decide
  have a5 : offsetof_packed directory_members "first_entry_index" = 0 := by decide
  have a6 : offsetof_packed directory_members "entry_count" = 4 := by decide
  refine ⟨by decide, a0, a1, a2, a3, by decide, ?_, ?_, ?_, ?_, ?_, ?_⟩
  · simp only [entry_name_offset, a0, load_le, List.drop, List.getD_cons_zero]
    omega
  · simp only [entry_flags, a1, List.drop, List.take]
  · simp only [entry_offset, a2, List.drop, List.take]
  · simp only [entry_file_size, a3, a4, load_le, List.drop, List.getD_cons_zero]
    omega
  · simp only [entry_directory_first_entry_index, a3, a5, load_le, List.drop,
      List.getD_cons_zero]
    omega
  · simp only [entry_directory_entry_count, a3, a6, load_le, List.drop,
      List.getD_cons_zero]
    omega

/-- C7: for all bytes `b0 b1 b2`, `read_u24_le` returns
`b0 + 256 * b1 + 65536 * b2`, a number below `2 ^ 24` (so there is no sign
extension); `[0x01, 0x00, 0x00]` gives 1 and `[0xFF, 0xFF, 0x7F]` gives
`0x7FFFFF`. -/
theorem C7_read_u24_le (b0 b1 b2 : Byte) :
    read_u24_le [b0, b1, b2] = b0.val + 256 * b1.val + 65536 * b2.val ∧
    read_u24_le [b0, b1, b2] < 2 ^ 24 ∧
    read_u24_le [0x01, 0x00, 0x00] = 1 ∧
    read_u24_le [0xFF, 0xFF, 0x7F] = 0x7FFFFF := by
  have h0 := b0.isLt
  have h1 := b1.isLt
  have h2 := b2.isLt
  refine ⟨read_u24_le_eq b0 b1 b2, ?_, by decide, by decide⟩
  rw [read_u24_le_eq]
  omega

/-- C8: a 16-byte record is classified as a directory exactly when its bytes
5..7 decode to `0x7FFFFF`, that is when they are `FF FF 7F`; otherwise it is a
file; and replacing the name offset, the flags and the union bytes by any other
bytes leaves the classification unchanged. -/
theorem C8_is_directory_iff (n0 n1 f0 f1 f2 o0 o1 o2 u0 u1 u2 u3 u4 u5 u6 u7 : Byte) :
    (rpf7_is_directory [n0, n1, f0, f1, f2, o0, o1, o2, u0, u1, u2, u3, u4, u5, u6, u7] = true ↔ o0.val + 256 * o1.val + 65536 * o2.val = 0x7FFFFF) ∧
    (rpf7_is_directory [n0, n1, f0, f1, f2, o0, o1, o2, u0, u1, u2, u3, u4, u5, u6, u7] = false ↔ o0.val + 256 * o1.val + 65536 * o2.val ≠ 0x7FFFFF) ∧
    (rpf7_is_directory [n0, n1, f0, f1, f2, o0, o1, o2, u0, u1, u2, u3, u4, u5, u6, u7] = true ↔ (o0 = 0xFF ∧ o1 = 0xFF ∧ o2 = 0x7F)) ∧
    (∀ m0 m1 g0 g1 g2 v0 v1 v2 v3 v4 v5 v6 v7 : Byte,
      rpf7_is_directory [m0, m1, g0, g1, g2, o0, o1, o2, v0, v1, v2, v3, v4, v5, v6, v7] =
        rpf7_is_directory [n0, n1, f0, f1, f2, o0, o1, o2, u0, u1, u2, u3, u4, u5, u6, u7]) := by
  have a2 : offsetof_packed rpf7_rpf_entry_members "offset" = 5 := by decide
  have key : ∀ m0 m1 g0 g1 g2 v0 v1 v2 v3 v4 v5 v6 v7 : Byte,
      rpf7_is_directory [m0, m1, g0, g1, g2, o0, o1, o2, v0, v1, v2, v3, v4, v5, v6, v7] =
        decide (o0.val + 256 * o1.val + 65536 * o2.val = 0x7FFFFF) := by
    intro m0 m1 g0 g1 g2 v0 v1 v2 v3 v4 v5 v6 v7
    simp only [rpf7_is_directory, entry_offset, a2, List.drop, List.take, read_u24_le_eq]
    rfl
  have h0 := o0.isLt
  have h1 := o1.isLt
  have h2 := o2.isLt
  refine ⟨?_, ?_, ?_, ?_⟩
  · rw [key]; exact decide_eq_true_iff
  · rw [key]; exact decide_eq_false_iff_not
  · rw [key, decide_eq_true_iff]
    constructor
    · intro h
      refine ⟨Fin.ext ?_, Fin.ext ?_, Fin.ext ?_⟩
      · show o0.val = 255; omega
      · show o1.val = 255; omega
      · show o2.val = 127; omega
    · rintro ⟨rfl, rfl, rfl⟩; decide
  · intro m0 m1 g0 g1 g2 v0 v1 v2 v3 v4 v5 v6 v7
    rw [key, key]

/-- C9: whatever the names blob, the allocator and the recursion budget are, on
an index whose record lies inside the entry table and whose decoded offset is
not `0x7FFFFF` the builder returns `NULL` and the allocator is as before the
call: no node is built. -/
theorem C9_not_directory_null (fuel : Nat) (entries names_buffer : List Byte) (a : Alloc)
    (index : Nat)
    (hin : (index + 1) * 16 ≤ entries.length)
    (hfile : read_u24_le (entry_offset ((entries.drop (16 * index)).take 16)) ≠ 0x7FFFFF) :
    rpf7_build_directory_tree (fuel + 1) entries names_buffer a index = .ok (none, a) := by
  have hnd : rpf7_is_directory ((entries.drop (16 * index)).take 16) = false := by
    unfold rpf7_is_directory
    exact beq_false_of_ne hfile
  rw [rpf7_build_directory_tree, entry_at_of_lt entries index hin]
  dsimp only
  rw [if_pos hnd]

/-- Witness of C9: index 1 of `example_entries` is a file; the call returns
`NULL` and leaves the allocator, whose next answer is a failure, as it was. -/
theorem C9_not_directory_null_witness :
    (1 + 1) * 16 ≤ example_entries.length ∧
    read_u24_le (entry_offset ((example_entries.drop (16 * 1)).take 16)) ≠ 0x7FFFFF ∧
    rpf7_build_directory_tree (0 + 1) example_entries example_names [false, true] 1 =
      .ok (none, [false, true]) :=
  ⟨by decide, by decide,
    C9_not_directory_null 0 example_entries example_names [false, true] 1 (by decide)
      (by decide)⟩

/-- C10 as stated fails in two ways. In the example of the spec, whose
directory 0 has the in-table child range `[1, 3)` with the file record 1, the
build from an allocator whose third answer (the `malloc` of the file node) is a
failure returns a node with an empty file chain. And on the table of `2 ^ 32`
records whose directory 0 has the in-table child range `[1, 2 ^ 32)`, the
`uint32_t` loop bound wraps to 0: the build returns, with every allocation
succeeding, a node with an empty file chain, although record 2 of the range is
a file. -/
theorem C10_counterexample :
    ((0 + 1) * 16 ≤ example_entries.length ∧
      rpf7_is_directory (spec_record example_entries 0) = true ∧
      (entry_directory_first_entry_index (spec_record example_entries 0) +
        entry_directory_entry_count (spec_record example_entries 0)) * 16 ≤
          example_entries.length ∧
      rpf7_build_directory_tree 2 example_entries example_names [true, true, false] 0 =
        .ok (some (.mk (some [0x72]) [.mk (some [0x64]) [] []] []), []) ∧
      spec_child_files example_entries example_names
        (entry_directory_first_entry_index (spec_record example_entries 0))
        (entry_directory_entry_count (spec_record example_entries 0)) =
          [⟨some [0x66], 100, 0x302010⟩]) ∧
    ((0 + 1) * 16 ≤ example_wrap_table.length ∧
      rpf7_is_directory (spec_record example_wrap_table 0) = true ∧
      (entry_directory_first_entry_index (spec_record example_wrap_table 0) +
        entry_directory_entry_count (spec_record example_wrap_table 0)) * 16 ≤
          example_wrap_table.length ∧
      rpf7_build_directory_tree 1 example_wrap_table example_names [] 0 =
        .ok (some (.mk (some [0x72]) [] []), []) ∧
      spec_child_files example_wrap_table example_names
        (entry_directory_first_entry_index (spec_record example_wrap_table 0))
        (entry_directory_entry_count (spec_record example_wrap_table 0)) ≠ []) := by
  refine ⟨⟨by decide, by decide, by decide, rfl, by decide⟩, ?_, ?_, ?_,
    example_wrap_table_build, ?_⟩
  · rw [example_wrap_table_length]; norm_num
  · rw [example_wrap_table_record_0]; decide
  · rw [example_wrap_table_record_0, example_wrap_table_length]; decide
  · rw [example_wrap_table_record_0]
    have h2 : spec_file_node example_wrap_table example_names 2 ∈
        spec_child_files example_wrap_table example_names
          (entry_directory_first_entry_index example_wrap_dir)
          (entry_directory_entry_count example_wrap_dir) := by
      rw [spec_child_files]
      apply List.mem_map_of_mem
      rw [List.mem_filter, List.mem_range'_1, example_wrap_table_record_2]
      exact ⟨by decide, by decide⟩
    exact List.ne_nil_of_mem h2

/-- C10, amended: let record `d` be a directory whose child range
`[first_entry_index, first_entry_index + entry_count)` lies inside the table
and does not wrap (`first_entry_index + entry_count < 2 ^ 32`), and let no
allocation fail. Whenever the build of `d` returns, it returns a node, and the
file chain of that node is, in ascending index order, the file nodes of the
records of the range that are not directories, each with the record's file
size, its decoded 24-bit offset, and the null-terminated string at
`names[name_offset]` as its name. -/
theorem C10_child_files (fuel : Nat) (entries names_buffer : List Byte) (a : Alloc) (d : Nat)
    (r : Option rpf7_directory_node) (a1 : Alloc)
    (halloc : alloc_succeeds a)
    (hin : (d + 1) * 16 ≤ entries.length)
    (hdir : rpf7_is_directory (spec_record entries d) = true)
    (hrange : (entry_directory_first_entry_index (spec_record entries d) +
      entry_directory_entry_count (spec_record entries d)) * 16 ≤ entries.length)
    (hwrap : entry_directory_first_entry_index (spec_record entries d) +
      entry_directory_entry_count (spec_record entries d) < 2 ^ 32)
    (hterm : rpf7_build_directory_tree fuel entries names_buffer a d = .ok (r, a1)) :
    ∃ node, r = some node ∧
      node.files = spec_child_files entries names_buffer
        (entry_directory_first_entry_index (spec_record entries d))
        (entry_directory_entry_count (spec_record entries d)) :=
  build_tree_ok_child_files fuel entries names_buffer d r hin hdir hrange hwrap
    (build_tree_succeeds_ok entries names_buffer fuel a d halloc r a1 hterm).1

/-- Witness of C10: in the example of the spec, with six successful
allocations, the build of index 0 returns with two levels of recursion, and the
file chain is the single file "f" of size 100 at record 1. -/
theorem C10_child_files_witness :
    alloc_succeeds [true, true, true, true, true, true] ∧
    (0 + 1) * 16 ≤ example_entries.length ∧
    rpf7_is_directory (spec_record example_entries 0) = true ∧
    (entry_directory_first_entry_index (spec_record example_entries 0) +
      entry_directory_entry_count (spec_record example_entries 0)) * 16 ≤
        example_entries.length ∧
    entry_directory_first_entry_index (spec_record example_entries 0) +
      entry_directory_entry_count (spec_record example_entries 0) < 2 ^ 32 ∧
    rpf7_build_directory_tree 2 example_entries example_names
        [true, true, true, true, true, true] 0 =
      .ok (some (.mk (some [0x72]) [.mk (some [0x64]) [] []]
        [⟨some [0x66], 100, 0x302010⟩]), []) ∧
    spec_child_files example_entries example_names 1 2 = [⟨some [0x66], 100, 0x302010⟩] ∧
    ∃ node, some (rpf7_directory_node.mk (some [0x72]) [.mk (some [0x64]) [] []]
        [⟨some [0x66], 100, 0x302010⟩]) = some node ∧
      node.files = spec_child_files example_entries example_names
        (entry_directory_first_entry_index (spec_record example_entries 0))
        (entry_directory_entry_count (spec_record example_entries 0)) :=
  ⟨by decide, by decide, by decide, by decide, by decide, rfl, by decide,
    C10_child_files 2 example_entries example_names [true, true, true, true, true, true] 0 _ _
      (by decide) (by decide) (by decide) (by decide) (by decide) rfl⟩

/-- C11 as stated fails in two ways. In the example of the spec, whose
directory 0 has the in-table child range `[1, 3)` with the directory record 2:
when the first `malloc` fails the build of record 0 returns `NULL`, not a node;
when the second allocation (the `strdup` of the name) fails the node has a
`NULL` name; and when the fifth allocation (the `malloc` of the node of record
2) fails the node has no child directory. And on the table of `2 ^ 32` records
whose directory 0 has the in-table child range `[1, 2 ^ 32)`, the `uint32_t`
loop bound wraps to 0: the build returns, with every allocation succeeding, a
node with no child directory, although record 1 of the range is a
directory. -/
theorem C11_counterexample :
    ((0 + 1) * 16 ≤ example_entries.length ∧
      rpf7_is_directory (spec_record example_entries 0) = true ∧
      (entry_directory_first_entry_index (spec_record example_entries 0) +
        entry_directory_entry_count (spec_record example_entries 0)) * 16 ≤
          example_entries.length ∧
      rpf7_build_directory_tree 2 example_entries example_names [false] 0 = .ok (none, []) ∧
      rpf7_build_directory_tree 2 example_entries example_names [true, false] 0 =
        .ok (some (.mk none [.mk (some [0x64]) [] []] [⟨some [0x66], 100, 0x302010⟩]), []) ∧
      rpf7_build_directory_tree 2 example_entries example_names
          [true, true, true, true, false] 0 =
        .ok (some (.mk (some [0x72]) [] [⟨some [0x66], 100, 0x302010⟩]), []) ∧
      (List.range' (entry_directory_first_entry_index (spec_record example_entries 0))
          (entry_directory_entry_count (spec_record example_entries 0))).filter
        (fun j => rpf7_is_directory (spec_record example_entries j)) = [2]) ∧
    ((0 + 1) * 16 ≤ example_wrap_table.length ∧
      rpf7_is_directory (spec_record example_wrap_table 0) = true ∧
      (entry_directory_first_entry_index (spec_record example_wrap_table 0) +
        entry_directory_entry_count (spec_record example_wrap_table 0)) * 16 ≤
          example_wrap_table.length ∧
      rpf7_build_directory_tree 1 example_wrap_table example_names [] 0 =
        .ok (some (.mk (some [0x72]) [] []), []) ∧
      1 ∈ (List.range' (entry_directory_first_entry_index (spec_record example_wrap_table 0))
          (entry_directory_entry_count (spec_record example_wrap_table 0))).filter
        (fun j => rpf7_is_directory (spec_record example_wrap_table j))) := by
  refine ⟨⟨by decide, by decide, by decide, rfl, rfl, rfl, by decide⟩,
    ?_, ?_, ?_, example_wrap_table_build, ?_⟩
  · rw [example_wrap_table_length]; norm_num
  · rw [example_wrap_table_record_0]; decide
  · rw [example_wrap_table_record_0, example_wrap_table_length]; decide
  · rw [example_wrap_table_record_0, List.mem_filter, List.mem_range'_1,
      example_wrap_table_record_1]
    exact ⟨by decide, by decide⟩

/-- C11, amended: let record `d` be a directory whose child range lies inside
the table and does not wrap (`first_entry_index + entry_count < 2 ^ 32`), and
let no allocation fail. Whenever the build of `d` returns within a recursion
budget, it returns a node whose name is the null-terminated string at
`names[name_offset]` of record `d`, and whose directory chain is, in ascending
index order, the results of the build (with that budget or any larger one, and
from any allocator that never fails) on the records of the range that are
directories. -/
theorem C11_name_and_child_directories (fuel : Nat) (entries names_buffer : List Byte)
    (a : Alloc) (d : Nat) (r : Option rpf7_directory_node) (a1 : Alloc)
    (halloc : alloc_succeeds a)
    (hin : (d + 1) * 16 ≤ entries.length)
    (hdir : rpf7_is_directory (spec_record entries d) = true)
    (hrange : (entry_directory_first_entry_index (spec_record entries d) +
      entry_directory_entry_count (spec_record entries d)) * 16 ≤ entries.length)
    (hwrap : entry_directory_first_entry_index (spec_record entries d) +
      entry_directory_entry_count (spec_record entries d) < 2 ^ 32)
    (hterm : rpf7_build_directory_tree fuel entries names_buffer a d = .ok (r, a1)) :
    ∃ node, r = some node ∧
      node.name = some (spec_c_string names_buffer
        (entry_name_offset (spec_record entries d))) ∧
      ∀ k a2, alloc_succeeds a2 → node.subdirs.map (fun s => Res.ok (some s)) =
        ((List.range' (entry_directory_first_entry_index (spec_record entries d))
            (entry_directory_entry_count (spec_record entries d))).filter
          (fun j => rpf7_is_directory (spec_record entries j))).map
          (fun j => result_of
            (rpf7_build_directory_tree (fuel + k) entries names_buffer a2 j)) := by
  obtain ⟨node, hr, hname, hsub⟩ := build_tree_ok_name_and_subdirs fuel entries names_buffer
    d r hin hdir hrange hwrap
    (build_tree_succeeds_ok entries names_buffer fuel a d halloc r a1 hterm).1
  refine ⟨node, hr, hname, ?_⟩
  intro k a2 ha2
  rw [hsub k]
  apply List.map_congr_left
  intro j _
  obtain ⟨a3, _, heq⟩ := build_tree_ok_eq entries names_buffer (fuel + k) a2 j ha2
  rw [heq, result_of_with_alloc]

/-- Witness of C11: in the example of the spec, with six successful
allocations, the build of index 0 returns the directory "r" whose directory
chain is the build of record 2, the empty directory "d". -/
theorem C11_name_and_child_directories_witness :
    alloc_succeeds [true, true, true, true, true, true] ∧
    (0 + 1) * 16 ≤ example_entries.length ∧
    rpf7_is_directory (spec_record example_entries 0) = true ∧
    (entry_directory_first_entry_index (spec_record example_entries 0) +
      entry_directory_entry_count (spec_record example_entries 0)) * 16 ≤
        example_entries.length ∧
    entry_directory_first_entry_index (spec_record example_entries 0) +
      entry_directory_entry_count (spec_record example_entries 0) < 2 ^ 32 ∧
    rpf7_build_directory_tree 2 example_entries example_names
        [true, true, true, true, true, true] 0 =
      .ok (some (.mk (some [0x72]) [.mk (some [0x64]) [] []]
        [⟨some [0x66], 100, 0x302010⟩]), []) ∧
    rpf7_build_directory_tree 2 example_entries example_names [] 2 =
      .ok (some (.mk (some [0x64]) [] []), []) ∧
    ∃ node, some (rpf7_directory_node.mk (some [0x72]) [.mk (some [0x64]) [] []]
        [⟨some [0x66], 100, 0x302010⟩]) = some node ∧
      node.name = some (spec_c_string example_names
        (entry_name_offset (spec_record example_entries 0))) ∧
      ∀ k a2, alloc_succeeds a2 → node.subdirs.map (fun s => Res.ok (some s)) =
        ((List.range' (entry_directory_first_entry_index (spec_record example_entries 0))
            (entry_directory_entry_count (spec_record example_entries 0))).filter
          (fun j => rpf7_is_directory (spec_record example_entries j))).map
          (fun j => result_of
            (rpf7_build_directory_tree (2 + k) example_entries example_names a2 j)) :=
  ⟨by decide, by decide, by decide, by decide, by decide, rfl, rfl,
    C11_name_and_child_directories 2 example_entries example_names
      [true, true, true, true, true, true] 0 _ _
      (by decide) (by decide) (by decide) (by decide) (by decide) rfl⟩

/-- C12 as stated fails: on the one-record table `example_empty_dir`, a
directory with `entry_count = 0` and `first_entry_index = 1000`, the build
returns `NULL` when the `malloc` of the node fails, and with an empty names blob
the `strdup` of the name reads past the end of the blob, whatever the recursion
budget is. -/
theorem C12_counterexample :
    (0 + 1) * 16 ≤ example_empty_dir.length ∧
    rpf7_is_directory (spec_record example_empty_dir 0) = true ∧
    entry_directory_entry_count (spec_record example_empty_dir 0) = 0 ∧
    entry_directory_first_entry_index (spec_record example_empty_dir 0) = 1000 ∧
    (∀ fuel, rpf7_build_directory_tree (fuel + 1) example_empty_dir example_names [false] 0 =
      .ok (none, [])) ∧
    (∀ fuel, rpf7_build_directory_tree (fuel + 1) example_empty_dir [] [] 0 =
      .fault .nameOutOfBounds) :=
  ⟨by decide, by decide, by decide, by decide,
    fun fuel => build_tree_alloc_fail fuel example_empty_dir example_names [false] [] 0
      (by decide) (by decide) rfl,
    fun fuel => build_tree_name_fault fuel example_empty_dir [] [] [] 0
      (by decide) (by decide) rfl _ rfl⟩

/-- C12, amended: let record `d` lie inside the entry table and be a directory
with `entry_count = 0` whose name is terminated inside the names blob, and let
the `malloc` of the directory node succeed. Whatever `first_entry_index` is,
the loop visits no index, and with any positive recursion budget the build
returns a node with the name `strdup` returned and with empty directory and
file chains; every table with the same record `d` gives the same result, so no
other record is read. -/
theorem C12_empty_directory (fuel : Nat) (entries names_buffer : List Byte) (a a1 : Alloc)
    (d : Nat)
    (halloc : alloc_request a = (true, a1))
    (hin : (d + 1) * 16 ≤ entries.length)
    (hdir : rpf7_is_directory (spec_record entries d) = true)
    (hname : (0 : Byte) ∈ names_buffer.drop (entry_name_offset (spec_record entries d)))
    (hcount : entry_directory_entry_count (spec_record entries d) = 0) :
    child_indices (entry_directory_first_entry_index (spec_record entries d))
      (entry_directory_entry_count (spec_record entries d)) = [] ∧
    (∃ name a2,
      strdup a1 (names_buffer.drop (entry_name_offset (spec_record entries d))) =
        .ok (name, a2) ∧
      rpf7_build_directory_tree (fuel + 1) entries names_buffer a d =
        .ok (some (.mk name [] []), a2)) ∧
    ∀ entries2 : List Byte, (d + 1) * 16 ≤ entries2.length →
      spec_record entries2 d = spec_record entries d →
      rpf7_build_directory_tree (fuel + 1) entries2 names_buffer a d =
        rpf7_build_directory_tree (fuel + 1) entries names_buffer a d := by
  have hidx : child_indices (entry_directory_first_entry_index (spec_record entries d))
      (entry_directory_entry_count (spec_record entries d)) = [] := by
    rw [hcount]; exact child_indices_zero _
  obtain ⟨name, a2, hs, hb⟩ := build_tree_no_children fuel entries names_buffer a a1 d hin
    hdir halloc hname hidx
  refine ⟨hidx, ⟨name, a2, hs, hb⟩, ?_⟩
  intro e he hrec
  obtain ⟨name2, a3, hs2, hb2⟩ := build_tree_no_children fuel e names_buffer a a1 d he
    (by rw [hrec]; exact hdir) halloc (by rw [hrec]; exact hname) (by rw [hrec]; exact hidx)
  rw [hrec, hs] at hs2
  cases hs2
  rw [hb, hb2]

/-- Witness of C12: a lone directory with `entry_count = 0` and
`first_entry_index = 1000`, built from an allocator whose first two answers are
successes. -/
theorem C12_empty_directory_witness :
    alloc_request [true, true, false] = (true, [true, false]) ∧
    (0 + 1) * 16 ≤ example_empty_dir.length ∧
    rpf7_is_directory (spec_record example_empty_dir 0) = true ∧
    (0 : Byte) ∈ example_names.drop (entry_name_offset (spec_record example_empty_dir 0)) ∧
    entry_directory_entry_count (spec_record example_empty_dir 0) = 0 ∧
    entry_directory_first_entry_index (spec_record example_empty_dir 0) = 1000 ∧
    rpf7_build_directory_tree (0 + 1) example_empty_dir example_names [true, true, false] 0 =
      .ok (some (.mk (some [0x72]) [] []), [false]) ∧
    ∃ name a2,
      strdup [true, false]
        (example_names.drop (entry_name_offset (spec_record example_empty_dir 0))) =
        .ok (name, a2) ∧
      rpf7_build_directory_tree (0 + 1) example_empty_dir example_names [true, true, false] 0 =
        .ok (some (.mk name [] []), a2) :=
  ⟨rfl, by decide, by decide, by decide, by decide, by decide, rfl,
    (C12_empty_directory 0 example_empty_dir example_names [true, true, false] [true, false] 0
      rfl (by decide) (by decide) (by decide) (by decide)).2.1⟩

/-- C13 as stated fails in two ways on the three-record table of the example of
the spec, which describes a tree. When the `malloc` of the node of record 2
fails, the build of record 0 needs two levels of recursion (with a budget of 1
it runs out of budget) but the directory it builds has nesting depth 1. And
with an empty names blob the `strdup` of the name of record 0 reads past the
end of the blob, so the build never returns. -/
theorem C13_counterexample :
    example_entries.length = 16 * 3 ∧
    (∀ j, j < 3 → rpf7_is_directory (spec_record example_entries j) = true →
      j < entry_directory_first_entry_index (spec_record example_entries j) ∧
      entry_directory_first_entry_index (spec_record example_entries j) +
        entry_directory_entry_count (spec_record example_entries j) ≤ 3) ∧
    rpf7_build_directory_tree 2 example_entries example_names
        [true, true, true, true, false] 0 =
      .ok (some (.mk (some [0x72]) [] [⟨some [0x66], 100, 0x302010⟩]), []) ∧
    (rpf7_directory_node.mk (some [0x72]) [] [⟨some [0x66], 100, 0x302010⟩]).depth = 1 ∧
    rpf7_build_directory_tree 1 example_entries example_names
        [true, true, true, true, false] 0 = .fault .outOfFuel ∧
    (∀ fuel, rpf7_build_directory_tree (fuel + 1) example_entries [] [] 0 =
      .fault .nameOutOfBounds) :=
  ⟨by decide, by decide, rfl, by decide, rfl,
    fun fuel => build_tree_name_fault fuel example_entries [] [] [] 0
      (by decide) (by decide) rfl _ rfl⟩

/-- C13, amended: let a table of `N` records describe a tree: every directory
record `j` has `first_entry_index > j` and `first_entry_index + entry_count <=
N`; and let every name be terminated inside the names blob. Then for every
index below `N`, whatever allocations fail, the build returns within every
recursion budget of at least `N`, and never reads outside the table. On a file
record it returns `NULL` at once. On a directory record, when no allocation
fails, it returns a node exactly when the recursion budget is at least the
nesting depth of that node (with a smaller budget it runs out of budget), and
that depth is at most `N`. -/
theorem C13_tree_tables_terminate (entries names_buffer : List Byte) (N : Nat)
    (hlen : entries.length = 16 * N)
    (htree : ∀ j, j < N → rpf7_is_directory (spec_record entries j) = true →
      j < entry_directory_first_entry_index (spec_record entries j) ∧
      entry_directory_first_entry_index (spec_record entries j) +
        entry_directory_entry_count (spec_record entries j) ≤ N)
    (hnames : ∀ j, j < N →
      (0 : Byte) ∈ names_buffer.drop (entry_name_offset (spec_record entries j)))
    (index : Nat) (hindex : index < N) :
    (∀ fuel a, N ≤ fuel →
      ∃ r a1, rpf7_build_directory_tree fuel entries names_buffer a index = .ok (r, a1)) ∧
    (rpf7_is_directory (spec_record entries index) = false →
      ∀ fuel a, rpf7_build_directory_tree (fuel + 1) entries names_buffer a index =
        .ok (none, a)) ∧
    (rpf7_is_directory (spec_record entries index) = true →
      ∃ node, node.depth ≤ N ∧
        ∀ fuel a, alloc_succeeds a →
          (node.depth ≤ fuel → ∃ a1, alloc_succeeds a1 ∧
            rpf7_build_directory_tree fuel entries names_buffer a index =
              .ok (some node, a1)) ∧
          (fuel < node.depth →
            rpf7_build_directory_tree fuel entries names_buffer a index =
              .fault .outOfFuel)) := by
  have hin : (index + 1) * 16 ≤ entries.length := by omega
  refine ⟨?_, ?_, ?_⟩
  · intro fuel a hfuel
    exact build_tree_table_returns_any entries names_buffer N hlen htree hnames fuel a index
      hindex (by omega)
  · intro hd fuel a
    exact build_tree_not_dir fuel entries names_buffer a index hin hd
  · intro hd
    obtain ⟨r, hr⟩ := build_tree_table_returns entries names_buffer N hlen htree hnames
      (N - index) index hindex (Nat.le_refl _)
    cases r with
    | none => exact absurd hr (build_dir_not_none _ entries names_buffer index hin hd)
    | some node =>
      have hdepth := depth_le_fuel entries names_buffer _ index node hr
      refine ⟨node, by omega, ?_⟩
      intro fuel a ha
      have hby := build_by_depth entries names_buffer _ index node hr fuel
      constructor
      · intro hle
        rw [if_pos hle] at hby
        exact build_tree_succeeds_of_ok entries names_buffer fuel a index ha _ hby
      · intro hlt
        rw [if_neg (by omega)] at hby
        exact build_tree_succeeds_fault entries names_buffer fuel a index ha _ hby

/-- Witness of C13: `example_nested` has 5 records and describes a tree; the
build of index 0 returns a tree of nesting depth 3 exactly when the budget is
at least 3 and no allocation fails, and it returns the root with its file
alone when the `malloc` of the node of record 1 fails. -/
theorem C13_tree_tables_terminate_witness :
    example_nested.length = 16 * 5 ∧
    rpf7_is_directory (spec_record example_nested 0) = true ∧
    rpf7_build_directory_tree 2 example_nested example_names [] 0 = .fault .outOfFuel ∧
    rpf7_build_directory_tree 3 example_nested example_names [] 0 =
      .ok (some (.mk (some [0x72])
        [.mk (some [0x64]) [.mk (some [0x64]) [] []] [⟨some [0x66], 7, 1⟩]]
        [⟨some [0x66], 100, 0x302010⟩]), []) ∧
    rpf7_build_directory_tree 3 example_nested example_names [true, true, false] 0 =
      .ok (some (.mk (some [0x72]) [] [⟨some [0x66], 100, 0x302010⟩]), []) ∧
    ∃ node, node.depth ≤ 5 ∧
      ∀ fuel a, alloc_succeeds a →
        (node.depth ≤ fuel → ∃ a1, alloc_succeeds a1 ∧
          rpf7_build_directory_tree fuel example_nested example_names a 0 =
            .ok (some node, a1)) ∧
        (fuel < node.depth →
          rpf7_build_directory_tree fuel example_nested example_names a 0 =
            .fault .outOfFuel) :=
  ⟨by decide, by decide, rfl, rfl, rfl,
    (C13_tree_tables_terminate example_nested example_names 5 (by decide)
      (by
        intro j hj hd
        interval_cases j <;> first | decide | (exfalso; revert hd; decide))
      (by
        intro j hj
        interval_cases j <;> decide)
      0 (by decide)).2.2 (by decide)⟩

/-- C14: there are entry tables whose child ranges all lie inside the table and
on which the build never returns: on the one-record table whose directory has
the range `[0, 1)`, and on the two-record table whose directories have each
other as their only child, the build from index 0 exceeds every recursion
budget, from every allocator that never fails. -/
theorem C14_unbounded_recursion :
    ((0 + 1) * 16 ≤ example_self_loop.length ∧
      rpf7_is_directory (spec_record example_self_loop 0) = true ∧
      (entry_directory_first_entry_index (spec_record example_self_loop 0) +
        entry_directory_entry_count (spec_record example_self_loop 0)) * 16 ≤
          example_self_loop.length ∧
      (∀ fuel, rpf7_build_directory_tree fuel example_self_loop example_names [] 0 =
        .fault .outOfFuel) ∧
      ∀ fuel a, alloc_succeeds a →
        rpf7_build_directory_tree fuel example_self_loop example_names a 0 =
          .fault .outOfFuel) ∧
    ((1 + 1) * 16 ≤ example_two_cycle.length ∧
      rpf7_is_directory (spec_record example_two_cycle 0) = true ∧
      rpf7_is_directory (spec_record example_two_cycle 1) = true ∧
      (entry_directory_first_entry_index (spec_record example_two_cycle 0) +
        entry_directory_entry_count (spec_record example_two_cycle 0)) * 16 ≤
          example_two_cycle.length ∧
      (entry_directory_first_entry_index (spec_record example_two_cycle 1) +
        entry_directory_entry_count (spec_record example_two_cycle 1)) * 16 ≤
          example_two_cycle.length ∧
      (∀ fuel, rpf7_build_directory_tree fuel example_two_cycle example_names [] 0 =
        .fault .outOfFuel) ∧
      ∀ fuel a, alloc_succeeds a →
        rpf7_build_directory_tree fuel example_two_cycle example_names a 0 =
          .fault .outOfFuel) :=
  ⟨⟨by decide, by decide, by decide,
      fun fuel => build_tree_succeeds_fault _ _ fuel [] 0 alloc_succeeds_nil _
        (example_self_loop_diverges fuel),
      fun fuel a ha => build_tree_succeeds_fault _ _ fuel a 0 ha _
        (example_self_loop_diverges fuel)⟩,
    ⟨by decide, by decide, by decide, by decide, by decide,
      fun fuel => build_tree_succeeds_fault _ _ fuel [] 0 alloc_succeeds_nil _
        (example_two_cycle_diverges fuel).1,
      fun fuel a ha => build_tree_succeeds_fault _ _ fuel a 0 ha _
        (example_two_cycle_diverges fuel).1⟩⟩

/-- C15: let two buffers have the same length and the same bytes outside
offsets 12..15. For every width of `size_t` and every allocator outcome the
two calls of `rpf7_read_header` fault together or return together; when they
return, the return value, the message, the entry array and the names blob are
the same, a header is written by both or by none, with the same version,
entry count and names size, and the encryption type each call reports is the
little-endian u32 at bytes 12..15 of its own buffer. -/
theorem C15_encryption_type_passthrough (w : Nat) (ea na : Bool) (data1 data2 : List Byte)
    (hlen : data1.length = data2.length)
    (hpre : data1.take 12 = data2.take 12)
    (hpost : data1.drop 16 = data2.drop 16) :
    (∀ f, rpf7_read_header w ea na data1 = .fault f →
      rpf7_read_header w ea na data2 = .fault f) ∧
    (∀ r1, rpf7_read_header w ea na data1 = .ok r1 →
      ∃ r2, rpf7_read_header w ea na data2 = .ok r2 ∧
        r2.ret = r1.ret ∧ r2.stderr = r1.stderr ∧
        r2.entries_out = r1.entries_out ∧ r2.names_out = r1.names_out ∧
        r2.header.map (fun h => (h.version, h.entry_count, h.names_data_size)) =
          r1.header.map (fun h => (h.version, h.entry_count, h.names_data_size)) ∧
        (∀ h1, r1.header = some h1 → h1.encryption_type = spec_le_u32 data1 12) ∧
        (∀ h2, r2.header = some h2 → h2.encryption_type = spec_le_u32 data2 12)) := by
  have key := read_header_encryption_type w ea na data1 data2 hlen hpre hpost
  constructor
  · intro f hf
    rw [key, hf]
    rfl
  · intro r1 hr1
    rw [hr1] at key
    refine ⟨_, key, rfl, rfl, rfl, rfl, ?_, ?_, ?_⟩
    · dsimp only
      cases r1.header with
      | none => rfl
      | some h => rfl
    · intro h1 hh1
      rw [read_header_header w ea na data1 r1 hr1 h1 hh1, header_of_bytes_eq]
    · intro h2 hh2
      rw [read_header_header w ea na data2 _ key h2 hh2, header_of_bytes_eq]

/-- Witness of C15: `example_buffer` and `example_buffer_enc` are both accepted,
with the same entries and names, and encryption types 9 and 0xDDCCBBAA. -/
theorem C15_encryption_type_passthrough_witness :
    example_buffer.length = example_buffer_enc.length ∧
    example_buffer.take 12 = example_buffer_enc.take 12 ∧
    example_buffer.drop 16 = example_buffer_enc.drop 16 ∧
    rpf7_read_header 64 true true example_buffer =
      .ok { ret := 0, header := some ⟨0x52504637, 3, 6, 9⟩,
            entries_out := some example_entries, names_out := some example_names,
            stderr := none } ∧
    rpf7_read_header 64 true true example_buffer_enc =
      .ok { ret := 0, header := some ⟨0x52504637, 3, 6, 0xDDCCBBAA⟩,
            entries_out := some example_entries, names_out := some example_names,
            stderr := none } ∧
    ∃ r2, rpf7_read_header 64 true true example_buffer_enc = .ok r2 ∧
        r2.ret = 0 ∧ r2.stderr = none ∧
        r2.entries_out = some example_entries ∧ r2.names_out = some example_names ∧
        r2.header.map (fun h => (h.version, h.entry_count, h.names_data_size)) =
          some (0x52504637, 3, 6) ∧
        (∀ h1, some (⟨0x52504637, 3, 6, 9⟩ : rpf7_rpf_header) = some h1 →
          h1.encryption_type = spec_le_u32 example_buffer 12) ∧
        (∀ h2, r2.header = some h2 → h2.encryption_type = spec_le_u32 example_buffer_enc 12) :=
  ⟨by decide, by decide, by decide, by decide, by decide,
    (C15_encryption_type_passthrough 64 true true example_buffer example_buffer_enc
      (by decide) (by decide) (by decide)).2
      { ret := 0, header := some ⟨0x52504637, 3, 6, 9⟩,
        entries_out := some example_entries, names_out := some example_names,
        stderr := none } (by decide)⟩

/-- C16: the flags bytes are opaque to the tree builder. For two entry tables
of the same length that agree on every byte other than bytes 2..4 of their
records, and for every names blob, allocator, index and recursion budget, the
two builds give the same result: the same fault, `NULL` twice, or twice the
same tree (names, sizes, offsets, shape and order), with the same allocations
made. -/
theorem C16_flags_opaque (entries1 entries2 : List Byte)
    (h : same_up_to_flags entries1 entries2) (names_buffer : List Byte) (fuel : Nat) :
    ∀ a index, rpf7_build_directory_tree fuel entries1 names_buffer a index =
      rpf7_build_directory_tree fuel entries2 names_buffer a index := by
  induction fuel with
  | zero => intro a index; rfl
  | succ fuel ih =>
    intro a i
    have hf := same_fields_of_same_up_to_flags entries1 entries2 h i
    by_cases hin : (i + 1) * 16 ≤ entries1.length
    · have hin2 : (i + 1) * 16 ≤ entries2.length := by rw [← h.1]; exact hin
      cases hd : rpf7_is_directory (spec_record entries1 i) with
      | false =>
        have hd2 : rpf7_is_directory (spec_record entries2 i) = false := by
          rw [← hf.is_directory]; exact hd
        rw [build_tree_not_dir fuel entries1 names_buffer a i hin hd,
          build_tree_not_dir fuel entries2 names_buffer a i hin2 hd2]
      | true =>
        have hd2 : rpf7_is_directory (spec_record entries2 i) = true := by
          rw [← hf.is_directory]; exact hd
        cases hq : alloc_request a with
        | mk b a1 =>
          cases b with
          | false =>
            rw [build_tree_alloc_fail fuel entries1 names_buffer a a1 i hin hd hq,
              build_tree_alloc_fail fuel entries2 names_buffer a a1 i hin2 hd2 hq]
          | true =>
            cases hs : strdup a1
                (names_buffer.drop (entry_name_offset (spec_record entries1 i))) with
            | fault f =>
              rw [build_tree_name_fault fuel entries1 names_buffer a a1 i hin hd hq f hs,
                build_tree_name_fault fuel entries2 names_buffer a a1 i hin2 hd2 hq f
                  (by rw [← hf.name_offset]; exact hs)]
            | ok pr =>
              obtain ⟨name, a2⟩ := pr
              have hs2 : strdup a1
                  (names_buffer.drop (entry_name_offset (spec_record entries2 i))) =
                  .ok (name, a2) := by rw [← hf.name_offset]; exact hs
              have hch := build_children_flags
                (rpf7_build_directory_tree fuel entries1 names_buffer)
                (rpf7_build_directory_tree fuel entries2 names_buffer)
                entries1 entries2 names_buffer h ih
                (child_indices (entry_directory_first_entry_index (spec_record entries1 i))
                  (entry_directory_entry_count (spec_record entries1 i))) a2 [] []
              cases hc : build_children (rpf7_build_directory_tree fuel entries1 names_buffer)
                  entries1 names_buffer
                  (child_indices (entry_directory_first_entry_index (spec_record entries1 i))
                    (entry_directory_entry_count (spec_record entries1 i))) a2 [] [] with
              | fault f =>
                rw [hc, hf.first_entry_index, hf.entry_count] at hch
                rw [build_tree_children_fault fuel entries1 names_buffer a a1 a2 i hin hd hq
                    name hs f hc,
                  build_tree_children_fault fuel entries2 names_buffer a a1 a2 i hin2 hd2 hq
                    name hs2 f hch.symm]
              | ok pr2 =>
                obtain ⟨⟨sd, fl⟩, a3⟩ := pr2
                rw [hc, hf.first_entry_index, hf.entry_count] at hch
                rw [build_tree_children_ok fuel entries1 names_buffer a a1 a2 a3 i hin hd hq
                    name hs sd fl hc,
                  build_tree_children_ok fuel entries2 names_buffer a a1 a2 a3 i hin2 hd2 hq
                    name hs2 sd fl hch.symm]
    · have hin2 : ¬ (i + 1) * 16 ≤ entries2.length := by rw [← h.1]; exact hin
      rw [build_tree_entry_fault fuel entries1 names_buffer a i hin,
        build_tree_entry_fault fuel entries2 names_buffer a i hin2]

/-- Witness of C16: `example_entries` and `example_entries_flags` build the
same tree from index 0, and the same tree without the file when the `malloc` of
the file node fails. -/
theorem C16_flags_opaque_witness :
    same_up_to_flags example_entries example_entries_flags ∧
    example_entries ≠ example_entries_flags ∧
    rpf7_build_directory_tree 2 example_entries_flags example_names [] 0 =
      .ok (some (.mk (some [0x72]) [.mk (some [0x64]) [] []]
        [⟨some [0x66], 100, 0x302010⟩]), []) ∧
    rpf7_build_directory_tree 2 example_entries_flags example_names [true, true, false] 0 =
      .ok (some (.mk (some [0x72]) [.mk (some [0x64]) [] []] []), []) ∧
    ∀ a index, rpf7_build_directory_tree 2 example_entries example_names a index =
      rpf7_build_directory_tree 2 example_entries_flags example_names a index := by
  have hs : same_up_to_flags example_entries example_entries_flags := by
    refine ⟨by decide, ?_⟩
    intro k h2 h3 h4
    by_cases hk : k < 48
    · interval_cases k <;> first | rfl | (exfalso; revert h2 h3 h4; decide)
    · have l1 : example_entries.length = 48 := by decide
      have l2 : example_entries_flags.length = 48 := by decide
      rw [List.getD_eq_getElem?_getD, List.getD_eq_getElem?_getD,
        List.getElem?_eq_none (by omega), List.getElem?_eq_none (by omega)]
  exact ⟨hs, by decide, rfl, rfl, C16_flags_opaque example_entries example_entries_flags hs
    example_names 2⟩

/-- C17: let the builder return, from any allocator, a result `r` (`NULL` or a
tree). Then its run over the heap, started in any heap `h0`, returns a pointer
`p` and a heap `h1`. If `r` is `NULL` then `p` is `NULL` and the heap is as
before the call: nothing is left allocated. If `r` is a tree then `h1` holds at
`p` a located tree `t` that stands for `r` (with the children whose `malloc`
failed left out and the names whose `strdup` failed `NULL`), and whose blocks
(directory nodes, file nodes and names) are exactly the blocks allocated by the
build, each listed once. With any budget of at least `h1.length`,
`rpf7_free_directory_tree(p)` returns without a fault (so it never touches a
released block and never releases a block twice), it releases exactly the
blocks of `t`, each once, in post-order (the subdirectories of a node in chain
order, then its files, each name right before its node, then the name of the
node and the node itself), and it leaves the blocks of `h0` untouched and every
block of the build released. On a `NULL` pointer it returns at once and
releases nothing. -/
theorem C17_teardown_releases_everything (fuel : Nat) (entries names_buffer : List Byte)
    (a : Alloc) (d : Nat) (h0 : Heap) (r : Option rpf7_directory_node) (a1 : Alloc)
    (hbuild : rpf7_build_directory_tree fuel entries names_buffer a d = .ok (r, a1)) :
    (∃ p h1,
      rpf7_build_directory_tree_heap fuel entries names_buffer a d h0 = .ok ((p, h1), a1) ∧
      (r = none → p = none ∧ h1 = h0) ∧
      (∀ node, r = some node → ∃ t : LDir, p = some t.addr ∧ t.erase = node ∧
        t.repr h1 none ∧ t.released.Nodup ∧
        (∀ x, x ∈ t.released ↔ h0.length ≤ x ∧ x < h1.length) ∧
        ∀ fuel2, h1.length ≤ fuel2 →
          rpf7_free_directory_tree fuel2 p h1 =
            .ok (h0 ++ List.replicate (h1.length - h0.length) .freed, t.released))) ∧
    (∀ (fuel2 : Nat) (h : Heap), rpf7_free_directory_tree (fuel2 + 1) none h = .ok (h, [])) := by
  obtain ⟨p, h1, hheap⟩ := build_heap_returns entries names_buffer fuel a d h0 r a1 hbuild
  refine ⟨⟨p, h1, hheap, ?_, ?_⟩, fun fuel2 h => rfl⟩
  · intro hr
    rcases build_heap_spec entries names_buffer fuel a d h0 p h1 a1 hheap with
      ⟨hp, hh, _⟩ | ⟨t, _, _, _, _, _, hv⟩
    · exact ⟨hp, hh⟩
    · rw [hbuild, hr] at hv
      cases hv
  · intro node hr
    rcases build_heap_spec entries names_buffer fuel a d h0 p h1 a1 hheap with
      ⟨_, _, hv⟩ | ⟨t, hp, hext, ht, hnd, hmem, hv⟩
    · rw [hbuild, hr] at hv
      cases hv
    · rw [hbuild, hr] at hv
      cases hv
      refine ⟨t, hp, rfl, ht, hnd, hmem, ?_⟩
      intro fuel2 hfuel
      have hlen := nodup_length_le_of_range t.released h0.length h1.length hnd
        (fun x hx => (hmem x).mp hx)
      rw [hp, free_tree_spec fuel2 t h1 none (by omega) ht hnd,
        release_all h0 h1 t.released hext hmem]

/-- Witness of C17: the example of the spec, built in the empty heap from an
allocator whose fourth answer (the `strdup` of the name of the file) is a
failure, occupies five blocks; the teardown releases them in the order 4, 3, 2,
1, 0: the name and the node of the subdirectory, the node of the file, whose
name is `NULL`, then the name and the node of the root. -/
theorem C17_teardown_releases_everything_witness :
    rpf7_build_directory_tree 2 example_entries example_names
        [true, true, true, false, true, true] 0 =
      .ok (some (.mk (some [0x72]) [.mk (some [0x64]) [] []] [⟨none, 100, 0x302010⟩]), []) ∧
    rpf7_build_directory_tree_heap 2 example_entries example_names
        [true, true, true, false, true, true] 0 [] =
      .ok ((some 0, [.dir (some 1) (some 3) (some 2) none, .chars [0x72],
        .file none 100 0x302010 none, .dir (some 4) none none none, .chars [0x64]]), []) ∧
    rpf7_free_directory_tree 5 (some 0) [.dir (some 1) (some 3) (some 2) none, .chars [0x72],
        .file none 100 0x302010 none, .dir (some 4) none none none, .chars [0x64]] =
      .ok (List.replicate 5 .freed, [4, 3, 2, 1, 0]) ∧
    ∃ p h1,
      rpf7_build_directory_tree_heap 2 example_entries example_names
        [true, true, true, false, true, true] 0 [] = .ok ((p, h1), []) ∧
      (some (rpf7_directory_node.mk (some [0x72]) [.mk (some [0x64]) [] []]
          [⟨none, 100, 0x302010⟩]) = none → p = none ∧ h1 = []) ∧
      (∀ node, some (rpf7_directory_node.mk (some [0x72]) [.mk (some [0x64]) [] []]
          [⟨none, 100, 0x302010⟩]) = some node →
        ∃ t : LDir, p = some t.addr ∧ t.erase = node ∧
          t.repr h1 none ∧ t.released.Nodup ∧
          (∀ x, x ∈ t.released ↔ ([] : Heap).length ≤ x ∧ x < h1.length) ∧
          ∀ fuel2, h1.length ≤ fuel2 →
            rpf7_free_directory_tree fuel2 p h1 =
              .ok ([] ++ List.replicate (h1.length - ([] : Heap).length) .freed,
                t.released)) :=
  ⟨rfl, by decide, by decide,
    (C17_teardown_releases_everything 2 example_entries example_names
      [true, true, true, false, true, true] 0 [] _ [] rfl).1⟩

/-- C18: the checks of `rpf7_read_header` run in the order header size, magic,
body size. A buffer of at least 16 bytes whose version field is not
`0x52504637` gets the bad-magic message whatever its other fields, the width of
`size_t` and the allocator are; and whenever the body-too-small message is
written the buffer has at least 16 bytes and its version field is the magic. -/
theorem C18_check_order (w : Nat) (ea na : Bool) (data : List Byte) :
    (16 ≤ data.length → spec_le_u32 data 0 ≠ 0x52504637 →
      ∃ r, rpf7_read_header w ea na data = .ok r ∧ r.ret = -1 ∧
        r.stderr = some (.invalidVersion 0x52504637 (spec_le_u32 data 0)) ∧
        r.entries_out = none ∧ r.names_out = none) ∧
    (∀ r, rpf7_read_header w ea na data = .ok r → r.stderr = some .bodyTooSmall →
      16 ≤ data.length ∧ spec_le_u32 data 0 = 0x52504637) := by
  have hv : (header_of_bytes data).version = spec_le_u32 data 0 := by
    rw [header_of_bytes_eq]
  constructor
  · intro hlen hmagic
    unfold rpf7_read_header
    simp only [sizeof_header_eq]
    rw [if_neg (by omega)]
    simp only [hv]
    rw [if_pos hmagic]
    exact ⟨_, rfl, rfl, rfl, rfl, rfl⟩
  · intro r hr hs
    unfold rpf7_read_header at hr
    simp only [sizeof_header_eq] at hr
    by_cases h1 : data.length < 16
    · rw [if_pos h1] at hr
      cases hr
      cases hs
    · rw [if_neg h1] at hr
      simp only [hv] at hr
      by_cases h2 : spec_le_u32 data 0 ≠ 0x52504637
      · rw [if_pos h2] at hr
        cases hr
        cases hs
      · exact ⟨by omega, not_not.mp h2⟩

/-- Witness data for C18: `example_bad_magic` has 16 bytes, a wrong magic, and
announces `2 ^ 32 - 1` entries, so its body is too small as well; the message
is the bad-magic one. -/
theorem C18_check_order_witness :
    16 ≤ example_bad_magic.length ∧ spec_le_u32 example_bad_magic 0 ≠ 0x52504637 ∧
    example_bad_magic.length <
      16 + 16 * spec_le_u32 example_bad_magic 4 + spec_le_u32 example_bad_magic 8 ∧
    ∃ r, rpf7_read_header 64 true true example_bad_magic = .ok r ∧ r.ret = -1 ∧
      r.stderr = some (.invalidVersion 0x52504637 (spec_le_u32 example_bad_magic 0)) ∧
      r.entries_out = none ∧ r.names_out = none :=
  ⟨by decide, by decide, by decide,
    (C18_check_order 64 true true example_bad_magic).1 (by decide) (by decide)⟩

/-- C19: when no allocation fails, a call of the builder on a record that lies
inside the table and is a directory never returns `NULL`, whatever the
recursion budget. Hence, for a directory record `d` whose child range lies
inside the table without wrapping, whenever the build of `d` returns, it
returns a node with one directory child per directory record of the range and
one file child per other record of the range, `entry_count` children in
all. -/
theorem C19_one_child_per_index (fuel : Nat) (entries names_buffer : List Byte) (a : Alloc)
    (d : Nat) (r : Option rpf7_directory_node) (a1 : Alloc)
    (halloc : alloc_succeeds a)
    (hin : (d + 1) * 16 ≤ entries.length)
    (hdir : rpf7_is_directory (spec_record entries d) = true)
    (hrange : (entry_directory_first_entry_index (spec_record entries d) +
      entry_directory_entry_count (spec_record entries d)) * 16 ≤ entries.length)
    (hwrap : entry_directory_first_entry_index (spec_record entries d) +
      entry_directory_entry_count (spec_record entries d) < 2 ^ 32)
    (hterm : rpf7_build_directory_tree fuel entries names_buffer a d = .ok (r, a1)) :
    (∀ fuel2 a2 j, alloc_succeeds a2 → (j + 1) * 16 ≤ entries.length →
      rpf7_is_directory (spec_record entries j) = true →
      ∀ a3, rpf7_build_directory_tree fuel2 entries names_buffer a2 j ≠ .ok (none, a3)) ∧
    ∃ node, r = some node ∧
      node.subdirs.length =
        ((List.range' (entry_directory_first_entry_index (spec_record entries d))
            (entry_directory_entry_count (spec_record entries d))).filter
          (fun j => rpf7_is_directory (spec_record entries j))).length ∧
      node.files.length =
        ((List.range' (entry_directory_first_entry_index (spec_record entries d))
            (entry_directory_entry_count (spec_record entries d))).filter
          (fun j => !rpf7_is_directory (spec_record entries j))).length ∧
      node.subdirs.length + node.files.length =
        entry_directory_entry_count (spec_record entries d) := by
  refine ⟨?_, build_tree_ok_child_counts fuel entries names_buffer d r hin hdir hrange hwrap
    (build_tree_succeeds_ok entries names_buffer fuel a d halloc r a1 hterm).1⟩
  intro fuel2 a2 j ha2 hj hdj a3 hnone
  exact build_dir_not_none fuel2 entries names_buffer j hj hdj
    (build_tree_succeeds_ok entries names_buffer fuel2 a2 j ha2 none a3 hnone).1

/-- Witness of C19: in the example of the spec the directory at index 0 has
`entry_count = 2`, one directory child and one file child. -/
theorem C19_one_child_per_index_witness :
    alloc_succeeds [true, true, true, true, true, true] ∧
    (0 + 1) * 16 ≤ example_entries.length ∧
    rpf7_is_directory (spec_record example_entries 0) = true ∧
    (entry_directory_first_entry_index (spec_record example_entries 0) +
      entry_directory_entry_count (spec_record example_entries 0)) * 16 ≤
        example_entries.length ∧
    entry_directory_first_entry_index (spec_record example_entries 0) +
      entry_directory_entry_count (spec_record example_entries 0) < 2 ^ 32 ∧
    entry_directory_entry_count (spec_record example_entries 0) = 2 ∧
    rpf7_build_directory_tree 2 example_entries example_names
        [true, true, true, true, true, true] 0 =
      .ok (some (.mk (some [0x72]) [.mk (some [0x64]) [] []]
        [⟨some [0x66], 100, 0x302010⟩]), []) ∧
    ∃ node, some (rpf7_directory_node.mk (some [0x72]) [.mk (some [0x64]) [] []]
        [⟨some [0x66], 100, 0x302010⟩]) = some node ∧
      node.subdirs.length =
        ((List.range' (entry_directory_first_entry_index (spec_record example_entries 0))
            (entry_directory_entry_count (spec_record example_entries 0))).filter
          (fun j => rpf7_is_directory (spec_record example_entries j))).length ∧
      node.files.length =
        ((List.range' (entry_directory_first_entry_index (spec_record example_entries 0))
            (entry_directory_entry_count (spec_record example_entries 0))).filter
          (fun j => !rpf7_is_directory (spec_record example_entries j))).length ∧
      node.subdirs.length + node.files.length =
        entry_directory_entry_count (spec_record example_entries 0) :=
  ⟨by decide, by decide, by decide, by decide, by decide, by decide, rfl,
    (C19_one_child_per_index 2 example_entries example_names
      [true, true, true, true, true, true] 0 _ _
      (by decide) (by decide) (by decide) (by decide) (by decide) rfl).2⟩

/-- C20 as stated fails: on the one-record table `example_wrap_dir`, a
directory with `first_entry_index = 1` and `entry_count = 2 ^ 32 - 1`, the build
returns `NULL` when the `malloc` of the node fails, and with an empty names blob
the `strdup` of the name reads past the end of the blob, whatever the recursion
budget is. -/
theorem C20_counterexample :
    (0 + 1) * 16 ≤ example_wrap_dir.length ∧
    rpf7_is_directory (spec_record example_wrap_dir 0) = true ∧
    2 ^ 32 ≤ entry_directory_first_entry_index (spec_record example_wrap_dir 0) +
      entry_directory_entry_count (spec_record example_wrap_dir 0) ∧
    (∀ fuel, rpf7_build_directory_tree (fuel + 1) example_wrap_dir example_names [false] 0 =
      .ok (none, [])) ∧
    (∀ fuel, rpf7_build_directory_tree (fuel + 1) example_wrap_dir [] [] 0 =
      .fault .nameOutOfBounds) :=
  ⟨by decide, by decide, by decide,
    fun fuel => build_tree_alloc_fail fuel example_wrap_dir example_names [false] [] 0
      (by decide) (by decide) rfl,
    fun fuel => build_tree_name_fault fuel example_wrap_dir [] [] [] 0
      (by decide) (by decide) rfl _ rfl⟩

/-- C20, amended: the loop bound `first_entry_index + entry_count` is computed
modulo `2 ^ 32`. For a directory record `d` inside the table, with a name
terminated inside the names blob and `first_entry_index + entry_count >=
2 ^ 32`, and when the `malloc` of the directory node succeeds, the wrapped
bound is smaller than `first_entry_index`, the loop visits no index, and with
any positive recursion budget the build returns a node with the name `strdup`
returned and with empty directory and file chains, although `entry_count` is
not zero. -/
theorem C20_wrapped_bound (fuel : Nat) (entries names_buffer : List Byte) (a a1 : Alloc)
    (d : Nat)
    (halloc : alloc_request a = (true, a1))
    (hin : (d + 1) * 16 ≤ entries.length)
    (hdir : rpf7_is_directory (spec_record entries d) = true)
    (hname : (0 : Byte) ∈ names_buffer.drop (entry_name_offset (spec_record entries d)))
    (hwrap : 2 ^ 32 ≤ entry_directory_first_entry_index (spec_record entries d) +
      entry_directory_entry_count (spec_record entries d)) :
    (entry_directory_first_entry_index (spec_record entries d) +
        entry_directory_entry_count (spec_record entries d)) % 2 ^ 32 <
      entry_directory_first_entry_index (spec_record entries d) ∧
    child_indices (entry_directory_first_entry_index (spec_record entries d))
      (entry_directory_entry_count (spec_record entries d)) = [] ∧
    (∃ name a2,
      strdup a1 (names_buffer.drop (entry_name_offset (spec_record entries d))) =
        .ok (name, a2) ∧
      rpf7_build_directory_tree (fuel + 1) entries names_buffer a d =
        .ok (some (.mk name [] []), a2)) ∧
    entry_directory_entry_count (spec_record entries d) ≠ 0 := by
  have hf := entry_directory_first_entry_index_lt (spec_record entries d)
  have hc := entry_directory_entry_count_lt (spec_record entries d)
  obtain ⟨hlt, hnil⟩ := child_indices_of_wrap _ _ hf hc hwrap
  exact ⟨hlt, hnil,
    build_tree_no_children fuel entries names_buffer a a1 d hin hdir halloc hname hnil,
    by omega⟩

/-- Witness of C20: a lone directory with `first_entry_index = 1` and
`entry_count = 2 ^ 32 - 1`, built from an allocator whose first two answers are
successes. -/
theorem C20_wrapped_bound_witness :
    alloc_request [true, true, false] = (true, [true, false]) ∧
    (0 + 1) * 16 ≤ example_wrap_dir.length ∧
    rpf7_is_directory (spec_record example_wrap_dir 0) = true ∧
    (0 : Byte) ∈ example_names.drop (entry_name_offset (spec_record example_wrap_dir 0)) ∧
    entry_directory_first_entry_index (spec_record example_wrap_dir 0) = 1 ∧
    entry_directory_entry_count (spec_record example_wrap_dir 0) = 2 ^ 32 - 1 ∧
    rpf7_build_directory_tree (0 + 1) example_wrap_dir example_names [true, true, false] 0 =
      .ok (some (.mk (some [0x72]) [] []), [false]) ∧
    ∃ name a2,
      strdup [true, false]
        (example_names.drop (entry_name_offset (spec_record example_wrap_dir 0))) =
        .ok (name, a2) ∧
      rpf7_build_directory_tree (0 + 1) example_wrap_dir example_names [true, true, false] 0 =
        .ok (some (.mk name [] []), a2) :=
  ⟨rfl, by decide, by decide, by decide, by decide, by decide, rfl,
    (C20_wrapped_bound 0 example_wrap_dir example_names [true, true, false] [true, false] 0
      rfl (by decide) (by decide) (by decide) (by decide)).2.2.1⟩

end Rpf7
